import Mathlib

/-!
# PML inherent-optical-property model: shallow embedding and verified properties

The retrieval engine of `pml_wq/iop_model` (`pml_iop_calculate.c`, `pml_iop_tables.c`,
`pml_iop_model.c`, `apply_pml_iop_model.c`, and the grid search of
`pml_iop_calculate_test.c`) is embedded as pure functions.

Modelling conventions.

* `float` and `double` values are elements of an arbitrary linearly ordered field `K` with a
  floor function (exact arithmetic, no rounding, no NaN).  Every definition is computable
  when `K` is `ℚ`; every theorem also holds for `K = ℝ`.
* A C array (a pointer) is a total map `ℤ → K` from element index to value.  Whether an index
  that the code reads lies inside the allocated table is a separate proof obligation, stated
  explicitly where a property is about it.
* `int` and `long` values are elements of `ℤ`; the tables are taken small enough that no
  integer operation or conversion overflows.
* The C library functions `log`, `log10`, `exp` and `pow` are parameters (`Libm`).
* An output array parameter that a function fills on every path is returned as a value.
* Global variables are explicit: the loaded tables (`Tables`), the configuration (`Config`)
  and the two globals written during retrieval (`Globals`).
* A loop over the bands `0 .. NB-1` that writes a caller's array changes exactly those
  entries (`setNB`).  A local array filled by such a loop is the map given by the loop's
  formula; the reference band indices `bp[0]`, `bp[1]` are band indices.
* A `do ... while` loop is a recursion on the number of passes still allowed by its
  iteration cap; the counter and the loop test are kept as in the source.
-/

set_option linter.unusedSectionVars false

namespace PmlIop

/-! ## Two-band closed-form solvers (`pml_iop_calculate.c`) -/

section Solvers

variable {K : Type} [LinearOrderedField K]

/-- Function `iter_ab` (Case I): new `a` and `bb` at the reference pair.
Returns `(result, ab[0], ab[1])`. -/
def iter_ab (rho_w aw bbw F : ℤ → K) (epsb epsa : K) : ℤ × K × K :=
  let x := F 0 * rho_w 1
  let y := epsb * x
  let z := epsa * F 1 * rho_w 0
  let scale := y - z
  if scale = 0 then (1, -1, -1)
  else
    let ab0 := (F 0 * F 1 * (bbw 1 * epsb - bbw 0) + aw 0 * F 1 * rho_w 0 - aw 1 * y) / scale
    let ab1 := (rho_w 0 * rho_w 1 * (aw 0 - aw 1 * epsa) - bbw 0 * x + bbw 1 * z) / scale
    if ab0 < 0 ∨ ab1 < 0 then (1, -1, -1)
    else (0, ab0, ab1)

/-- Function `iter_ab2` (Case II): new `a` and `bb` at the reference pair.
Returns `(result, ab[0], ab[1])`. -/
def iter_ab2 (rho_w aw bbw F : ℤ → K) (epsb epsa : K) : ℤ × K × K :=
  let z := epsa * (rho_w 0 * rho_w 1 - rho_w 0 * F 1)
  let y := epsb * (rho_w 0 * rho_w 1 - rho_w 1 * F 0)
  let scale_a := z - y
  let z2 := -epsa * (rho_w 0 * rho_w 1 - rho_w 0 * F 1)
  let y2 := epsb * (rho_w 0 * rho_w 1 - rho_w 1 * F 0)
  let scale_bb := z2 + y2
  if scale_a = 0 ∨ scale_bb = 0 then (1, -1, -1)
  else
    let ab0 := (epsb * (rho_w 0 - F 0) * (rho_w 1 * (aw 1 + bbw 1) - F 1 * bbw 1)
                + (rho_w 1 - F 1) * (F 0 * bbw 0 - rho_w 0 * (aw 0 + bbw 0))) / scale_a
    let ab1 := (-rho_w 0 * (epsa * (F 1 * bbw 1 - rho_w 1 * (aw 1 + bbw 1))
                + rho_w 1 * (aw 0 + bbw 0)) + rho_w 1 * F 0 * bbw 0) / scale_bb
    if ab0 < 0 ∨ ab1 < 0 then (1, -1, -1)
    else (0, ab0, ab1)

/-- Function `iter_a`: absorption from backscatter, Case I. -/
def iter_a (rho_w aw bbw F bb : K) : K :=
  F * (bb + bbw) / rho_w - aw

/-- Function `iter_a2`: absorption from backscatter, Case II. -/
def iter_a2 (rho_w aw bbw F bb : K) : K :=
  F * (bb + bbw) / rho_w - (aw + bb + bbw)

/-- Scale denominator (determinant) of the Case I system
`rho_w[0]*(epsa*a + aw[0]) = F[0]*(epsb*bb + bbw[0])`, `rho_w[1]*(a + aw[1]) = F[1]*(bb + bbw[1])`. -/
def caseI_scale (rho_w F : ℤ → K) (epsb epsa : K) : K :=
  epsb * F 0 * rho_w 1 - epsa * F 1 * rho_w 0

/-- Solved absorption of the Case I system (Cramer's rule). -/
def caseI_a (rho_w aw bbw F : ℤ → K) (epsb epsa : K) : K :=
  ((F 0 * bbw 0 - rho_w 0 * aw 0) * (-F 1) - (-(F 0 * epsb)) * (F 1 * bbw 1 - rho_w 1 * aw 1))
    / caseI_scale rho_w F epsb epsa

/-- Solved backscatter of the Case I system (Cramer's rule). -/
def caseI_bb (rho_w aw bbw F : ℤ → K) (epsb epsa : K) : K :=
  (rho_w 0 * epsa * (F 1 * bbw 1 - rho_w 1 * aw 1) - rho_w 1 * (F 0 * bbw 0 - rho_w 0 * aw 0))
    / caseI_scale rho_w F epsb epsa

/-- Scale denominator (determinant) of the Case II system
`rho_w[0]*(epsa*a + aw[0] + epsb*bb + bbw[0]) = F[0]*(epsb*bb + bbw[0])`,
`rho_w[1]*(a + aw[1] + bb + bbw[1]) = F[1]*(bb + bbw[1])`. -/
def caseII_scale (rho_w F : ℤ → K) (epsb epsa : K) : K :=
  rho_w 0 * epsa * (rho_w 1 - F 1) - (rho_w 0 - F 0) * epsb * rho_w 1

/-- Solved absorption of the Case II system (Cramer's rule). -/
def caseII_a (rho_w aw bbw F : ℤ → K) (epsb epsa : K) : K :=
  ((F 0 * bbw 0 - rho_w 0 * (aw 0 + bbw 0)) * (rho_w 1 - F 1)
    - (rho_w 0 - F 0) * epsb * (F 1 * bbw 1 - rho_w 1 * (aw 1 + bbw 1)))
    / caseII_scale rho_w F epsb epsa

/-- Solved backscatter of the Case II system (Cramer's rule). -/
def caseII_bb (rho_w aw bbw F : ℤ → K) (epsb epsa : K) : K :=
  (rho_w 0 * epsa * (F 1 * bbw 1 - rho_w 1 * (aw 1 + bbw 1))
    - rho_w 1 * (F 0 * bbw 0 - rho_w 0 * (aw 0 + bbw 0)))
    / caseII_scale rho_w F epsb epsa

end Solvers

/-- A two-element C array given by its entries `[0]` and `[1]`. -/
def arr2 {K : Type} (v0 v1 : K) : ℤ → K := fun i => if i = 0 then v0 else v1

/-! ## Tables, configuration and library functions (`pml_iop_tables.c`, `pml_iop.h`) -/

/-- Number of bands, `#define NB 6`. -/
def NB : ℤ := 6

/-- The C library functions used by the model (`math.h`). -/
structure Libm (K : Type) where
  log : K → K
  log10 : K → K
  exp : K → K
  pow : K → K → K

/-- The look-up tables filled by `load_work_tab`: the global pointers and sizes of
`pml_iop_tables.c`.  A per-band table such as `ac[band][level]` is a map of two indices. -/
structure Tables (K : Type) where
  lambda : ℤ → K
  a_w : ℤ → K
  b_w : ℤ → K
  nband : ℤ
  ch_n : ℤ
  ch_lev : ℤ → K
  ac : ℤ → ℤ → K
  bc : ℤ → ℤ → K
  th_s_n : ℤ
  th_v_n : ℤ
  dphi_n : ℤ
  th_s_lev : ℤ → K
  th_v_lev : ℤ → K
  dphi_lev : ℤ → K
  ap_n : ℤ
  bp_n : ℤ
  ap_lev : ℤ → K
  bp_lev : ℤ → K
  refen : ℤ → K

/-- The constants stored by `load_config`. -/
structure Config (K : Type) where
  CASEII : ℤ
  bp : ℤ → ℤ
  maxit : ℤ
  b_tilde_w : K
  b_tilde_p : K
  eps_a_init : K
  scat_n : K
  scat_l : K
  tol : K
  eps_y_412_443 : K
  eps_p_412_443 : K
  ysbpa_s : K
  a_chl_star_443 : K
  a_chl_ratio : K

/-- The mutable globals: the current table offset `refind` (written by `setgeom`) and the
gelbstoff reference wavelength `ysbpa_0` (loaded by `load_config`, written by `iop_model`). -/
structure Globals (K : Type) where
  refind : ℤ
  ysbpa_0 : K

section TableFunctions

variable {K : Type} [LinearOrderedField K] [FloorRing K]

/-- The macro `M_PI` of `pml_iop.h`, a decimal literal. -/
def M_PI : K := 314159265358979323846 / 100000000000000000000

/-- The macro `radians(degrees)`. -/
def radians (d : K) : K := d * M_PI / 180

/-- Size of one geometry cell of `refen`, `ap_n*bp_n*nband`. -/
def Tables.block (T : Tables K) : ℤ := T.ap_n * T.bp_n * T.nband

/-- Element count of `refen` as allocated by `load_work_tab`. -/
def Tables.refen_size (T : Tables K) : ℤ :=
  T.th_s_n * T.th_v_n * T.dphi_n * T.ap_n * T.bp_n * T.nband

/-- The static `refind_max` set by `load_work_tab`: `refind - (ap_n*bp_n*nband)`. -/
def Tables.refind_max (T : Tables K) : ℤ := T.refen_size - T.ap_n * T.bp_n * T.nband

/-- Conversion `(int)` of a floating value: truncation toward zero. -/
def truncInt (v : K) : ℤ := if 0 ≤ v then ⌊v⌋ else ⌈v⌉

/-- The search loop shared by `interp` and `interp_l`:
`for (i=0;i<n;i++) if (x[i] >= u) { s=i-1; break; }` started at index `i` with `k` passes
left; the result is the value of `s` after the loop (`s` is 0 when no entry is found). -/
def searchLoop (x : ℤ → K) (u : K) : ℕ → ℤ → ℤ
  | 0, _ => 0
  | k + 1, i => if x i ≥ u then i - 1 else searchLoop x u k (i + 1)

/-- The segment index `s` used by `interp` and `interp_l`: the search result with
`if (s < 0) s=0`. -/
def segment (x : ℤ → K) (u : K) (n : ℤ) : ℤ :=
  let s := searchLoop x u n.toNat 0
  if s < 0 then 0 else s

/-- Function `interp`: fractional index of `u` on the axis `x` of `n` entries. -/
def interp (x : ℤ → K) (u : K) (n : ℤ) : K :=
  if u > x (n - 1) then ((n - 1 : ℤ) : K)
  else
    let s := segment x u n
    (u - x s) / (x (s + 1) - x s) + (s : K)

/-- Function `interp_l`: as `interp`, log-interpolated on every segment but the first. -/
def interp_l (lm : Libm K) (x : ℤ → K) (u : K) (n : ℤ) : K :=
  if u > x (n - 1) then ((n - 1 : ℤ) : K)
  else
    let s := segment x u n
    if s = 0 then (u - x s) / (x (s + 1) - x s) + (s : K)
    else (lm.log u - lm.log (x s)) / (lm.log (x (s + 1)) - lm.log (x s)) + (s : K)

/-- Function `geo2iop`: IOP value of band `band` for the geophysical value `value`. -/
def geo2iop (lm : Libm K) (levels : ℤ → K) (iopv : ℤ → ℤ → K) (band : ℤ) (value : K)
    (size : ℤ) : K :=
  let ind := interp_l lm levels value size
  iopv band (truncInt ind) * ((⌊ind⌋ : K) + 1 - ind)
    + iopv band (truncInt ind + 1) * (ind - (⌊ind⌋ : K))

/-- The relative azimuth after the two wrap-around statements of `setgeom`. -/
def wrap_dphi (dphi : K) : K :=
  let d1 := if dphi < 0 then dphi + M_PI * 2 else dphi
  if d1 > M_PI * 2 then d1 - M_PI * 2 else d1

/-- Function `setgeom`: returns `(status, refind)`, the status and the new value of the
global table offset. -/
def setgeom (T : Tables K) (sun_theta sen_theta dphi : K) : ℤ × ℤ :=
  let th_s_ent : ℤ := ⌊interp T.th_s_lev sun_theta T.th_s_n + 1 / 2⌋
  let th_v_ent : ℤ := ⌊interp T.th_v_lev sen_theta T.th_v_n + 1 / 2⌋
  let dphi_ent : ℤ := ⌊interp T.dphi_lev (wrap_dphi dphi) T.dphi_n + 1 / 2⌋
  let refind : ℤ := th_s_ent * T.th_v_n * T.dphi_n * T.nband * T.bp_n * T.ap_n
    + th_v_ent * T.dphi_n * T.nband * T.bp_n * T.ap_n
    + dphi_ent * T.nband * T.bp_n * T.ap_n
  if refind > T.refind_max then (1, refind) else (0, refind)

/-- The lower corner index chosen by `fint`: `if (a>0) al=(int)floor(a); else al=0;`. -/
def fint_lo (a : K) : ℤ := if a > 0 then ⌊a⌋ else 0

/-- Function `fint`: interpolation of `refen` at fractional indices `(a, b)` for `band`,
relative to the table offset `refind`. -/
def fint (T : Tables K) (refind : ℤ) (a b : K) (band : ℤ) : K :=
  let al := fint_lo a
  let bl := fint_lo b
  let bh := bl + 1
  let ah := al + 1
  if bh > 15 ∨ ah > 15 then 0
  else
    let ral := T.refen (refind + band * T.bp_n * T.ap_n + bl * T.ap_n + ah) * (a - (al : K))
      + T.refen (refind + band * T.bp_n * T.ap_n + bl * T.ap_n + al) * ((ah : K) - a)
    let rah := T.refen (refind + band * T.bp_n * T.ap_n + bh * T.ap_n + ah) * (a - (al : K))
      + T.refen (refind + band * T.bp_n * T.ap_n + bh * T.ap_n + al) * ((ah : K) - a)
    rah * (b - (bl : K)) + ral * ((bh : K) - b)

/-- Function `f_ab`: the f/Q value for absorption `a` and scattering `b`. -/
def f_ab (lm : Libm K) (T : Tables K) (refind : ℤ) (a b : K) (band : ℤ) : K :=
  let ain := interp_l lm T.ap_lev a T.ap_n
  let bin := interp_l lm T.bp_lev b T.bp_n
  fint T refind ain bin band

/-- The axis `x` is strictly ascending on the positions `0 .. n-1`. -/
def StrictAsc (x : ℤ → K) (n : ℤ) : Prop :=
  ∀ i j : ℤ, 0 ≤ i → i < j → j < n → x i < x j


end TableFunctions

/-- The axis `0, 1, 2, ...` (entry `i` is `i`), over `ℚ`. -/
def axis01 : ℤ → ℚ := fun i => (i : ℚ)

/-- Library functions over `ℚ` used to instantiate the theorems: `log`, `log10` and `exp` are
the identity and `pow a b` is `a`. -/
def demoLibm : Libm ℚ := ⟨id, id, id, fun a _ => a⟩

/-- Tables over `ℚ` used to instantiate the theorems: three geometry axes `0, 1` (so 8
geometry cells), 16 absorption and 16 scattering levels `0 .. 15`, 6 bands, and
`refen[k] = k`. -/
def demoTables : Tables ℚ where
  lambda := fun i => if i = 0 then 412 else if i = 1 then 443 else if i = 2 then 490
    else if i = 3 then 510 else if i = 4 then 555 else 670
  a_w := fun _ => 1 / 100
  b_w := fun _ => 1 / 100
  nband := 6
  ch_n := 2
  ch_lev := axis01
  ac := fun _ _ => 1
  bc := fun _ _ => 1
  th_s_n := 2
  th_v_n := 2
  dphi_n := 2
  th_s_lev := axis01
  th_v_lev := axis01
  dphi_lev := axis01
  ap_n := 16
  bp_n := 16
  ap_lev := axis01
  bp_lev := axis01
  refen := fun k => (k : ℚ)


/-- A configuration over `ℚ` used to instantiate the theorems: Case I, reference bands
`bp = {2, 3}` (490 and 510 nm). -/
def demoConfig : Config ℚ where
  CASEII := 0
  bp := fun i => if i = 0 then 2 else 3
  maxit := 20
  b_tilde_w := 1 / 2
  b_tilde_p := 1 / 50
  eps_a_init := 1
  scat_n := 1
  scat_l := 510
  tol := 1 / 1000
  eps_y_412_443 := 1
  eps_p_412_443 := 1
  ysbpa_s := -1 / 100
  a_chl_star_443 := 1
  a_chl_ratio := 1

/-! ## The iterative retrieval (`pml_iop_calculate.c`) -/

section Retrieval

variable {K : Type} [LinearOrderedField K] [FloorRing K]

/-- The seed chlorophyll concentrations `init_chls` of `mod_iter`. -/
def init_chls : List K := [20, 10, 1, 1 / 10, 1 / 100]

/-- The effect of a loop `for (i=0;i<NB;i++) arr[i] = val[i];` on the array `old`. -/
def setNB (old val : ℤ → K) : ℤ → K := fun i => if 0 ≤ i ∧ i < NB then val i else old i

/-- The local array `bbw` of `mod_iter`: `bbw[i]=b_w[i]*b_tilde_w`. -/
def bbw_of (T : Tables K) (c : Config K) : ℤ → K := fun i => T.b_w i * c.b_tilde_w

/-- The local array `bn` of `mod_iter`: `pow(lambda[i]/scat_l,scat_n)` divided by
`temp=pow(lambda[bp[1]]/scat_l,scat_n)`. -/
def bn_of (lm : Libm K) (T : Tables K) (c : Config K) : ℤ → K := fun i =>
  lm.pow (T.lambda i / c.scat_l) c.scat_n / lm.pow (T.lambda (c.bp 1) / c.scat_l) c.scat_n

/-- The value assigned to `FC[i]` from `a[i]`, `b[i]`, `bb[i]`, for either formulation. -/
def FC_of (lm : Libm K) (T : Tables K) (c : Config K) (refind : ℤ) (a b bb : K) (i : ℤ) : K :=
  if c.CASEII ≠ 0 then
    f_ab lm T refind a b i * (1 + (bb + bbw_of T c i) / (a + T.a_w i))
  else f_ab lm T refind a b i

/-- The arrays updated by the iteration loop of `mod_iter`. -/
structure PassState (K : Type) where
  a : ℤ → K
  bb : ℤ → K
  FC : ℤ → K

/-- One pass of the body of the `do ... while` loop of `mod_iter`:
returns `(result, state, df)`, where `result` is the code of the two-band solve and the
state is unchanged when `result` is non-zero. -/
def mod_iter_pass (lm : Libm K) (T : Tables K) (c : Config K) (refind : ℤ)
    (rho_w init_a init_b : ℤ → K) (eps_a : K) (st : PassState K) : ℤ × PassState K × K :=
  let F := st.FC
  let bbw := bbw_of T c
  let bn := bn_of lm T c
  let eps_b := bn (c.bp 0)
  let rho_wT := arr2 (rho_w (c.bp 0)) (rho_w (c.bp 1))
  let awT := arr2 (T.a_w (c.bp 0)) (T.a_w (c.bp 1))
  let bbwT := arr2 (bbw (c.bp 0)) (bbw (c.bp 1))
  let FT := arr2 (F (c.bp 0)) (F (c.bp 1))
  let r := if c.CASEII ≠ 0 then iter_ab2 rho_wT awT bbwT FT eps_b eps_a
    else iter_ab rho_wT awT bbwT FT eps_b eps_a
  if r.1 ≠ 0 then (r.1, st, 0)
  else
    let a1 := Function.update (Function.update st.a (c.bp 0) (r.2.1 * eps_a)) (c.bp 1) r.2.1
    let bb1 := setNB st.bb (fun i => r.2.2 * bn i)
    let a2 := setNB a1 (fun i =>
      if i ≠ c.bp 0 ∧ i ≠ c.bp 1 then
        if rho_w i > 0 then
          if c.CASEII ≠ 0 then iter_a2 (rho_w i) (T.a_w i) (bbw i) (F i) (bb1 i)
          else iter_a (rho_w i) (T.a_w i) (bbw i) (F i) (bb1 i)
        else 0
      else a1 i)
    let FC1 : ℤ → K := fun i =>
      let fc := FC_of lm T c refind (a2 i) (bb1 i / c.b_tilde_p) (bb1 i) i
      if fc < -2 then f_ab lm T refind (init_a i) (init_b i) i else fc
    let df := |FC1 (c.bp 0) - F (c.bp 0)| + |FC1 (c.bp 1) - F (c.bp 1)|
    (0, ⟨a2, bb1, FC1⟩, df)

/-- Outcome of the `do ... while` loop of `mod_iter`; `passes` counts the executions of the
loop body. -/
structure LoopResult (K : Type) where
  fail : ℤ
  iter : ℤ
  st : PassState K
  passes : ℕ

/-- One execution of the loop body followed by the loop test: the outcome if the loop stops
here, and whether the test `(iter <= maxit) && (df >= tol)` asks for another pass. -/
def mod_iter_step (lm : Libm K) (T : Tables K) (c : Config K) (refind : ℤ)
    (rho_w init_a init_b : ℤ → K) (eps_a : K) (iter : ℤ) (st : PassState K) :
    LoopResult K × Bool :=
  let p := mod_iter_pass lm T c refind rho_w init_a init_b eps_a st
  if p.1 ≠ 0 then (⟨2, iter, st, 1⟩, false)
  else (⟨0, iter + 1, p.2.1, 1⟩, decide (iter + 1 ≤ c.maxit ∧ p.2.2 ≥ c.tol))

/-- The `do ... while` loop of `mod_iter`, with `fuel` further passes allowed after the
first one. -/
def mod_iter_loop (lm : Libm K) (T : Tables K) (c : Config K) (refind : ℤ)
    (rho_w init_a init_b : ℤ → K) (eps_a : K) : ℕ → ℤ → PassState K → LoopResult K
  | 0, iter, st => (mod_iter_step lm T c refind rho_w init_a init_b eps_a iter st).1
  | k + 1, iter, st =>
    let r := mod_iter_step lm T c refind rho_w init_a init_b eps_a iter st
    if r.2 then
      let r2 := mod_iter_loop lm T c refind rho_w init_a init_b eps_a k r.1.iter r.1.st
      ⟨r2.fail, r2.iter, r2.st, r2.passes + 1⟩
    else r.1

/-- Result of `mod_iter`: the return value `fail`, the arrays `a`, `bb` and `rho_w` as left
in the caller, the global `refind`, the number `cc` of seeds tried and the total number of
loop passes. -/
structure ModIterResult (K : Type) where
  fail : ℤ
  a : ℤ → K
  bb : ℤ → K
  rho_w : ℤ → K
  refind : ℤ
  cc : ℤ
  passes : ℕ

/-- The body of the seed loop of `mod_iter` for the seed chlorophyll `chl`. -/
def mod_iter_seed (lm : Libm K) (T : Tables K) (c : Config K)
    (sun_theta sen_theta dphi eps_a : K) (chl : K) (r : ModIterResult K) : ModIterResult K :=
  let init_a : ℤ → K := fun i => geo2iop lm T.ch_lev T.ac i chl T.ch_n
  let init_b : ℤ → K := fun i => geo2iop lm T.ch_lev T.bc i chl T.ch_n
  let refind := (setgeom T sun_theta sen_theta dphi).2
  let rho_w := setNB r.rho_w (fun i => if r.rho_w i < 0 then 0 else r.rho_w i)
  let a0 := setNB r.a init_a
  let bb0 := setNB r.bb (fun i => init_b i * c.b_tilde_p)
  let FC0 : ℤ → K := fun i =>
    FC_of lm T c refind (init_a i) (init_b i) (init_b i * c.b_tilde_p) i
  let l := mod_iter_loop lm T c refind rho_w init_a init_b eps_a c.maxit.toNat 0 ⟨a0, bb0, FC0⟩
  ⟨if l.iter > c.maxit then 2 else l.fail, l.st.a, l.st.bb, rho_w, refind, r.cc + 1,
    r.passes + l.passes⟩

/-- The loop `while ((fail == 2) && (cc < 5))` of `mod_iter` over the remaining seeds. -/
def mod_iter_seeds (lm : Libm K) (T : Tables K) (c : Config K)
    (sun_theta sen_theta dphi eps_a : K) : List K → ModIterResult K → ModIterResult K
  | [], r => r
  | chl :: rest, r =>
    if r.fail = 2 then
      mod_iter_seeds lm T c sun_theta sen_theta dphi eps_a rest
        (mod_iter_seed lm T c sun_theta sen_theta dphi eps_a chl r)
    else r

/-- Function `mod_iter`: total absorption `a` and backscatter `bb` from the reflectance. -/
def mod_iter (lm : Libm K) (T : Tables K) (c : Config K) (refind : ℤ) (rho_w : ℤ → K)
    (sun_theta sen_theta dphi eps_a : K) (a bb : ℤ → K) : ModIterResult K :=
  mod_iter_seeds lm T c sun_theta sen_theta dphi eps_a init_chls ⟨2, a, bb, rho_w, refind, 0, 0⟩

end Retrieval

/-! ## Biogeochemical partition and `iop_model` (`pml_iop_calculate.c`) -/

section Partition

variable {K : Type} [LinearOrderedField K] [FloorRing K]

/-- Function `biogeochem_mod`: returns `(a412_m, ady412_m, aph412_m)`.  The value is the one of
the source where both logarithm arguments are positive, `ady443 > 0` and `a443 - ady443 > 0`;
for another argument `log10` is NaN in C, a value the total library function `lm.log10` does
not represent. -/
def biogeochem_mod (lm : Libm K) (a443 ady443 : K) : K × K × K :=
  let ady_part := 59 / 1000 * lm.pow (lm.log10 ady443) 2 + 1099 / 1000 * lm.log10 ady443
    + 229 / 1000
  let aph_part := 4 / 1000 * lm.pow (lm.log10 (a443 - ady443)) 2
    + 1033 / 1000 * lm.log10 (a443 - ady443) + (-59 / 1000)
  (lm.pow 10 ady_part + lm.pow 10 aph_part, lm.pow 10 ady_part, lm.pow 10 aph_part)

/-- State of the bisection loop of `biogeochem_iter`. -/
structure BisectState (K : Type) where
  lower : K
  upper : K
  next : K
  a412_m : K
  ady412_m : K
  aph412_m : K
  iter : ℤ

/-- One execution of the body of the bisection loop followed by the loop test
`(iter <= MAXIT) && (df >= TOL)` with `MAXIT = 20`, `TOL = 0.001`. -/
def biogeochem_step (lm : Libm K) (a412 a443 : K) (st : BisectState K) :
    BisectState K × Bool :=
  let next := 1 / 2 * (st.lower + st.upper)
  let m := biogeochem_mod lm a443 next
  let upper := if m.1 - a412 > 0 then next else st.upper
  let lower := if m.1 - a412 < 0 then next else st.lower
  let df := |m.1 - a412|
  (⟨lower, upper, next, m.1, m.2.1, m.2.2, st.iter + 1⟩,
    decide (st.iter + 1 ≤ 20 ∧ df ≥ 1 / 1000))

/-- The bisection `do ... while` loop, with `fuel` further passes allowed after the first. -/
def biogeochem_loop (lm : Libm K) (a412 a443 : K) : ℕ → BisectState K → BisectState K
  | 0, st => (biogeochem_step lm a412 a443 st).1
  | k + 1, st =>
    let r := biogeochem_step lm a412 a443 st
    if r.2 then biogeochem_loop lm a412 a443 k r.1 else r.1

/-- Function `biogeochem_iter`: returns `(result, ady443, ady412, aph412)`; the three values
are stored through the output pointers only when `result` is 0. -/
def biogeochem_iter (lm : Libm K) (c : Config K) (a412 a443 : K) : ℤ × K × K × K :=
  let lower := 1 / 100 * a443
  let upper := a443 - 1 / 1000
  let m0 := biogeochem_mod lm a443 upper
  let st := biogeochem_loop lm a412 a443 20 ⟨lower, upper, 0, m0.1, m0.2.1, m0.2.2, 0⟩
  if st.iter > c.maxit then (1, st.next, st.ady412_m, st.aph412_m)
  else (0, st.next, st.ady412_m, st.aph412_m)

/-- Result of `iop_model`: the return value, the four output arrays, the caller's `rho_w`
and the globals as left by the call. -/
structure IopResult (K : Type) where
  result : ℤ
  a : ℤ → K
  bbp : ℤ → K
  ady : ℤ → K
  ap : ℤ → K
  rho_w : ℤ → K
  g : Globals K

/-- The empirical fix of `iop_model`: `x2` clamped to `[0.15, 0.6]`. -/
def empirical_x2 (a0 a1 : K) : K :=
  let x2 := -8 / 10 + 14 / 10 * (a1 / a0)
  let x2a := if x2 < 15 / 100 then 15 / 100 else x2
  if x2a > 6 / 10 then 6 / 10 else x2a

/-- Function `iop_model`. -/
def iop_model (lm : Libm K) (T : Tables K) (c : Config K) (g : Globals K) (rho_w : ℤ → K)
    (sun_theta sen_theta dphi : K) (a bbp ady ap : ℤ → K) : IopResult K :=
  let eps_a := c.eps_a_init
  let m := mod_iter lm T c g.refind rho_w sun_theta sen_theta dphi eps_a a bbp
  if m.fail ≠ 0 then ⟨m.fail, m.a, m.bb, ady, ap, m.rho_w, ⟨m.refind, g.ysbpa_0⟩⟩
  else if m.a 0 > 0 ∧ m.a 1 > 0 ∧ m.a 2 > 0 then
    let bi := biogeochem_iter lm c (m.a 0) (m.a 1)
    let ysbpa_0a := if bi.1 ≠ 0 then g.ysbpa_0 else T.lambda 1
    let ysbpa_sc := lm.log (bi.2.2.1 / bi.2.1) / (T.lambda 0 - T.lambda 1)
    let ady1 := if bi.1 ≠ 0 then ady
      else setNB (Function.update (Function.update ady 0 bi.2.2.1) 1 bi.2.1)
        (fun i => bi.2.1 * lm.exp (ysbpa_sc * (T.lambda i - ysbpa_0a)))
    let ap1 := if bi.1 ≠ 0 then ap
      else setNB (Function.update ap 0 bi.2.2.2) (fun i => m.a i - ady1 i)
    let x1 := if bi.1 ≠ 0 then 1 / 10 else ap1 1 / m.a 1
    if x1 < 15 / 100 ∨ x1 > 6 / 10 then
      let x2 := empirical_x2 (m.a 0) (m.a 1)
      let ap2 := Function.update ap1 1 (m.a 1 * x2)
      let ady_0 := m.a 1 - ap2 1
      let ady3 := setNB ady1 (fun i => ady_0 * lm.exp (c.ysbpa_s * (T.lambda i - ysbpa_0a)))
      let ap3 := setNB ap2 (fun i => m.a i - ady3 i)
      ⟨0, m.a, m.bb, ady3, ap3, m.rho_w, ⟨m.refind, ysbpa_0a⟩⟩
    else ⟨bi.1, m.a, m.bb, ady1, ap1, m.rho_w, ⟨m.refind, ysbpa_0a⟩⟩
  else ⟨m.fail, m.a, m.bb, ady, ap, m.rho_w, ⟨m.refind, g.ysbpa_0⟩⟩

end Partition

/-! ## Drivers (`pml_iop_model.c`, `apply_pml_iop_model.c`) -/

section Drivers

variable {K : Type} [LinearOrderedField K] [FloorRing K]

/-- The band indices `0 .. NB-1` in loop order. -/
def bands : List ℤ := [0, 1, 2, 3, 4, 5]

/-- The sentinel written by the single-point driver on failure. -/
def sentinel : K := -99 / 10

/-- The single-point branch of `main` (`pml_iop_model.c`): the 24 values printed, in the
order `a`, `ady`, `ap`, `bbp`.  The arrays `a`, `bbp`, `ady`, `ap` are the initial contents
of the local arrays. -/
def main_single_point (lm : Libm K) (T : Tables K) (c : Config K) (g : Globals K)
    (pure_water_flag Rrs_flag : ℤ) (Rrs rho_w : ℤ → K) (sun_theta sen_theta dphi : K)
    (a bbp ady ap : ℤ → K) : List K :=
  let rho := if Rrs_flag ≠ 0 then setNB rho_w (fun i => M_PI * Rrs i) else rho_w
  let r := iop_model lm T c g rho sun_theta sen_theta dphi a bbp ady ap
  let a1 := if r.result ≠ 0 then setNB r.a (fun _ => sentinel) else r.a
  let ady1 := if r.result ≠ 0 then setNB r.ady (fun _ => sentinel) else r.ady
  let ap1 := if r.result ≠ 0 then setNB r.ap (fun _ => sentinel) else r.ap
  let bbp1 := if r.result ≠ 0 then setNB r.bbp (fun _ => sentinel) else r.bbp
  bands.map (fun i =>
      if pure_water_flag = 1 then (if a1 i > 0 then a1 i + T.a_w i else a1 i) else a1 i)
    ++ bands.map ady1 ++ bands.map ap1 ++ bands.map bbp1

/-- The arrays `a`, `bbp`, `ady`, `ap` that the batch drivers declare outside the pixel loop,
and the globals; together the state carried from one pixel to the next. -/
structure Carried (K : Type) where
  a : ℤ → K
  bbp : ℤ → K
  ady : ℤ → K
  ap : ℤ → K
  g : Globals K

/-- The output rasters `out_a[band][pix]`, ... of `apply_pml_iop_model`. -/
structure OutBufs (K : Type) where
  out_a : ℤ → ℤ → K
  out_bbp : ℤ → ℤ → K
  out_ady : ℤ → ℤ → K
  out_ap : ℤ → ℤ → K

/-- A write `out[j][pix] = v[j]` for the bands `first <= j < last`, guarded by the valid range
`[0, 100]`. -/
def write_valid (out : ℤ → ℤ → K) (v : ℤ → K) (first last pix : ℤ) : ℤ → ℤ → K :=
  fun j p => if p = pix ∧ first ≤ j ∧ j < last ∧ v j ≥ 0 ∧ v j ≤ 100 then v j else out j p

/-- The body of the pixel loop of `apply_pml_iop_model` for pixel `pix`, in the pass `i` of
the outer loop. -/
def apply_pixel (lm : Libm K) (T : Tables K) (c : Config K) (saveram i : ℤ)
    (rho_w : ℤ → ℤ → K) (senz solz sena sola : ℤ → K) (pix : ℤ)
    (s : Carried K × OutBufs K) : Carried K × OutBufs K :=
  let tmp_rho_w : ℤ → K := fun j => rho_w j pix
  if bands.all (fun j => decide (rho_w j pix = 0)) then s
  else
    let sen_theta := radians (senz pix)
    let sol_theta := radians (solz pix)
    let dphi := radians (sena pix) - radians (sola pix)
    let r := iop_model lm T c s.1.g tmp_rho_w sol_theta sen_theta dphi s.1.a s.1.bbp s.1.ady
      s.1.ap
    let lastband := if saveram ≠ 0 then i + 1 else NB
    (⟨r.a, r.bbp, r.ady, r.ap, r.g⟩,
      ⟨write_valid s.2.out_a r.a i lastband pix, write_valid s.2.out_bbp r.bbp i lastband pix,
        write_valid s.2.out_ady r.ady i lastband pix, write_valid s.2.out_ap r.ap i lastband pix⟩)

/-- The pixel loop `for(pix=0; pix<bufsize; pix++)` of `apply_pml_iop_model`. -/
def apply_pixels (lm : Libm K) (T : Tables K) (c : Config K) (saveram i : ℤ)
    (rho_w : ℤ → ℤ → K) (senz solz sena sola : ℤ → K) (bufsize : ℕ)
    (s : Carried K × OutBufs K) : Carried K × OutBufs K :=
  (List.range bufsize).foldl
    (fun st pix => apply_pixel lm T c saveram i rho_w senz solz sena sola (pix : ℤ) st) s

/-- The table `F0` of `pml_iop_global.h`. -/
def F0 : ℤ → K := fun i =>
  if i = 0 then 173004 / 1000 else if i = 1 then 190154 / 1000
  else if i = 2 then 196473 / 1000 else if i = 3 then 188158 / 1000
  else if i = 4 then 183010 / 1000 else 151143 / 1000

/-- State of the `GLOBAL` pixel loop of `main`: the carried locals and the output images. -/
structure GlobalState (K : Type) where
  line : ℤ
  sun_theta : K
  cs : Carried K
  atot : ℤ → K
  adg : ℤ → K
  aph : ℤ → K
  bb : ℤ → K
  TC : ℤ → K
  aph_ratio : ℤ → K

/-- A band-interleaved write `img[(pixel*NB)+i] = v[i]` for `i = 0 .. NB-1`. -/
def write_bip (img : ℤ → K) (v : ℤ → K) (pixel : ℤ) : ℤ → K :=
  fun k => if pixel * NB ≤ k ∧ k < pixel * NB + NB then v (k - pixel * NB) else img k

/-- The body of the `GLOBAL` pixel loop of `main` (`pml_iop_model.c`); `nLw band pixel` are
the six input images. -/
def global_pixel (lm : Libm K) (T : Tables K) (c : Config K) (width month : ℤ)
    (zenith_float : ℤ → K) (nLw : ℤ → ℤ → K) (sen_theta dphi : K) (pixel : ℤ)
    (s : GlobalState K) : GlobalState K :=
  let line := if pixel % width = 0 then s.line + 1 else s.line
  let sun_theta := if pixel % width = 0 then zenith_float (12 * line + (month - 1))
    else s.sun_theta
  if bands.all (fun j => decide (nLw j pixel > 0)) then
    let rho_w : ℤ → K := fun j => M_PI * nLw j pixel / F0 j
    let r := iop_model lm T c s.cs.g rho_w sun_theta sen_theta dphi s.cs.a s.cs.bbp s.cs.ady
      s.cs.ap
    let aph := write_bip s.aph r.ap pixel
    let TC := Function.update s.TC pixel
      (lm.pow (aph (pixel * NB + 1) / (378 / 10000)) (1595 / 1000))
    ⟨line, sun_theta, ⟨r.a, r.bbp, r.ady, r.ap, r.g⟩, write_bip s.atot r.a pixel,
      write_bip s.adg r.ady pixel, aph, write_bip s.bb r.bbp pixel, TC,
      Function.update s.aph_ratio pixel
        (c.a_chl_star_443 * c.a_chl_ratio * TC pixel / aph (pixel * NB + 1))⟩
  else ⟨line, sun_theta, s.cs, s.atot, s.adg, s.aph, s.bb, s.TC, s.aph_ratio⟩

end Drivers



/-- A one-pixel image over `ℚ` used to instantiate the theorems: reflectance 1 in band 0 and
0 in the other bands. -/
def demoImage : ℤ → ℤ → ℚ := fun k _ => if k = 0 then 1 else 0

/-- A loop state over `ℚ` used to instantiate the theorems: the arrays `ady` and `ap` hold
`1/2` and `1/4` from an earlier pixel, the output rasters are zero. -/
def demoState : Carried ℚ × OutBufs ℚ :=
  (⟨fun _ => 0, fun _ => 0, fun _ => 1 / 2, fun _ => 1 / 4, ⟨0, 443⟩⟩,
    ⟨fun _ _ => 0, fun _ _ => 0, fun _ _ => 0, fun _ _ => 0⟩)

/-! ## Notions used to state the convergence of the iteration -/

section Convergence

variable {K : Type} [LinearOrderedField K] [FloorRing K]

/-- The state reached from `st` after `k` further passes of `pass`, none of them with a
degenerate solve (a non-zero code); `none` when one of them is degenerate. -/
def state_after (pass : PassState K → ℤ × PassState K × K) : ℕ → PassState K →
    Option (PassState K)
  | 0, st => some st
  | k + 1, st => if (pass st).1 ≠ 0 then none else state_after pass k (pass st).2.1

/-- Pass number `q + 1` from `st` is reached with no degenerate solve before it, its own
solve is not degenerate, and its sum of absolute f/Q changes `df` is below `tol`. -/
def converges_at (pass : PassState K → ℤ × PassState K × K) (tol : K) (st : PassState K)
    (q : ℕ) : Prop :=
  ∃ s, state_after pass q st = some s ∧ (pass s).1 = 0 ∧ (pass s).2.2 < tol

/-- The reflectance used by a seed of `mod_iter`: negative entries of the bands set to 0. -/
def seed_rho (r : ModIterResult K) : ℤ → K :=
  setNB r.rho_w (fun i => if r.rho_w i < 0 then 0 else r.rho_w i)

/-- The pass of the iteration loop run by the seed `chl` entered with the caller state `r`. -/
def seed_pass (lm : Libm K) (T : Tables K) (c : Config K)
    (sun_theta sen_theta dphi eps_a : K) (chl : K) (r : ModIterResult K) :
    PassState K → ℤ × PassState K × K :=
  mod_iter_pass lm T c (setgeom T sun_theta sen_theta dphi).2 (seed_rho r)
    (fun i => geo2iop lm T.ch_lev T.ac i chl T.ch_n)
    (fun i => geo2iop lm T.ch_lev T.bc i chl T.ch_n) eps_a

/-- The arrays `a`, `bb`, `FC` prepared by the seed `chl` before its first pass. -/
def seed_state (lm : Libm K) (T : Tables K) (c : Config K)
    (sun_theta sen_theta dphi : K) (chl : K) (r : ModIterResult K) : PassState K :=
  ⟨setNB r.a (fun i => geo2iop lm T.ch_lev T.ac i chl T.ch_n),
    setNB r.bb (fun i => geo2iop lm T.ch_lev T.bc i chl T.ch_n * c.b_tilde_p),
    fun i => FC_of lm T c (setgeom T sun_theta sen_theta dphi).2
      (geo2iop lm T.ch_lev T.ac i chl T.ch_n) (geo2iop lm T.ch_lev T.bc i chl T.ch_n)
      (geo2iop lm T.ch_lev T.bc i chl T.ch_n * c.b_tilde_p) i⟩

/-- The caller state at the entry of seed number `j` (counted from 0) of the list `l`, when
the seeds before it have all been run. -/
def seed_chain (lm : Libm K) (T : Tables K) (c : Config K)
    (sun_theta sen_theta dphi eps_a : K) (l : List K) (r : ModIterResult K) :
    ℕ → ModIterResult K
  | 0 => r
  | j + 1 => mod_iter_seed lm T c sun_theta sen_theta dphi eps_a (l.getD j 0)
      (seed_chain lm T c sun_theta sen_theta dphi eps_a l r j)

/-- Seed number `j` of `mod_iter` converges within the cap: one of its first `maxit` passes
is reached without a degenerate solve and has `df < tol`. -/
def seed_converges (lm : Libm K) (T : Tables K) (c : Config K) (refind : ℤ) (rho_w : ℤ → K)
    (sun_theta sen_theta dphi eps_a : K) (a bb : ℤ → K) (j : ℕ) : Prop :=
  ∃ q : ℕ, (q : ℤ) + 1 ≤ c.maxit
    ∧ converges_at
      (seed_pass lm T c sun_theta sen_theta dphi eps_a (init_chls.getD j 0)
        (seed_chain lm T c sun_theta sen_theta dphi eps_a init_chls
          ⟨2, a, bb, rho_w, refind, 0, 0⟩ j))
      c.tol
      (seed_state lm T c sun_theta sen_theta dphi (init_chls.getD j 0)
        (seed_chain lm T c sun_theta sen_theta dphi eps_a init_chls
          ⟨2, a, bb, rho_w, refind, 0, 0⟩ j))
      q

end Convergence

/-! ## Notions used to state the biogeochemical partition -/

section PartitionNotions

variable {K : Type} [LinearOrderedField K] [FloorRing K]

/-- The ratio `x1` tested by `iop_model` after the bisection with outcome `bi =
(result, ady443, ady412, aph412)`: the fake value 0.1 when the bisection failed, else
`ap[1]/a[1]` for the spectra derived from the bisection. -/
def partition_x1 (lm : Libm K) (T : Tables K) (a1 : K) (bi : ℤ × K × K × K) : K :=
  if bi.1 ≠ 0 then 1 / 10
  else (a1 - bi.2.1 * lm.exp (lm.log (bi.2.2.1 / bi.2.1) / (T.lambda 0 - T.lambda 1)
    * (T.lambda 1 - T.lambda 1))) / a1

/-- The empirical fallback of `iop_model` runs for the total absorption `a`: the ratio `x1`
is outside `[0.15, 0.6]`. -/
def fallback_runs (lm : Libm K) (T : Tables K) (c : Config K) (a : ℤ → K) : Prop :=
  partition_x1 lm T (a 1) (biogeochem_iter lm c (a 0) (a 1)) < 15 / 100
    ∨ partition_x1 lm T (a 1) (biogeochem_iter lm c (a 0) (a 1)) > 6 / 10

end PartitionNotions

/-! ## Table loading and table reads (`pml_iop_tables.c`) -/

section TableChecks

variable {K : Type} [LinearOrderedField K] [FloorRing K]

/-- The wavelength cross-check loop of `load_work_tab`,
`for (i=0;i<nband;i++) if (abs(t_lambda[i] - lambda[i]) >15.0) exit(1);`, started at band `i`
with `k` passes left; `true` when the process exits.  The function `abs` is the integer one
of `stdlib.h`: its floating argument is first converted to `int`. -/
def lambda_check_loop (t_lambda lambda : ℤ → K) : ℕ → ℤ → Bool
  | 0, _ => false
  | k + 1, i =>
    if (((|truncInt (t_lambda i - lambda i)| : ℤ) : K)) > 15 then true
    else lambda_check_loop t_lambda lambda k (i + 1)

/-- The wavelength cross-check of `load_work_tab` between the IOP header wavelengths
`t_lambda` and the geophysical table wavelengths `lambda`; `true` when the process exits. -/
def lambda_check (t_lambda lambda : ℤ → K) (nband : ℤ) : Bool :=
  lambda_check_loop t_lambda lambda nband.toNat 0

/-- The two positions of `iopv[band]` read by `geo2iop`: `(int)ind` and `(int)ind+1`. -/
def geo2iop_reads (lm : Libm K) (levels : ℤ → K) (value : K) (size : ℤ) : List ℤ :=
  [truncInt (interp_l lm levels value size), truncInt (interp_l lm levels value size) + 1]

end TableChecks

/-- Library functions over `ℚ` used to instantiate the theorems: `log` and `log10` are the
identity, `exp x` is `1 + x` (so `exp 0 = 1`) and `pow` is constantly 1. -/
def flatLibm : Libm ℚ := ⟨id, id, fun x => 1 + x, fun _ _ => 1⟩

/-- Tables over `ℚ` used to instantiate the theorems: `demoTables` with pure-water values
`a_w = b_w = 1` and a constant radiative-transfer table `refen[k] = 1`. -/
def flatTables : Tables ℚ :=
  { demoTables with a_w := fun _ => 1, b_w := fun _ => 1, refen := fun _ => 1 }

/-- A configuration over `ℚ` used to instantiate the theorems, with iteration cap `maxit`:
Case I, reference bands `bp = {2, 3}`, `eps_a_init = 2`, `tol = 3`. -/
def flatConfig (maxit : ℤ) : Config ℚ where
  CASEII := 0
  bp := fun i => if i = 0 then 2 else 3
  maxit := maxit
  b_tilde_w := 1
  b_tilde_p := 1
  eps_a_init := 2
  scat_n := 1
  scat_l := 510
  tol := 3
  eps_y_412_443 := 1
  eps_p_412_443 := 1
  ysbpa_s := -1 / 100
  a_chl_star_443 := 1
  a_chl_ratio := 1

/-- A reflectance spectrum over `ℚ`: `r0` at band 0, `r2` and `r3` at the reference bands 2
and 3, and 1 at the other bands. -/
def flatPixel (r0 r2 r3 : ℚ) : ℤ → ℚ :=
  fun i => if i = 0 then r0 else if i = 2 then r2 else if i = 3 then r3 else 1

/-- The positive axis `1, 2, 3, ...` (entry `i` is `i + 1`), over `ℚ`. -/
def axis1 : ℤ → ℚ := fun i => (i : ℚ) + 1

/-! ## Table positions read and values passed (`pml_iop_tables.c`, `pml_iop_calculate.c`) -/

section Traces

variable {K : Type} [LinearOrderedField K] [FloorRing K]

/-- The positions of `refen` read by `fint(a, b, band)` at the table offset `refind`, in the
order of the source; none when `fint` returns 0 at its test `(bh>15)||(ah>15)`. -/
def fint_reads (T : Tables K) (refind : ℤ) (a b : K) (band : ℤ) : List ℤ :=
  let al := fint_lo a
  let bl := fint_lo b
  let bh := bl + 1
  let ah := al + 1
  if bh > 15 ∨ ah > 15 then []
  else [refind + band * T.bp_n * T.ap_n + bl * T.ap_n + ah,
    refind + band * T.bp_n * T.ap_n + bl * T.ap_n + al,
    refind + band * T.bp_n * T.ap_n + bh * T.ap_n + ah,
    refind + band * T.bp_n * T.ap_n + bh * T.ap_n + al]

/-- The values `ady443_next` passed to `biogeochem_mod` by the bisection loop of
`biogeochem_iter`, one per pass, with `fuel` further passes allowed after the first. -/
def biogeochem_loop_args (lm : Libm K) (a412 a443 : K) : ℕ → BisectState K → List K
  | 0, st => [(biogeochem_step lm a412 a443 st).1.next]
  | k + 1, st =>
    let r := biogeochem_step lm a412 a443 st
    if r.2 then r.1.next :: biogeochem_loop_args lm a412 a443 k r.1 else [r.1.next]

/-- The values passed as `ady443` to `biogeochem_mod` by `biogeochem_iter`, in call order:
`ady443_lower`, `ady443_upper`, then the midpoint of each pass of the bisection loop. -/
def biogeochem_iter_args (lm : Libm K) (a412 a443 : K) : List K :=
  let lower := 1 / 100 * a443
  let upper := a443 - 1 / 1000
  let m0 := biogeochem_mod lm a443 upper
  lower :: upper
    :: biogeochem_loop_args lm a412 a443 20 ⟨lower, upper, 0, m0.1, m0.2.1, m0.2.2, 0⟩

/-- The entry `k` of the axis `x` of `n` entries is nearest to `v`, a tie going to the higher
index: no entry is closer to `v`, and every entry as close has an index at most `k`. -/
def nearest_index (x : ℤ → K) (n : ℤ) (v : K) (k : ℤ) : Prop :=
  0 ≤ k ∧ k < n
    ∧ ∀ j : ℤ, 0 ≤ j → j < n → |v - x k| ≤ |v - x j| ∧ (|v - x k| = |v - x j| → j ≤ k)

end Traces

/-! ## The grid-search retrieval (`pml_iop_calculate_test.c`) -/

section GridSearch

variable {K : Type} [LinearOrderedField K] [FloorRing K]

/-- The values taken by the counter of a loop `for (j=lo; j<lo+n; j++)`, in order. -/
def loop_range (lo : ℤ) (n : ℕ) : List ℤ := (List.range n).map (fun k : ℕ => lo + (k : ℤ))

/-- The candidates `(j, al, i, bl)` of the four nested loops of the grid-search `mod_iter`,
`for (j=-2;j<2;j++) for (al=0;al<90;al++) for (i=-3;i<1;i++) for (bl=0;bl<90;bl++)`, in scan
order. -/
def grid : List (ℤ × ℤ × ℤ × ℤ) :=
  (loop_range (-2) 4).flatMap fun j =>
    (loop_range 0 90).flatMap fun al =>
      (loop_range (-3) 4).flatMap fun i =>
        (loop_range 0 90).map fun bl => (j, al, i, bl)

/-- The candidate value `pow(10,1.0*j)+al*pow(10,1.0*j-1)`, used for `a_i` with `(j, al)`
and for `bb_i` with `(i, bl)`. -/
def grid_value (lm : Libm K) (j al : ℤ) : K :=
  lm.pow 10 (1 * (j : K)) + (al : K) * lm.pow 10 (1 * (j : K) - 1)

/-- The local array `eps_a_m` of the grid-search `mod_iter`. -/
def eps_a_m : ℤ → K := fun k =>
  if k = 0 then 1402 / 1000 else if k = 1 then 1641 / 1000 else if k = 2 then 1268 / 1000
  else if k = 3 then 1536 / 1000 else 1834 / 1000

/-- The local array `temp_a` after the six assignments made for a candidate `a_i`, from its
content `temp_a` before them. -/
def grid_temp_a (c : Config K) (eps_a : K) (temp_a : ℤ → K) (a_i : K) : ℤ → K :=
  let t1 := Function.update temp_a (c.bp 1) a_i
  let t2 := Function.update t1 (c.bp 0) (a_i * eps_a)
  let t3 := Function.update t2 1 (t2 (c.bp 0) * eps_a_m 1)
  let t4 := Function.update t3 0 (t3 1 * eps_a_m 0)
  let t5 := Function.update t4 4 (t4 (c.bp 1) / eps_a_m 3)
  Function.update t5 5 (t5 4 / eps_a_m 4)

/-- The term added to `minimise` for band `k`: the relative difference between the modelled
reflectance `rho_w_mod[k]` and `rho_w[k]`, in absolute value.  The divisions of the source are
unguarded: when `rho_w[k]` or a denominator of the modelled reflectance is 0 the term is
infinite or NaN in C; it is `⊤` here, which is never below `previous_min`. -/
def grid_term (lm : Libm K) (T : Tables K) (c : Config K) (refind : ℤ) (rho_w : ℤ → K)
    (temp_a temp_bb : ℤ → K) (k : ℤ) : WithTop K :=
  let FC := FC_of lm T c refind (temp_a k) (temp_bb k / c.b_tilde_p) (temp_bb k) k
  if c.CASEII ≠ 0 then
    if rho_w k = 0 ∨ temp_a k + T.a_w k = 0
        ∨ temp_a k + T.a_w k + temp_bb k + bbw_of T c k = 0 then ⊤
    else ((|(FC * (temp_bb k + bbw_of T c k)
        / (temp_a k + T.a_w k + temp_bb k + bbw_of T c k) - rho_w k) / rho_w k| : K) : WithTop K)
  else
    if rho_w k = 0 ∨ temp_a k + T.a_w k = 0 then ⊤
    else ((|(FC * (temp_bb k + bbw_of T c k) / (temp_a k + T.a_w k) - rho_w k) / rho_w k| : K) :
      WithTop K)

/-- The value of `minimise` for a candidate: the sum of `grid_term` over the bands
`0 .. 4` (infinite or NaN, here `⊤`, as soon as one term is). -/
def grid_minimise (lm : Libm K) (T : Tables K) (c : Config K) (refind : ℤ) (rho_w : ℤ → K)
    (temp_a temp_bb : ℤ → K) : WithTop K :=
  0 + grid_term lm T c refind rho_w temp_a temp_bb 0
    + grid_term lm T c refind rho_w temp_a temp_bb 1
    + grid_term lm T c refind rho_w temp_a temp_bb 2
    + grid_term lm T c refind rho_w temp_a temp_bb 3
    + grid_term lm T c refind rho_w temp_a temp_bb 4

/-- The variables of the grid-search `mod_iter` that live across candidates: the return
value `fail`, the caller's arrays `a` and `bb`, `previous_min`, the local arrays `temp_a` and
`temp_bb`, and `loop_counter`. -/
structure GridState (K : Type) where
  fail : ℤ
  a : ℤ → K
  bb : ℤ → K
  previous_min : K
  temp_a : ℤ → K
  temp_bb : ℤ → K
  loop_counter : ℤ

/-- The body of the innermost loop of the grid-search `mod_iter` for the candidate
`(j, al, i, bl)`.  The values `FT[0]`, `FT[1]` and `b[k]` computed by the source are never
read and are left out. -/
def grid_step (lm : Libm K) (T : Tables K) (c : Config K) (refind : ℤ) (rho_w : ℤ → K)
    (eps_a : K) (st : GridState K) (cand : ℤ × ℤ × ℤ × ℤ) : GridState K :=
  let a_i := grid_value lm cand.1 cand.2.1
  let bb_i := grid_value lm cand.2.2.1 cand.2.2.2
  let temp_a := grid_temp_a c eps_a st.temp_a a_i
  let temp_bb := setNB st.temp_bb (fun k => bb_i * bn_of lm T c k)
  let minimise := grid_minimise lm T c refind rho_w temp_a temp_bb
  if h : minimise < (st.previous_min : WithTop K) then
    ⟨0, setNB st.a temp_a, setNB st.bb temp_bb, WithTop.untop minimise (ne_top_of_lt h),
      temp_a, temp_bb, st.loop_counter + 1⟩
  else ⟨st.fail, st.a, st.bb, st.previous_min, temp_a, temp_bb, st.loop_counter + 1⟩

/-- Function `mod_iter` of `pml_iop_calculate_test.c` (the grid search): the state after the
scan of all candidates, entered with the caller's arrays `a`, `bb` and the (uninitialised)
contents `temp_a`, `temp_bb` of the two local arrays. -/
def CalculateTest.mod_iter (lm : Libm K) (T : Tables K) (c : Config K) (rho_w : ℤ → K)
    (sun_theta sen_theta dphi eps_a : K) (a bb temp_a temp_bb : ℤ → K) : GridState K :=
  grid.foldl (grid_step lm T c (setgeom T sun_theta sen_theta dphi).2 rho_w eps_a)
    ⟨2, a, bb, 1, temp_a, temp_bb, 0⟩

end GridSearch

/-- Tables over `ℚ` used to instantiate the theorems: `demoTables` with the solar-zenith
axis `1, 2`. -/
def lowTables : Tables ℚ := { demoTables with th_s_lev := axis1 }

/-- Tables over `ℚ` used to instantiate the theorems: `demoTables` with the relative-azimuth
axis `-1, 1`. -/
def azTables : Tables ℚ := { demoTables with dphi_lev := fun i => 2 * (i : ℚ) - 1 }

/-- The configuration `flatConfig 1` in the Case II formulation. -/
def flatConfig2 : Config ℚ := { flatConfig 1 with CASEII := 1 }

/-- The configuration `flatConfig 1` with the tolerance `tol = 0`. -/
def flatConfig0 : Config ℚ := { flatConfig 1 with tol := 0 }

section SolverProofs

variable {K : Type} [LinearOrderedField K]

/-- C1. Round trip of the Case I two-band solve: reflectances generated by the Case I forward
model at `(a, bb)` with `a, bb ≥ 0`, non-zero denominators and
`epsb*F[0]*rho_w[1] ≠ epsa*F[1]*rho_w[0]` make `iter_ab` return 0 with `ab = (a, bb)`. -/
theorem iter_ab_round_trip (rho_w aw bbw F : ℤ → K) (epsb epsa a bb : K)
    (ha : 0 ≤ a) (hbb : 0 ≤ bb)
    (hd0 : epsa * a + aw 0 ≠ 0) (hd1 : a + aw 1 ≠ 0)
    (h0 : rho_w 0 = F 0 * (epsb * bb + bbw 0) / (epsa * a + aw 0))
    (h1 : rho_w 1 = F 1 * (bb + bbw 1) / (a + aw 1))
    (hne : epsb * F 0 * rho_w 1 ≠ epsa * F 1 * rho_w 0) :
    iter_ab rho_w aw bbw F epsb epsa = (0, a, bb) := by
  have hs : epsb * (F 0 * rho_w 1) - epsa * F 1 * rho_w 0 ≠ 0 := by
    intro h
    apply hne
    linear_combination h
  have e0 : rho_w 0 * (epsa * a + aw 0) = F 0 * (epsb * bb + bbw 0) := by
    rw [h0]; field_simp
  have e1 : rho_w 1 * (a + aw 1) = F 1 * (bb + bbw 1) := by
    rw [h1]; field_simp
  have ea : (F 0 * F 1 * (bbw 1 * epsb - bbw 0) + aw 0 * F 1 * rho_w 0
      - aw 1 * (epsb * (F 0 * rho_w 1))) / (epsb * (F 0 * rho_w 1) - epsa * F 1 * rho_w 0) = a := by
    rw [div_eq_iff hs]
    linear_combination (F 1) * e0 - (epsb * F 0) * e1
  have eb : (rho_w 0 * rho_w 1 * (aw 0 - aw 1 * epsa) - bbw 0 * (F 0 * rho_w 1)
      + bbw 1 * (epsa * F 1 * rho_w 0)) / (epsb * (F 0 * rho_w 1) - epsa * F 1 * rho_w 0) = bb := by
    rw [div_eq_iff hs]
    linear_combination (rho_w 1) * e0 - (epsa * rho_w 0) * e1
  simp only [iter_ab, if_neg hs, ea, eb]
  rw [if_neg]
  exact not_or.mpr ⟨not_lt.mpr ha, not_lt.mpr hbb⟩

/-- Witness of C1 at `a = bb = 1`, `aw = bbw = F = (1, 1)`, `epsb = 2`, `epsa = 1`. -/
theorem iter_ab_round_trip_witness :
    iter_ab (arr2 (3 / 2 : ℚ) 1) (arr2 1 1) (arr2 1 1) (arr2 1 1) 2 1 = (0, 1, 1) :=
  iter_ab_round_trip (arr2 (3 / 2 : ℚ) 1) (arr2 1 1) (arr2 1 1) (arr2 1 1) 2 1 1 1
    (by norm_num) (by norm_num) (by norm_num [arr2]) (by norm_num [arr2])
    (by norm_num [arr2]) (by norm_num [arr2]) (by norm_num [arr2])

/-- C2. Round trip of the Case II two-band solve: reflectances generated by the Case II forward
model at `(a, bb)` with `a, bb ≥ 0`, non-zero denominators and non-zero determinant make
`iter_ab2` return 0 with `ab = (a, bb)`. -/
theorem iter_ab2_round_trip (rho_w aw bbw F : ℤ → K) (epsb epsa a bb : K)
    (ha : 0 ≤ a) (hbb : 0 ≤ bb)
    (hd0 : epsa * a + aw 0 + epsb * bb + bbw 0 ≠ 0) (hd1 : a + aw 1 + bb + bbw 1 ≠ 0)
    (h0 : rho_w 0 = F 0 * (epsb * bb + bbw 0) / (epsa * a + aw 0 + epsb * bb + bbw 0))
    (h1 : rho_w 1 = F 1 * (bb + bbw 1) / (a + aw 1 + bb + bbw 1))
    (hne : epsa * (rho_w 0 * rho_w 1 - rho_w 0 * F 1)
      - epsb * (rho_w 0 * rho_w 1 - rho_w 1 * F 0) ≠ 0) :
    iter_ab2 rho_w aw bbw F epsb epsa = (0, a, bb) := by
  have hs2 : -epsa * (rho_w 0 * rho_w 1 - rho_w 0 * F 1)
      + epsb * (rho_w 0 * rho_w 1 - rho_w 1 * F 0) ≠ 0 := by
    intro h
    apply hne
    linear_combination -h
  have e0 : rho_w 0 * (epsa * a + aw 0 + epsb * bb + bbw 0) = F 0 * (epsb * bb + bbw 0) := by
    rw [h0]; field_simp
  have e1 : rho_w 1 * (a + aw 1 + bb + bbw 1) = F 1 * (bb + bbw 1) := by
    rw [h1]; field_simp
  have ea : (epsb * (rho_w 0 - F 0) * (rho_w 1 * (aw 1 + bbw 1) - F 1 * bbw 1)
      + (rho_w 1 - F 1) * (F 0 * bbw 0 - rho_w 0 * (aw 0 + bbw 0)))
      / (epsa * (rho_w 0 * rho_w 1 - rho_w 0 * F 1)
        - epsb * (rho_w 0 * rho_w 1 - rho_w 1 * F 0)) = a := by
    rw [div_eq_iff hne]
    linear_combination (F 1 - rho_w 1) * e0 + (epsb * (rho_w 0 - F 0)) * e1
  have eb : (-rho_w 0 * (epsa * (F 1 * bbw 1 - rho_w 1 * (aw 1 + bbw 1))
      + rho_w 1 * (aw 0 + bbw 0)) + rho_w 1 * F 0 * bbw 0)
      / (-epsa * (rho_w 0 * rho_w 1 - rho_w 0 * F 1)
        + epsb * (rho_w 0 * rho_w 1 - rho_w 1 * F 0)) = bb := by
    rw [div_eq_iff hs2]
    linear_combination (-rho_w 1) * e0 + (epsa * rho_w 0) * e1
  simp only [iter_ab2, ea, eb]
  rw [if_neg (not_or.mpr ⟨hne, hs2⟩), if_neg]
  exact not_or.mpr ⟨not_lt.mpr ha, not_lt.mpr hbb⟩

/-- Witness of C2 at `a = bb = 1`, `aw = bbw = (1, 1)`, `F = (5, 4)`, `epsb = 2`, `epsa = 1`. -/
theorem iter_ab2_round_trip_witness :
    iter_ab2 (arr2 (3 : ℚ) 2) (arr2 1 1) (arr2 1 1) (arr2 5 4) 2 1 = (0, 1, 1) :=
  iter_ab2_round_trip (arr2 (3 : ℚ) 2) (arr2 1 1) (arr2 1 1) (arr2 5 4) 2 1 1 1
    (by norm_num) (by norm_num) (by norm_num [arr2]) (by norm_num [arr2])
    (by norm_num [arr2]) (by norm_num [arr2]) (by norm_num [arr2])

/-- The Case I solve in terms of the determinant and Cramer solution of its system. -/
theorem iter_ab_eq (rho_w aw bbw F : ℤ → K) (epsb epsa : K) :
    iter_ab rho_w aw bbw F epsb epsa
      = if caseI_scale rho_w F epsb epsa = 0 then (1, -1, -1)
        else if caseI_a rho_w aw bbw F epsb epsa < 0 ∨ caseI_bb rho_w aw bbw F epsb epsa < 0
          then (1, -1, -1)
        else (0, caseI_a rho_w aw bbw F epsb epsa, caseI_bb rho_w aw bbw F epsb epsa) := by
  have hs : epsb * (F 0 * rho_w 1) - epsa * F 1 * rho_w 0 = caseI_scale rho_w F epsb epsa := by
    unfold caseI_scale; ring
  have ha : (F 0 * F 1 * (bbw 1 * epsb - bbw 0) + aw 0 * F 1 * rho_w 0
      - aw 1 * (epsb * (F 0 * rho_w 1))) / (epsb * (F 0 * rho_w 1) - epsa * F 1 * rho_w 0)
      = caseI_a rho_w aw bbw F epsb epsa := by
    unfold caseI_a; rw [← hs]; congr 1; ring
  have hb : (rho_w 0 * rho_w 1 * (aw 0 - aw 1 * epsa) - bbw 0 * (F 0 * rho_w 1)
      + bbw 1 * (epsa * F 1 * rho_w 0)) / (epsb * (F 0 * rho_w 1) - epsa * F 1 * rho_w 0)
      = caseI_bb rho_w aw bbw F epsb epsa := by
    unfold caseI_bb; rw [← hs]; congr 1; ring
  rw [hs] at ha hb
  simp only [iter_ab, hs, ha, hb]

/-- The Case II solve in terms of the determinant and Cramer solution of its system. -/
theorem iter_ab2_eq (rho_w aw bbw F : ℤ → K) (epsb epsa : K) :
    iter_ab2 rho_w aw bbw F epsb epsa
      = if caseII_scale rho_w F epsb epsa = 0 then (1, -1, -1)
        else if caseII_a rho_w aw bbw F epsb epsa < 0 ∨ caseII_bb rho_w aw bbw F epsb epsa < 0
          then (1, -1, -1)
        else (0, caseII_a rho_w aw bbw F epsb epsa, caseII_bb rho_w aw bbw F epsb epsa) := by
  have hs : epsa * (rho_w 0 * rho_w 1 - rho_w 0 * F 1)
      - epsb * (rho_w 0 * rho_w 1 - rho_w 1 * F 0) = caseII_scale rho_w F epsb epsa := by
    unfold caseII_scale; ring
  have hs2 : -epsa * (rho_w 0 * rho_w 1 - rho_w 0 * F 1)
      + epsb * (rho_w 0 * rho_w 1 - rho_w 1 * F 0) = -caseII_scale rho_w F epsb epsa := by
    unfold caseII_scale; ring
  have ha : (epsb * (rho_w 0 - F 0) * (rho_w 1 * (aw 1 + bbw 1) - F 1 * bbw 1)
      + (rho_w 1 - F 1) * (F 0 * bbw 0 - rho_w 0 * (aw 0 + bbw 0)))
      / (epsa * (rho_w 0 * rho_w 1 - rho_w 0 * F 1)
        - epsb * (rho_w 0 * rho_w 1 - rho_w 1 * F 0))
      = caseII_a rho_w aw bbw F epsb epsa := by
    unfold caseII_a; rw [← hs]; congr 1; ring
  have hb : (-rho_w 0 * (epsa * (F 1 * bbw 1 - rho_w 1 * (aw 1 + bbw 1))
      + rho_w 1 * (aw 0 + bbw 0)) + rho_w 1 * F 0 * bbw 0)
      / (-epsa * (rho_w 0 * rho_w 1 - rho_w 0 * F 1)
        + epsb * (rho_w 0 * rho_w 1 - rho_w 1 * F 0))
      = caseII_bb rho_w aw bbw F epsb epsa := by
    unfold caseII_bb; rw [hs2, ← neg_div_neg_eq, neg_neg]; congr 1; ring
  rw [hs] at ha
  rw [hs2] at hb
  simp only [iter_ab2, hs, hs2, ha, hb, neg_eq_zero, or_self]

/-- C10. Each of `iter_ab` and `iter_ab2` returns 1 with `ab[0] = ab[1] = -1` if and only if
the scale denominator (determinant) of its 2x2 system is zero or one of the two solved
values is negative; in every other case it returns 0 with the solved values, both `>= 0`. -/
theorem iter_ab_degenerate_iff (rho_w aw bbw F : ℤ → K) (epsb epsa : K) :
    ((iter_ab rho_w aw bbw F epsb epsa = (1, -1, -1)
          ↔ (caseI_scale rho_w F epsb epsa = 0 ∨ caseI_a rho_w aw bbw F epsb epsa < 0
              ∨ caseI_bb rho_w aw bbw F epsb epsa < 0))
        ∧ (¬ (caseI_scale rho_w F epsb epsa = 0 ∨ caseI_a rho_w aw bbw F epsb epsa < 0
              ∨ caseI_bb rho_w aw bbw F epsb epsa < 0)
            → iter_ab rho_w aw bbw F epsb epsa
                = (0, caseI_a rho_w aw bbw F epsb epsa, caseI_bb rho_w aw bbw F epsb epsa)
              ∧ 0 ≤ caseI_a rho_w aw bbw F epsb epsa
              ∧ 0 ≤ caseI_bb rho_w aw bbw F epsb epsa))
      ∧ ((iter_ab2 rho_w aw bbw F epsb epsa = (1, -1, -1)
          ↔ (caseII_scale rho_w F epsb epsa = 0 ∨ caseII_a rho_w aw bbw F epsb epsa < 0
              ∨ caseII_bb rho_w aw bbw F epsb epsa < 0))
        ∧ (¬ (caseII_scale rho_w F epsb epsa = 0 ∨ caseII_a rho_w aw bbw F epsb epsa < 0
              ∨ caseII_bb rho_w aw bbw F epsb epsa < 0)
            → iter_ab2 rho_w aw bbw F epsb epsa
                = (0, caseII_a rho_w aw bbw F epsb epsa, caseII_bb rho_w aw bbw F epsb epsa)
              ∧ 0 ≤ caseII_a rho_w aw bbw F epsb epsa
              ∧ 0 ≤ caseII_bb rho_w aw bbw F epsb epsa)) := by
  have key : ∀ (r : ℤ × K × K) (sc sa sb : K),
      r = (if sc = 0 then (1, -1, -1) else if sa < 0 ∨ sb < 0 then (1, -1, -1)
        else (0, sa, sb)) →
      (r = (1, -1, -1) ↔ (sc = 0 ∨ sa < 0 ∨ sb < 0))
        ∧ (¬ (sc = 0 ∨ sa < 0 ∨ sb < 0) → r = (0, sa, sb) ∧ 0 ≤ sa ∧ 0 ≤ sb) := by
    intro r sc sa sb hr
    by_cases h1 : sc = 0
    · rw [if_pos h1] at hr
      exact ⟨⟨fun _ => Or.inl h1, fun _ => hr⟩, fun hn => absurd (Or.inl h1) hn⟩
    · rw [if_neg h1] at hr
      by_cases h2 : sa < 0 ∨ sb < 0
      · rw [if_pos h2] at hr
        exact ⟨⟨fun _ => Or.inr h2, fun _ => hr⟩, fun hn => absurd (Or.inr h2) hn⟩
      · rw [if_neg h2] at hr
        have h3 := not_or.mp h2
        refine ⟨⟨fun h => ?_, fun h => ?_⟩, fun _ => ⟨hr, not_lt.mp h3.1, not_lt.mp h3.2⟩⟩
        · rw [hr] at h
          have : (0 : ℤ) = 1 := congrArg Prod.fst h
          exact absurd this (by norm_num)
        · rcases h with h | h
          · exact absurd h h1
          · exact absurd h h2
  exact ⟨key _ _ _ _ (iter_ab_eq rho_w aw bbw F epsb epsa),
    key _ _ _ _ (iter_ab2_eq rho_w aw bbw F epsb epsa)⟩

end SolverProofs

section InterpProofs

variable {K : Type} [LinearOrderedField K] [FloorRing K]

/-- The search loop either stops at the first entry `x[j] >= u` of its range, leaving
`s = j-1`, or finds none and leaves `s = 0`. -/
theorem searchLoop_spec (x : ℤ → K) (u : K) (k : ℕ) (i : ℤ) :
    (∃ j : ℤ, i ≤ j ∧ j < i + k ∧ x j ≥ u ∧ (∀ m, i ≤ m → m < j → x m < u)
        ∧ searchLoop x u k i = j - 1)
      ∨ ((∀ m, i ≤ m → m < i + k → x m < u) ∧ searchLoop x u k i = 0) := by
  induction k generalizing i with
  | zero =>
    right
    refine ⟨?_, rfl⟩
    intro m h1 h2
    simp at h2
    omega
  | succ k ih =>
    by_cases h : x i ≥ u
    · left
      refine ⟨i, le_refl _, ?_, h, ?_, ?_⟩
      · push_cast; omega
      · intro m h1 h2; omega
      · simp [searchLoop, h]
    · rcases ih (i + 1) with ⟨j, h1, h2, h3, h4, h5⟩ | ⟨h1, h2⟩
      · left
        refine ⟨j, by omega, by push_cast; omega, h3, ?_, ?_⟩
        · intro m hm1 hm2
          rcases eq_or_lt_of_le hm1 with e | e
          · subst e; exact not_le.mp h
          · exact h4 m (by omega) hm2
        · simp [searchLoop, h, h5]
      · right
        refine ⟨?_, ?_⟩
        · intro m hm1 hm2
          rcases eq_or_lt_of_le hm1 with e | e
          · subst e; exact not_le.mp h
          · exact h1 m (by omega) (by push_cast at hm2; omega)
        · simp [searchLoop, h, h2]

/-- On a strictly ascending axis the segment of an in-range argument brackets it. -/
theorem segment_bracket (x : ℤ → K) (v : K) (n : ℤ) (hn : 2 ≤ n) (hasc : StrictAsc x n)
    (h0 : x 0 ≤ v) (h1 : v ≤ x (n - 1)) :
    0 ≤ segment x v n ∧ segment x v n + 1 ≤ n - 1 ∧ x (segment x v n) ≤ v
      ∧ v ≤ x (segment x v n + 1)
      ∧ (x (segment x v n) < v ∨ segment x v n = 0) := by
  have hk : ((n.toNat : ℕ) : ℤ) = n := Int.toNat_of_nonneg (by omega)
  rcases searchLoop_spec x v n.toNat 0 with ⟨j, hj0, hj1, hj2, hj3, hj4⟩ | ⟨hA, _⟩
  · rw [hk] at hj1
    rcases eq_or_lt_of_le hj0 with e | e
    · subst e
      have hs : segment x v n = 0 := by simp [segment, hj4]
      have hv : v = x 0 := le_antisymm hj2 h0
      rw [hs]
      refine ⟨le_refl _, by omega, h0, ?_, Or.inr rfl⟩
      rw [hv]
      exact le_of_lt (hasc 0 1 (le_refl _) (by norm_num) (by omega))
    · have hs : segment x v n = j - 1 := by
        simp only [segment, hj4]
        rw [if_neg]; omega
      rw [hs]
      refine ⟨by omega, by omega, le_of_lt (hj3 (j - 1) (by omega) (by omega)), ?_,
        Or.inl (hj3 (j - 1) (by omega) (by omega))⟩
      rw [sub_add_cancel]
      exact hj2
  · exfalso
    have := hA (n - 1) (by omega) (by rw [hk]; omega)
    exact absurd h1 (not_le.mpr this)



/-- On a strictly ascending axis `interp` is the segment plus a fraction in `[0, 1]`. -/
theorem interp_frac (x : ℤ → K) (v : K) (n : ℤ) (hn : 2 ≤ n) (hasc : StrictAsc x n)
    (h0 : x 0 ≤ v) (h1 : v ≤ x (n - 1)) :
    interp x v n = (segment x v n : K)
        + (v - x (segment x v n)) / (x (segment x v n + 1) - x (segment x v n))
      ∧ 0 ≤ (v - x (segment x v n)) / (x (segment x v n + 1) - x (segment x v n))
      ∧ (v - x (segment x v n)) / (x (segment x v n + 1) - x (segment x v n)) ≤ 1
      ∧ ((v - x (segment x v n)) / (x (segment x v n + 1) - x (segment x v n)) = 1
          → v = x (segment x v n + 1)) := by
  obtain ⟨hs0, hs1, hlo, hhi, _⟩ := segment_bracket x v n hn hasc h0 h1
  have hpos : 0 < x (segment x v n + 1) - x (segment x v n) :=
    sub_pos.mpr (hasc _ _ hs0 (by omega) (by omega))
  refine ⟨?_, ?_, ?_, ?_⟩
  · simp only [interp, if_neg (not_lt.mpr h1)]
    ring
  · exact div_nonneg (sub_nonneg.mpr hlo) (le_of_lt hpos)
  · rw [div_le_one hpos]
    linarith
  · intro h
    rw [div_eq_one_iff_eq (ne_of_gt hpos)] at h
    linarith

/-- C6 (amended). For a strictly ascending axis `x` of length `n >= 2` and
`x[0] <= v <= x[n-1]`, `interp` returns `s + (v - x[s])/(x[s+1] - x[s])` for the bracketing
segment `s` (`0 <= s`, `s+1 <= n-1`, `x[s] <= v <= x[s+1]`); when `v < x[n-1]` the positions
`floor(f)` and `floor(f)+1` are valid and `x[floor f] <= v <= x[floor f + 1]`; at
`v = x[n-1]` the result is exactly `n-1`. -/
theorem interp_bracket (x : ℤ → K) (v : K) (n : ℤ) (hn : 2 ≤ n) (hasc : StrictAsc x n)
    (h0 : x 0 ≤ v) (h1 : v ≤ x (n - 1)) :
    (0 ≤ segment x v n ∧ segment x v n + 1 ≤ n - 1 ∧ x (segment x v n) ≤ v
        ∧ v ≤ x (segment x v n + 1)
        ∧ interp x v n = (segment x v n : K)
          + (v - x (segment x v n)) / (x (segment x v n + 1) - x (segment x v n)))
      ∧ (v < x (n - 1) → 0 ≤ ⌊interp x v n⌋ ∧ ⌊interp x v n⌋ + 1 ≤ n - 1
          ∧ x ⌊interp x v n⌋ ≤ v ∧ v ≤ x (⌊interp x v n⌋ + 1))
      ∧ (v = x (n - 1) → interp x v n = ((n - 1 : ℤ) : K)) := by
  obtain ⟨hs0, hs1, hlo, hhi, hor⟩ := segment_bracket x v n hn hasc h0 h1
  obtain ⟨hf, hfr0, hfr1, hfr⟩ := interp_frac x v n hn hasc h0 h1
  generalize segment x v n = s at *
  generalize interp x v n = f at *
  refine ⟨⟨hs0, hs1, hlo, hhi, hf⟩, ?_, ?_⟩
  · intro hlt
    rcases eq_or_lt_of_le hfr1 with e | e
    · have hv := hfr e
      have hfl : ⌊f⌋ = s + 1 := by
        rw [hf, e, Int.floor_eq_iff]
        push_cast
        constructor <;> linarith
      have hne : s + 1 ≠ n - 1 := by
        intro h
        rw [h] at hv
        exact absurd hv (ne_of_lt hlt)
      rw [hfl]
      refine ⟨by omega, by omega, le_of_eq hv.symm, ?_⟩
      rw [hv]
      exact le_of_lt (hasc _ _ (by omega) (by omega) (by omega))
    · have hfl : ⌊f⌋ = s := by
        rw [hf, Int.floor_eq_iff]
        constructor <;> linarith
      rw [hfl]
      exact ⟨hs0, hs1, hlo, hhi⟩
  · intro hv
    have hs : s + 1 = n - 1 := by
      by_contra hne
      have : x (s + 1) < x (n - 1) :=
        hasc _ _ (by omega) (by omega) (by omega)
      rw [← hv] at this
      exact absurd hhi (not_le.mpr this)
    have hpos : 0 < x (s + 1) - x s :=
      sub_pos.mpr (hasc _ _ hs0 (by omega) (by omega))
    have hv2 : v = x (s + 1) := by rw [hs]; exact hv
    rw [hf, hv2, div_self (ne_of_gt hpos), ← hs]
    push_cast
    ring

/-- The axis `0, 1, ...` is strictly ascending. -/
theorem axis01_asc (n : ℤ) : StrictAsc axis01 n := by
  intro i j _ hij _
  simp only [axis01]
  exact_mod_cast hij

/-- Witness of C6 (amended): the axis `0, 1` at `v = 1/2`. -/
theorem interp_bracket_witness :
    (0 ≤ segment axis01 (1 / 2) 2 ∧ segment axis01 (1 / 2) 2 + 1 ≤ 2 - 1
        ∧ axis01 (segment axis01 (1 / 2) 2) ≤ 1 / 2
        ∧ 1 / 2 ≤ axis01 (segment axis01 (1 / 2) 2 + 1)
        ∧ interp axis01 (1 / 2) 2 = (segment axis01 (1 / 2) 2 : ℚ)
          + (1 / 2 - axis01 (segment axis01 (1 / 2) 2))
            / (axis01 (segment axis01 (1 / 2) 2 + 1) - axis01 (segment axis01 (1 / 2) 2)))
      ∧ (1 / 2 < axis01 (2 - 1) → 0 ≤ ⌊interp axis01 (1 / 2) 2⌋
          ∧ ⌊interp axis01 (1 / 2) 2⌋ + 1 ≤ 2 - 1
          ∧ axis01 ⌊interp axis01 (1 / 2) 2⌋ ≤ 1 / 2
          ∧ 1 / 2 ≤ axis01 (⌊interp axis01 (1 / 2) 2⌋ + 1))
      ∧ (1 / 2 = axis01 (2 - 1) → interp axis01 (1 / 2) 2 = ((2 - 1 : ℤ) : ℚ)) :=
  interp_bracket axis01 (1 / 2) 2 (by norm_num) (axis01_asc 2) (by norm_num [axis01])
    (by norm_num [axis01])

/-- C6 (counterexample). On the strictly ascending axis `0, 1` (`n = 2`) at `v = 1 = x[n-1]`
the hypotheses of the claim hold, but `floor(interp) + 1 = 2` is not a valid position. -/
theorem interp_floor_counterexample :
    StrictAsc axis01 2 ∧ axis01 0 ≤ 1 ∧ (1 : ℚ) ≤ axis01 (2 - 1)
      ∧ ¬ (⌊interp axis01 1 2⌋ + 1 ≤ 2 - 1) := by
  refine ⟨axis01_asc 2, by norm_num [axis01], by norm_num [axis01], ?_⟩
  have h : interp axis01 1 2 = 1 := by
    simp [interp, segment, searchLoop, axis01]
  rw [h]
  norm_num



/-- C7. For `v > x[n-1]` both `interp` and `interp_l` return exactly `n-1`. -/
theorem interp_clamp (lm : Libm K) (x : ℤ → K) (v : K) (n : ℤ) (hv : v > x (n - 1)) :
    interp x v n = ((n - 1 : ℤ) : K) ∧ interp_l lm x v n = ((n - 1 : ℤ) : K) := by
  simp [interp, interp_l, hv]

/-- Witness of C7: the axis `0, 1` at `v = 5`. -/
theorem interp_clamp_witness :
    interp axis01 5 2 = ((2 - 1 : ℤ) : ℚ)
      ∧ interp_l demoLibm axis01 5 2 = ((2 - 1 : ℤ) : ℚ) :=
  interp_clamp demoLibm axis01 5 2 (by norm_num [axis01])

/-- The lower corner chosen by `fint` for an argument of the cell `[al, al+1)`, `al >= 0`. -/
theorem fint_lo_cell (a : K) (al : ℤ) (h0 : 0 ≤ al) (h1 : (al : K) ≤ a) (h2 : a < (al : K) + 1) :
    fint_lo a = al := by
  unfold fint_lo
  split_ifs with h
  · exact Int.floor_eq_iff.mpr ⟨h1, h2⟩
  · have : (al : K) ≤ 0 := le_trans h1 (not_lt.mp h)
    have : al ≤ 0 := by exact_mod_cast this
    omega

/-- Inside the cell `(al, bl)` with `al, bl <= 14`, `fint` is the bilinear form. -/
theorem fint_cell (T : Tables K) (refind band al bl : ℤ) (a b : K)
    (hal0 : 0 ≤ al) (hal : al ≤ 14) (hbl0 : 0 ≤ bl) (hbl : bl ≤ 14)
    (ha1 : (al : K) ≤ a) (ha2 : a < (al : K) + 1) (hb1 : (bl : K) ≤ b) (hb2 : b < (bl : K) + 1) :
    fint T refind a b band
      = (1 - (a - al)) * (1 - (b - bl))
          * T.refen (refind + band * T.bp_n * T.ap_n + bl * T.ap_n + al)
        + (a - al) * (1 - (b - bl))
          * T.refen (refind + band * T.bp_n * T.ap_n + bl * T.ap_n + (al + 1))
        + (1 - (a - al)) * (b - bl)
          * T.refen (refind + band * T.bp_n * T.ap_n + (bl + 1) * T.ap_n + al)
        + (a - al) * (b - bl)
          * T.refen (refind + band * T.bp_n * T.ap_n + (bl + 1) * T.ap_n + (al + 1)) := by
  have ea := fint_lo_cell a al hal0 ha1 ha2
  have eb := fint_lo_cell b bl hbl0 hb1 hb2
  simp only [fint, ea, eb]
  rw [if_neg (by omega)]
  push_cast
  ring

/-- C8. Within one table cell (`0 <= al, bl <= 14`, `a` in `[al, al+1)`, `b` in `[bl, bl+1)`)
`fint` is the bilinear interpolant of the four corner values; it returns `T[bl][al]` at the
corner `(al, bl)`, and it is affine in `a` for fixed `b` and in `b` for fixed `a`: on a convex
combination of two arguments of the cell it takes the same combination of the values. -/
theorem fint_bilinear (T : Tables K) (refind band al bl : ℤ) (a b : K)
    (hal0 : 0 ≤ al) (hal : al ≤ 14) (hbl0 : 0 ≤ bl) (hbl : bl ≤ 14)
    (ha1 : (al : K) ≤ a) (ha2 : a < (al : K) + 1) (hb1 : (bl : K) ≤ b) (hb2 : b < (bl : K) + 1) :
    fint T refind a b band
        = (1 - (a - al)) * (1 - (b - bl))
            * T.refen (refind + band * T.bp_n * T.ap_n + bl * T.ap_n + al)
          + (a - al) * (1 - (b - bl))
            * T.refen (refind + band * T.bp_n * T.ap_n + bl * T.ap_n + (al + 1))
          + (1 - (a - al)) * (b - bl)
            * T.refen (refind + band * T.bp_n * T.ap_n + (bl + 1) * T.ap_n + al)
          + (a - al) * (b - bl)
            * T.refen (refind + band * T.bp_n * T.ap_n + (bl + 1) * T.ap_n + (al + 1))
      ∧ fint T refind (al : K) (bl : K) band
        = T.refen (refind + band * T.bp_n * T.ap_n + bl * T.ap_n + al)
      ∧ (∀ a2 w : K, (al : K) ≤ a2 → a2 < (al : K) + 1 → 0 ≤ w → w ≤ 1 →
          fint T refind (w * a + (1 - w) * a2) b band
            = w * fint T refind a b band + (1 - w) * fint T refind a2 b band)
      ∧ (∀ b2 w : K, (bl : K) ≤ b2 → b2 < (bl : K) + 1 → 0 ≤ w → w ≤ 1 →
          fint T refind a (w * b + (1 - w) * b2) band
            = w * fint T refind a b band + (1 - w) * fint T refind a b2 band) := by
  refine ⟨fint_cell T refind band al bl a b hal0 hal hbl0 hbl ha1 ha2 hb1 hb2, ?_, ?_, ?_⟩
  · rw [fint_cell T refind band al bl al bl hal0 hal hbl0 hbl (le_refl _) (by linarith)
      (le_refl _) (by linarith)]
    ring
  · intro a2 w h1 h2 hw0 hw1
    have hc1 : (al : K) ≤ w * a + (1 - w) * a2 := by nlinarith
    have hc2 : w * a + (1 - w) * a2 < (al : K) + 1 := by
      rcases eq_or_lt_of_le hw0 with e | e
      · rw [← e]; linarith
      · nlinarith
    rw [fint_cell T refind band al bl _ b hal0 hal hbl0 hbl hc1 hc2 hb1 hb2,
      fint_cell T refind band al bl a b hal0 hal hbl0 hbl ha1 ha2 hb1 hb2,
      fint_cell T refind band al bl a2 b hal0 hal hbl0 hbl h1 h2 hb1 hb2]
    ring
  · intro b2 w h1 h2 hw0 hw1
    have hc1 : (bl : K) ≤ w * b + (1 - w) * b2 := by nlinarith
    have hc2 : w * b + (1 - w) * b2 < (bl : K) + 1 := by
      rcases eq_or_lt_of_le hw0 with e | e
      · rw [← e]; linarith
      · nlinarith
    rw [fint_cell T refind band al bl a _ hal0 hal hbl0 hbl ha1 ha2 hc1 hc2,
      fint_cell T refind band al bl a b hal0 hal hbl0 hbl ha1 ha2 hb1 hb2,
      fint_cell T refind band al bl a b2 hal0 hal hbl0 hbl ha1 ha2 h1 h2]
    ring

/-- Witness of C8: the corner value of the cell `(0, 0)` of `demoTables`, from the theorem at
`a = b = 1/2`. -/
theorem fint_bilinear_witness :
    fint demoTables 0 ((0 : ℤ) : ℚ) ((0 : ℤ) : ℚ) 0
      = demoTables.refen (0 + 0 * demoTables.bp_n * demoTables.ap_n + 0 * demoTables.ap_n + 0) :=
  (fint_bilinear demoTables 0 0 0 0 (1 / 2) (1 / 2) (by norm_num) (by norm_num) (by norm_num)
    (by norm_num) (by norm_num) (by norm_num) (by norm_num) (by norm_num)).2.1

/-- At or beyond fractional index 15 in either direction `fint` returns 0. -/
theorem fint_zero_of_ge (T : Tables K) (refind band : ℤ) (a b : K)
    (h : 15 ≤ a ∨ 15 ≤ b) : fint T refind a b band = 0 := by
  have key : ∀ v : K, 15 ≤ v → fint_lo v + 1 > 15 := by
    intro v hv
    have h1 : fint_lo v = ⌊v⌋ := by
      unfold fint_lo
      rw [if_pos (by linarith)]
    have h2 : (15 : ℤ) ≤ ⌊v⌋ := Int.le_floor.mpr (by exact_mod_cast hv)
    omega
  unfold fint
  simp only
  rw [if_pos]
  rcases h with h | h
  · exact Or.inr (key a h)
  · exact Or.inl (key b h)

/-- On a strictly ascending 16-entry axis whose logarithms separate the last two entries,
`interp_l` maps every value at or above the last entry to exactly 15. -/
theorem interp_l_top (lm : Libm K) (x : ℤ → K) (v : K) (hasc : StrictAsc x 16)
    (hlog : lm.log (x 14) ≠ lm.log (x 15)) (hv : v ≥ x 15) :
    interp_l lm x v 16 = 15 := by
  rcases eq_or_lt_of_le hv with e | e
  · obtain ⟨hs0, hs1, _, hhi, _⟩ := segment_bracket x v 16 (by norm_num) hasc
      (by rw [← e]; exact le_of_lt (hasc 0 15 (le_refl _) (by norm_num) (by norm_num)))
      (by rw [← e]; norm_num)
    have hs : segment x v 16 = 14 := by
      by_contra hne
      have : x (segment x v 16 + 1) < x 15 := hasc _ _ (by omega) (by omega) (by norm_num)
      rw [e] at this
      exact absurd hhi (not_le.mpr this)
    have hd : lm.log (x 15) - lm.log (x 14) ≠ 0 := sub_ne_zero.mpr (Ne.symm hlog)
    simp only [interp_l]
    rw [if_neg (by rw [← e]; norm_num), hs, if_neg (by norm_num), ← e]
    norm_num
    rw [div_self hd]
    norm_num
  · simp only [interp_l]
    rw [if_pos (by norm_num; exact e)]
    norm_num

/-- C9. `fint` returns exactly 0 whenever `floor(a)+1` or `floor(b)+1` exceeds 15; hence,
with 16-entry strictly ascending level axes (positive at entry 14, `log` strictly increasing
on positive values), `f_ab(a, b, band)` is 0 for every `a >= ap_lev[15]` or
`b >= bp_lev[15]`; the result is a plain value, no condition is signalled. -/
theorem f_ab_saturates (lm : Libm K) (T : Tables K) (refind band : ℤ)
    (hap : T.ap_n = 16) (hbp : T.bp_n = 16)
    (hasc_a : StrictAsc T.ap_lev 16) (hasc_b : StrictAsc T.bp_lev 16)
    (hpos_a : 0 < T.ap_lev 14) (hpos_b : 0 < T.bp_lev 14)
    (hlog : ∀ p q : K, 0 < p → p < q → lm.log p < lm.log q) :
    (∀ a b : K, (⌊a⌋ + 1 > 15 ∨ ⌊b⌋ + 1 > 15) → fint T refind a b band = 0)
      ∧ (∀ a b : K, (a ≥ T.ap_lev 15 ∨ b ≥ T.bp_lev 15) → f_ab lm T refind a b band = 0) := by
  constructor
  · intro a b h
    apply fint_zero_of_ge
    rcases h with h | h
    · left
      have : (15 : ℤ) ≤ ⌊a⌋ := by omega
      exact_mod_cast Int.le_floor.mp this
    · right
      have : (15 : ℤ) ≤ ⌊b⌋ := by omega
      exact_mod_cast Int.le_floor.mp this
  · intro a b h
    have la : lm.log (T.ap_lev 14) ≠ lm.log (T.ap_lev 15) :=
      ne_of_lt (hlog _ _ hpos_a (hasc_a 14 15 (by norm_num) (by norm_num) (by norm_num)))
    have lb : lm.log (T.bp_lev 14) ≠ lm.log (T.bp_lev 15) :=
      ne_of_lt (hlog _ _ hpos_b (hasc_b 14 15 (by norm_num) (by norm_num) (by norm_num)))
    unfold f_ab
    simp only [hap, hbp]
    apply fint_zero_of_ge
    rcases h with h | h
    · left
      rw [interp_l_top lm T.ap_lev a hasc_a la h]
    · right
      rw [interp_l_top lm T.bp_lev b hasc_b lb h]

/-- Witness of C9: `demoTables` with the identity as `log`. -/
theorem f_ab_saturates_witness :
    (∀ a b : ℚ, (⌊a⌋ + 1 > 15 ∨ ⌊b⌋ + 1 > 15) → fint demoTables 0 a b 0 = 0)
      ∧ (∀ a b : ℚ, (a ≥ demoTables.ap_lev 15 ∨ b ≥ demoTables.bp_lev 15) →
          f_ab demoLibm demoTables 0 a b 0 = 0) :=
  f_ab_saturates demoLibm demoTables 0 0 rfl rfl (axis01_asc 16) (axis01_asc 16)
    (by norm_num [demoTables, axis01]) (by norm_num [demoTables, axis01])
    (fun _ _ _ h => h)

end InterpProofs

section RetrievalProofs

variable {K : Type} [LinearOrderedField K] [FloorRing K]

/-- With zero reflectance at both reference bands, both closed-form solves have a zero scale
denominator and report the degenerate code. -/
theorem iter_ab_zero_rho (rho_w aw bbw F : ℤ → K) (epsb epsa : K)
    (h0 : rho_w 0 = 0) (h1 : rho_w 1 = 0) :
    caseI_scale rho_w F epsb epsa = 0 ∧ iter_ab rho_w aw bbw F epsb epsa = (1, -1, -1)
      ∧ caseII_scale rho_w F epsb epsa = 0 ∧ iter_ab2 rho_w aw bbw F epsb epsa = (1, -1, -1) := by
  have e1 : caseI_scale rho_w F epsb epsa = 0 := by simp [caseI_scale, h0, h1]
  have e2 : caseII_scale rho_w F epsb epsa = 0 := by simp [caseII_scale, h0, h1]
  refine ⟨e1, ?_, e2, ?_⟩
  · rw [iter_ab_eq, if_pos e1]
  · rw [iter_ab2_eq, if_pos e2]

/-- With zero reflectance at both reference bands a pass of the iteration is degenerate. -/
theorem mod_iter_pass_zero_rho (lm : Libm K) (T : Tables K) (c : Config K) (refind : ℤ)
    (rho_w init_a init_b : ℤ → K) (eps_a : K) (st : PassState K)
    (h0 : rho_w (c.bp 0) = 0) (h1 : rho_w (c.bp 1) = 0) :
    (mod_iter_pass lm T c refind rho_w init_a init_b eps_a st).1 = 1 := by
  have hz0 : arr2 (rho_w (c.bp 0)) (rho_w (c.bp 1)) 0 = 0 := by simp [arr2, h0]
  have hz1 : arr2 (rho_w (c.bp 0)) (rho_w (c.bp 1)) 1 = 0 := by simp [arr2, h1]
  unfold mod_iter_pass
  simp only
  by_cases hc : c.CASEII ≠ 0
  · rw [if_pos hc, (iter_ab_zero_rho _ _ _ _ _ _ hz0 hz1).2.2.2]
    simp
  · rw [if_neg hc, (iter_ab_zero_rho _ _ _ _ _ _ hz0 hz1).2.1]
    simp

/-- With zero reflectance at both reference bands the iteration loop stops after one pass
with `fail = 2`, whatever the fuel. -/
theorem mod_iter_loop_zero_rho (lm : Libm K) (T : Tables K) (c : Config K) (refind : ℤ)
    (rho_w init_a init_b : ℤ → K) (eps_a : K) (fuel : ℕ) (iter : ℤ) (st : PassState K)
    (h0 : rho_w (c.bp 0) = 0) (h1 : rho_w (c.bp 1) = 0) :
    mod_iter_loop lm T c refind rho_w init_a init_b eps_a fuel iter st = ⟨2, iter, st, 1⟩ := by
  have hp := mod_iter_pass_zero_rho lm T c refind rho_w init_a init_b eps_a st h0 h1
  have hs : mod_iter_step lm T c refind rho_w init_a init_b eps_a iter st
      = (⟨2, iter, st, 1⟩, false) := by
    unfold mod_iter_step
    simp only [hp]
    simp
  cases fuel with
  | zero => simp [mod_iter_loop, hs]
  | succ k => simp [mod_iter_loop, hs]

/-- With zero reflectance at both reference bands a seed fails after one pass and leaves the
reflectance zero at the reference bands. -/
theorem mod_iter_seed_zero_rho (lm : Libm K) (T : Tables K) (c : Config K)
    (sun_theta sen_theta dphi eps_a chl : K) (r : ModIterResult K)
    (h0 : r.rho_w (c.bp 0) = 0) (h1 : r.rho_w (c.bp 1) = 0) :
    (mod_iter_seed lm T c sun_theta sen_theta dphi eps_a chl r).fail = 2
      ∧ (mod_iter_seed lm T c sun_theta sen_theta dphi eps_a chl r).cc = r.cc + 1
      ∧ (mod_iter_seed lm T c sun_theta sen_theta dphi eps_a chl r).passes = r.passes + 1
      ∧ (mod_iter_seed lm T c sun_theta sen_theta dphi eps_a chl r).rho_w (c.bp 0) = 0
      ∧ (mod_iter_seed lm T c sun_theta sen_theta dphi eps_a chl r).rho_w (c.bp 1) = 0 := by
  have g0 : setNB r.rho_w (fun i => if r.rho_w i < 0 then 0 else r.rho_w i) (c.bp 0) = 0 := by
    unfold setNB; simp [h0]
  have g1 : setNB r.rho_w (fun i => if r.rho_w i < 0 then 0 else r.rho_w i) (c.bp 1) = 0 := by
    unfold setNB; simp [h1]
  unfold mod_iter_seed
  simp only
  rw [mod_iter_loop_zero_rho lm T c _ _ _ _ eps_a _ 0 _ g0 g1]
  simp [g0, g1]

/-- With zero reflectance at both reference bands every remaining seed is tried and fails. -/
theorem mod_iter_seeds_zero_rho (lm : Libm K) (T : Tables K) (c : Config K)
    (sun_theta sen_theta dphi eps_a : K) (l : List K) (r : ModIterResult K)
    (hf : r.fail = 2) (h0 : r.rho_w (c.bp 0) = 0) (h1 : r.rho_w (c.bp 1) = 0) :
    (mod_iter_seeds lm T c sun_theta sen_theta dphi eps_a l r).fail = 2
      ∧ (mod_iter_seeds lm T c sun_theta sen_theta dphi eps_a l r).cc = r.cc + l.length
      ∧ (mod_iter_seeds lm T c sun_theta sen_theta dphi eps_a l r).passes
          = r.passes + l.length := by
  induction l generalizing r with
  | nil => simp [mod_iter_seeds, hf]
  | cons chl rest ih =>
    obtain ⟨e1, e2, e3, e4, e5⟩ :=
      mod_iter_seed_zero_rho lm T c sun_theta sen_theta dphi eps_a chl r h0 h1
    obtain ⟨i1, i2, i3⟩ := ih _ e1 e4 e5
    simp only [mod_iter_seeds, if_pos hf]
    refine ⟨i1, ?_, ?_⟩
    · rw [i2, e2]; simp [List.length]; ring
    · rw [i3, e3]; simp [List.length]; ring

/-- With zero reflectance at both reference bands `mod_iter` returns 2 after one degenerate
solve for each of the 5 seeds. -/
theorem mod_iter_zero_rho (lm : Libm K) (T : Tables K) (c : Config K) (refind : ℤ)
    (rho_w : ℤ → K) (sun_theta sen_theta dphi eps_a : K) (a bb : ℤ → K)
    (h0 : rho_w (c.bp 0) = 0) (h1 : rho_w (c.bp 1) = 0) :
    (mod_iter lm T c refind rho_w sun_theta sen_theta dphi eps_a a bb).fail = 2
      ∧ (mod_iter lm T c refind rho_w sun_theta sen_theta dphi eps_a a bb).cc = 5
      ∧ (mod_iter lm T c refind rho_w sun_theta sen_theta dphi eps_a a bb).passes = 5 := by
  obtain ⟨e1, e2, e3⟩ := mod_iter_seeds_zero_rho lm T c sun_theta sen_theta dphi eps_a
    init_chls ⟨2, a, bb, rho_w, refind, 0, 0⟩ rfl h0 h1
  unfold mod_iter
  refine ⟨e1, ?_, ?_⟩
  · rw [e2]; simp [init_chls]
  · rw [e3]; simp [init_chls]

/-- When `mod_iter` fails, `iop_model` returns its code and leaves `ady` and `ap` as they
were on entry. -/
theorem iop_model_of_fail (lm : Libm K) (T : Tables K) (c : Config K) (g : Globals K)
    (rho_w : ℤ → K) (sun_theta sen_theta dphi : K) (a bbp ady ap : ℤ → K)
    (hf : (mod_iter lm T c g.refind rho_w sun_theta sen_theta dphi c.eps_a_init a bbp).fail
      ≠ 0) :
    (iop_model lm T c g rho_w sun_theta sen_theta dphi a bbp ady ap).result
        = (mod_iter lm T c g.refind rho_w sun_theta sen_theta dphi c.eps_a_init a bbp).fail
      ∧ (iop_model lm T c g rho_w sun_theta sen_theta dphi a bbp ady ap).ady = ady
      ∧ (iop_model lm T c g rho_w sun_theta sen_theta dphi a bbp ady ap).ap = ap := by
  unfold iop_model
  simp only
  rw [if_pos hf]
  exact ⟨rfl, rfl, rfl⟩

/-- C3. For an all-zero reflectance spectrum, with any geometry, tables and configuration
(Case I or Case II): both closed-form solves have zero scale and are degenerate; `mod_iter`
makes exactly one (degenerate) solve for each of the 5 seeds and returns 2; `iop_model`
returns that non-zero code; and the single-point driver prints the sentinel -9.9 for all 24
entries of `a`, `ady`, `ap`, `bbp`. -/
theorem zero_reflectance_sentinel (lm : Libm K) (T : Tables K) (c : Config K) (g : Globals K)
    (pure_water_flag Rrs_flag : ℤ) (sun_theta sen_theta dphi eps_a : K)
    (a bbp ady ap : ℤ → K) :
    (∀ (aw bbw F : ℤ → K) (epsb epsa : K),
        caseI_scale (fun _ => 0) F epsb epsa = 0
          ∧ iter_ab (fun _ => 0) aw bbw F epsb epsa = (1, -1, -1)
          ∧ caseII_scale (fun _ => 0) F epsb epsa = 0
          ∧ iter_ab2 (fun _ => 0) aw bbw F epsb epsa = (1, -1, -1))
      ∧ (mod_iter lm T c g.refind (fun _ => 0) sun_theta sen_theta dphi eps_a a bbp).fail = 2
      ∧ (mod_iter lm T c g.refind (fun _ => 0) sun_theta sen_theta dphi eps_a a bbp).cc = 5
      ∧ (mod_iter lm T c g.refind (fun _ => 0) sun_theta sen_theta dphi eps_a a bbp).passes = 5
      ∧ (iop_model lm T c g (fun _ => 0) sun_theta sen_theta dphi a bbp ady ap).result
          = (mod_iter lm T c g.refind (fun _ => 0) sun_theta sen_theta dphi c.eps_a_init
              a bbp).fail
      ∧ (iop_model lm T c g (fun _ => 0) sun_theta sen_theta dphi a bbp ady ap).result ≠ 0
      ∧ main_single_point lm T c g pure_water_flag Rrs_flag (fun _ => 0) (fun _ => 0)
          sun_theta sen_theta dphi a bbp ady ap = List.replicate 24 sentinel := by
  obtain ⟨m1, m2, m3⟩ := mod_iter_zero_rho lm T c g.refind (fun _ => 0) sun_theta sen_theta
    dphi eps_a a bbp rfl rfl
  have mf := (mod_iter_zero_rho lm T c g.refind (fun _ => 0) sun_theta sen_theta
    dphi c.eps_a_init a bbp rfl rfl).1
  have hi := (iop_model_of_fail lm T c g (fun _ => 0) sun_theta sen_theta dphi a bbp ady ap
    (by rw [mf]; norm_num)).1
  have hres : (iop_model lm T c g (fun _ => 0) sun_theta sen_theta dphi a bbp ady ap).result
      ≠ 0 := by rw [hi, mf]; norm_num
  refine ⟨fun aw bbw F epsb epsa => iter_ab_zero_rho _ aw bbw F epsb epsa rfl rfl,
    m1, m2, m3, hi, hres, ?_⟩
  have hrho : (if Rrs_flag ≠ 0 then setNB (fun _ => (0 : K)) (fun i => M_PI * (fun _ => 0) i)
      else fun _ => 0) = fun _ => (0 : K) := by
    split_ifs
    · funext i; simp [setNB]
    · rfl
  have hneg : ¬ (sentinel : K) > 0 := by
    unfold sentinel
    rw [not_lt]
    have : (0 : K) < 99 / 10 := by norm_num
    linarith
  unfold main_single_point
  simp only [hrho, if_pos hres, bands, List.map, setNB, NB]
  norm_num [hneg, List.replicate]

/-- The seed loop keeps the table offset it is given. -/
theorem mod_iter_seeds_refind (lm : Libm K) (T : Tables K) (c : Config K)
    (sun_theta sen_theta dphi eps_a : K) (l : List K) (r : ModIterResult K)
    (h : r.refind = (setgeom T sun_theta sen_theta dphi).2) :
    (mod_iter_seeds lm T c sun_theta sen_theta dphi eps_a l r).refind
      = (setgeom T sun_theta sen_theta dphi).2 := by
  induction l generalizing r with
  | nil => simpa [mod_iter_seeds] using h
  | cons chl rest ih =>
    simp only [mod_iter_seeds]
    split_ifs
    · exact ih _ rfl
    · exact h

/-- Function `mod_iter` discards the status of `setgeom` and always works at the offset that
`setgeom` computed. -/
theorem mod_iter_refind (lm : Libm K) (T : Tables K) (c : Config K) (refind : ℤ)
    (rho_w : ℤ → K) (sun_theta sen_theta dphi eps_a : K) (a bb : ℤ → K) :
    (mod_iter lm T c refind rho_w sun_theta sen_theta dphi eps_a a bb).refind
      = (setgeom T sun_theta sen_theta dphi).2 := by
  have key : ∀ (chl : K) (rest : List K) (r : ModIterResult K), r.fail = 2 →
      (mod_iter_seeds lm T c sun_theta sen_theta dphi eps_a (chl :: rest) r).refind
        = (setgeom T sun_theta sen_theta dphi).2 := by
    intro chl rest r hf
    rw [mod_iter_seeds, if_pos hf]
    exact mod_iter_seeds_refind lm T c sun_theta sen_theta dphi eps_a rest _ rfl
  unfold mod_iter init_chls
  exact key _ _ _ rfl

/-- C5 (code evaluated at the failing input). On `demoTables` the solar-zenith axis is `0, 1`;
for the solar zenith `2`, beyond its largest entry, `setgeom` returns status 0 with the offset
`6144` of the last solar-zenith row, and `mod_iter` runs at that offset. -/
theorem setgeom_beyond_axis_status (lm : Libm ℚ) (c : Config ℚ) (refind : ℤ)
    (rho_w a bb : ℤ → ℚ) (eps_a : ℚ) :
    demoTables.th_s_lev (demoTables.th_s_n - 1) < 2
      ∧ setgeom demoTables 2 0 0 = (0, 6144)
      ∧ (mod_iter lm demoTables c refind rho_w 2 0 0 eps_a a bb).refind = 6144 := by
  have h1 : interp axis01 2 2 = 1 := by
    simp [interp, axis01]
  have h2 : interp axis01 0 2 = 0 := by
    simp [interp, segment, searchLoop, axis01]
  have h3 : wrap_dphi (0 : ℚ) = 0 := by
    simp [wrap_dphi, M_PI]
  have f1 : ⌊(1 : ℚ) + 1 / 2⌋ = 1 := by
    rw [Int.floor_eq_iff]; norm_num
  have f0 : ⌊(0 : ℚ) + 1 / 2⌋ = 0 := by
    rw [Int.floor_eq_iff]; norm_num
  have hs : setgeom demoTables 2 0 0 = (0, 6144) := by
    simp only [setgeom, demoTables, h1, h2, h3, f1, f0, Tables.refind_max, Tables.refen_size]
    norm_num
  refine ⟨by norm_num [demoTables, axis01], hs, ?_⟩
  rw [mod_iter_refind, hs]

end RetrievalProofs

section DriverProofs

variable {K : Type} [LinearOrderedField K] [FloorRing K]

/-- C4 (code evaluated at a failed pixel). In the pixel loop of `apply_pml_iop_model` (all
bands in one pass), for a pixel that has data but zero reflectance at both reference bands
(so that the retrieval fails), the value written to `out_ady[j][pix]` and `out_ap[j][pix]`
is the content that `ady[j]` and `ap[j]` had before the call, left by an earlier pixel, not
a sentinel. -/
theorem apply_pixel_failed_stale (lm : Libm K) (T : Tables K) (c : Config K)
    (rho_w : ℤ → ℤ → K) (senz solz sena sola : ℤ → K) (pix j : ℤ)
    (s : Carried K × OutBufs K)
    (hdata : bands.all (fun k => decide (rho_w k pix = 0)) = false)
    (hz0 : rho_w (c.bp 0) pix = 0) (hz1 : rho_w (c.bp 1) pix = 0)
    (hj0 : 0 ≤ j) (hj1 : j < NB)
    (hady : 0 ≤ s.1.ady j ∧ s.1.ady j ≤ 100) (hap : 0 ≤ s.1.ap j ∧ s.1.ap j ≤ 100) :
    (iop_model lm T c s.1.g (fun k => rho_w k pix) (radians (solz pix)) (radians (senz pix))
        (radians (sena pix) - radians (sola pix)) s.1.a s.1.bbp s.1.ady s.1.ap).result = 2
      ∧ (apply_pixel lm T c 0 0 rho_w senz solz sena sola pix s).2.out_ady j pix = s.1.ady j
      ∧ (apply_pixel lm T c 0 0 rho_w senz solz sena sola pix s).2.out_ap j pix = s.1.ap j := by
  have mf := (mod_iter_zero_rho lm T c s.1.g.refind (fun k => rho_w k pix)
    (radians (solz pix)) (radians (senz pix)) (radians (sena pix) - radians (sola pix))
    c.eps_a_init s.1.a s.1.bbp hz0 hz1).1
  obtain ⟨e1, e2, e3⟩ := iop_model_of_fail lm T c s.1.g (fun k => rho_w k pix)
    (radians (solz pix)) (radians (senz pix)) (radians (sena pix) - radians (sola pix))
    s.1.a s.1.bbp s.1.ady s.1.ap (by rw [mf]; norm_num)
  refine ⟨by rw [e1, mf], ?_, ?_⟩
  · unfold apply_pixel
    simp only [hdata, e2]
    unfold write_valid
    simp [hj0, hj1, hady.1, hady.2]
  · unfold apply_pixel
    simp only [hdata, e3]
    unfold write_valid
    simp [hj0, hj1, hap.1, hap.2]

/-- Witness of C4: on `demoImage` with `demoConfig` (reference bands 2 and 3) the failed pixel
0 gets the stale values `1/2` and `1/4` of `demoState`. -/
theorem apply_pixel_failed_stale_witness :
    (apply_pixel demoLibm demoTables demoConfig 0 0 demoImage (fun _ => 0) (fun _ => 0)
        (fun _ => 0) (fun _ => 0) 0 demoState).2.out_ady 0 0 = demoState.1.ady 0
      ∧ (apply_pixel demoLibm demoTables demoConfig 0 0 demoImage (fun _ => 0) (fun _ => 0)
        (fun _ => 0) (fun _ => 0) 0 demoState).2.out_ap 0 0 = demoState.1.ap 0 :=
  (apply_pixel_failed_stale demoLibm demoTables demoConfig demoImage (fun _ => 0) (fun _ => 0)
    (fun _ => 0) (fun _ => 0) 0 0 demoState (by simp [bands, demoImage])
    (by simp [demoConfig, demoImage]) (by simp [demoConfig, demoImage]) (by norm_num)
    (by norm_num [NB]) (by norm_num [demoState]) (by norm_num [demoState])).2

/-- In the `GLOBAL` pixel loop of `main`, for a pixel with positive radiances on which
`mod_iter` fails, the values stored in the `adg` and `aph` images are the contents that
`ady` and `ap` had before the call. -/
theorem global_pixel_failed_stale (lm : Libm K) (T : Tables K) (c : Config K)
    (width month : ℤ) (zenith_float : ℤ → K) (nLw : ℤ → ℤ → K) (sen_theta dphi : K)
    (pixel j : ℤ) (s : GlobalState K)
    (hdata : bands.all (fun k => decide (nLw k pixel > 0)) = true)
    (hj0 : 0 ≤ j) (hj1 : j < NB)
    (hf : ∀ sun_theta : K, (mod_iter lm T c s.cs.g.refind (fun k => M_PI * nLw k pixel / F0 k)
      sun_theta sen_theta dphi c.eps_a_init s.cs.a s.cs.bbp).fail ≠ 0) :
    (global_pixel lm T c width month zenith_float nLw sen_theta dphi pixel s).adg
        (pixel * NB + j) = s.cs.ady j
      ∧ (global_pixel lm T c width month zenith_float nLw sen_theta dphi pixel s).aph
        (pixel * NB + j) = s.cs.ap j := by
  unfold global_pixel
  simp only [hdata, if_true]
  constructor
  · rw [(iop_model_of_fail lm T c s.cs.g _ _ sen_theta dphi s.cs.a s.cs.bbp s.cs.ady s.cs.ap
      (hf _)).2.1]
    simp [write_bip, hj0, hj1]
  · rw [(iop_model_of_fail lm T c s.cs.g _ _ sen_theta dphi s.cs.a s.cs.bbp s.cs.ady s.cs.ap
      (hf _)).2.2]
    simp [write_bip, hj0, hj1]

end DriverProofs

section InterpLogProofs

variable {K : Type} [LinearOrderedField K] [FloorRing K]

/-- The axis `1, 2, 3, ...` is strictly ascending. -/
theorem axis1_asc (n : ℤ) : StrictAsc axis1 n := by
  intro i j _ hij _
  simp only [axis1]
  have : (i : ℚ) < (j : ℚ) := by exact_mod_cast hij
  linarith

/-- For an argument not above `x[1]` (axis of at least 2 entries) the search selects
segment 0. -/
theorem segment_zero_of_le (x : ℤ → K) (u : K) (n : ℤ) (hn : 2 ≤ n) (hu : u ≤ x 1) :
    segment x u n = 0 := by
  have hk : ((n.toNat : ℕ) : ℤ) = n := Int.toNat_of_nonneg (by omega)
  rcases searchLoop_spec x u n.toNat 0 with ⟨j, hj0, _, _, hj3, hj4⟩ | ⟨hA, hB⟩
  · have hj : j ≤ 1 := by
      by_contra h
      have := hj3 1 (by norm_num) (by omega)
      exact absurd hu (not_le.mpr this)
    simp only [segment, hj4]
    split_ifs <;> omega
  · simp [segment, hB]

/-- On a strictly ascending axis, positive from entry 1 on, with `log` strictly increasing on
positive values, the log-interpolated fraction of an in-range argument lies in `[0, 1]`. -/
theorem interp_l_frac (lm : Libm K) (x : ℤ → K) (u : K) (n : ℤ) (hn : 2 ≤ n)
    (hasc : StrictAsc x n) (hpos : ∀ i : ℤ, 1 ≤ i → i < n → 0 < x i)
    (hlog : ∀ p q : K, 0 < p → p < q → lm.log p < lm.log q)
    (h0 : x 0 ≤ u) (h1 : u ≤ x (n - 1)) (hs : 1 ≤ segment x u n) :
    0 ≤ (lm.log u - lm.log (x (segment x u n)))
          / (lm.log (x (segment x u n + 1)) - lm.log (x (segment x u n)))
      ∧ (lm.log u - lm.log (x (segment x u n)))
          / (lm.log (x (segment x u n + 1)) - lm.log (x (segment x u n))) ≤ 1 := by
  obtain ⟨hs0, hs1, _, hhi, hor⟩ := segment_bracket x u n hn hasc h0 h1
  generalize segment x u n = s at *
  have hlt : x s < u := by
    rcases hor with h | h
    · exact h
    · omega
  have hxs : 0 < x s := hpos s hs (by omega)
  have hd : 0 < lm.log (x (s + 1)) - lm.log (x s) :=
    sub_pos.mpr (hlog _ _ hxs (hasc s (s + 1) hs0 (by omega) (by omega)))
  have hnum : 0 < lm.log u - lm.log (x s) := sub_pos.mpr (hlog _ _ hxs hlt)
  have hle : lm.log u ≤ lm.log (x (s + 1)) := by
    rcases eq_or_lt_of_le hhi with e | e
    · rw [e]
    · exact le_of_lt (hlog _ _ (lt_trans hxs hlt) e)
  refine ⟨div_nonneg (le_of_lt hnum) (le_of_lt hd), ?_⟩
  rw [div_le_one hd]
  linarith

/-- C20. Function `interp_l` uses the same segment search as `interp` and differs only in
the interpolation: for a strictly ascending positive axis `x` (`n >= 2`), `log` strictly
increasing on positive values, and `u <= x[n-1]`, with `s` the segment found by the search,
`interp_l` returns `s + (u - x[s])/(x[s+1] - x[s])` when `s = 0` and
`s + (ln u - ln x[s])/(ln x[s+1] - ln x[s])` when `s >= 1`, while `interp` returns the
linear form for every `s`; hence `interp_l = interp` for every `u <= x[1]`, and for
`x[0] <= u <= x[n-1]` both values lie in `[s, s+1]` for the same `s`. -/
theorem interp_l_vs_interp (lm : Libm K) (x : ℤ → K) (u : K) (n : ℤ) (hn : 2 ≤ n)
    (hasc : StrictAsc x n) (hpos : ∀ i : ℤ, 0 ≤ i → i < n → 0 < x i)
    (hlog : ∀ p q : K, 0 < p → p < q → lm.log p < lm.log q)
    (hu : u ≤ x (n - 1)) :
    0 ≤ segment x u n
      ∧ interp x u n = (segment x u n : K)
          + (u - x (segment x u n)) / (x (segment x u n + 1) - x (segment x u n))
      ∧ (segment x u n = 0 → interp_l lm x u n = (segment x u n : K)
          + (u - x (segment x u n)) / (x (segment x u n + 1) - x (segment x u n)))
      ∧ (1 ≤ segment x u n → interp_l lm x u n = (segment x u n : K)
          + (lm.log u - lm.log (x (segment x u n)))
            / (lm.log (x (segment x u n + 1)) - lm.log (x (segment x u n))))
      ∧ (u ≤ x 1 → interp_l lm x u n = interp x u n)
      ∧ (x 0 ≤ u → ((segment x u n : K) ≤ interp x u n
            ∧ interp x u n ≤ (segment x u n : K) + 1)
          ∧ ((segment x u n : K) ≤ interp_l lm x u n
            ∧ interp_l lm x u n ≤ (segment x u n : K) + 1)) := by
  have hnot : ¬ u > x (n - 1) := not_lt.mpr hu
  have hseg : 0 ≤ segment x u n := by
    simp only [segment]
    split_ifs <;> omega
  have e_lin : interp x u n = (segment x u n : K)
      + (u - x (segment x u n)) / (x (segment x u n + 1) - x (segment x u n)) := by
    simp only [interp, if_neg hnot]
    ring
  have e_l0 : segment x u n = 0 → interp_l lm x u n = (segment x u n : K)
      + (u - x (segment x u n)) / (x (segment x u n + 1) - x (segment x u n)) := by
    intro h
    simp only [interp_l, if_neg hnot, if_pos h]
    ring
  have e_l1 : 1 ≤ segment x u n → interp_l lm x u n = (segment x u n : K)
      + (lm.log u - lm.log (x (segment x u n)))
        / (lm.log (x (segment x u n + 1)) - lm.log (x (segment x u n))) := by
    intro h
    have hne : segment x u n ≠ 0 := by omega
    simp only [interp_l, if_neg hnot, if_neg hne]
    ring
  refine ⟨hseg, e_lin, e_l0, e_l1, ?_, ?_⟩
  · intro h1
    rw [e_l0 (segment_zero_of_le x u n hn h1), e_lin]
  · intro h0
    obtain ⟨_, f0, f1, _⟩ := interp_frac x u n hn hasc h0 hu
    refine ⟨⟨by rw [e_lin]; linarith, by rw [e_lin]; linarith⟩, ?_⟩
    rcases eq_or_lt_of_le hseg with e | e
    · rw [e_l0 e.symm]
      exact ⟨by linarith, by linarith⟩
    · have hs1 : 1 ≤ segment x u n := by omega
      obtain ⟨g0, g1⟩ := interp_l_frac lm x u n hn hasc
        (fun i hi hin => hpos i (by omega) hin) hlog h0 hu hs1
      rw [e_l1 hs1]
      exact ⟨by linarith, by linarith⟩

/-- Witness of C20: the axis `1, 2, 3` with the identity as `log`, at `u = 5/2`; the last
part gives the common bracket. -/
theorem interp_l_vs_interp_witness :
    ((segment axis1 (5 / 2) 3 : ℚ) ≤ interp axis1 (5 / 2) 3
        ∧ interp axis1 (5 / 2) 3 ≤ (segment axis1 (5 / 2) 3 : ℚ) + 1)
      ∧ ((segment axis1 (5 / 2) 3 : ℚ) ≤ interp_l demoLibm axis1 (5 / 2) 3
        ∧ interp_l demoLibm axis1 (5 / 2) 3 ≤ (segment axis1 (5 / 2) 3 : ℚ) + 1) :=
  (interp_l_vs_interp demoLibm axis1 (5 / 2) 3 (by norm_num) (axis1_asc 3)
    (fun i hi _ => by
      simp only [axis1]
      have : (0 : ℚ) ≤ (i : ℚ) := by exact_mod_cast hi
      linarith)
    (fun _ _ _ h => h) (by norm_num [axis1])).2.2.2.2.2 (by norm_num [axis1])

end InterpLogProofs

section ConvergenceProofs

variable {K : Type} [LinearOrderedField K] [FloorRing K]

/-- Pass `q + 2` from `st` converges exactly when pass `q + 1` from the state after a
non-degenerate first pass does. -/
theorem converges_at_succ (pass : PassState K → ℤ × PassState K × K) (tol : K)
    (st : PassState K) (q : ℕ) (h : (pass st).1 = 0) :
    converges_at pass tol st (q + 1) ↔ converges_at pass tol (pass st).2.1 q := by
  unfold converges_at
  simp only [state_after, h, ne_eq, not_true_eq_false, if_false]

/-- The first pass from `st` converges exactly when it is not degenerate and `df < tol`. -/
theorem converges_at_zero (pass : PassState K → ℤ × PassState K × K) (tol : K)
    (st : PassState K) :
    converges_at pass tol st 0 ↔ ((pass st).1 = 0 ∧ (pass st).2.2 < tol) := by
  unfold converges_at
  simp [state_after]

/-- After a degenerate first pass no pass converges. -/
theorem not_converges_at_of_degenerate (pass : PassState K → ℤ × PassState K × K) (tol : K)
    (st : PassState K) (q : ℕ) (h : (pass st).1 ≠ 0) : ¬ converges_at pass tol st q := by
  rintro ⟨s, hs, h1, _⟩
  cases q with
  | zero =>
    simp only [state_after, Option.some.injEq] at hs
    subst hs
    exact h h1
  | succ k => simp [state_after, h] at hs

/-- A degenerate pass ends the loop with `fail = 2` and the state unchanged. -/
theorem mod_iter_loop_degenerate (lm : Libm K) (T : Tables K) (c : Config K) (refind : ℤ)
    (rho_w init_a init_b : ℤ → K) (eps_a : K) (fuel : ℕ) (iter : ℤ) (st : PassState K)
    (h : (mod_iter_pass lm T c refind rho_w init_a init_b eps_a st).1 ≠ 0) :
    mod_iter_loop lm T c refind rho_w init_a init_b eps_a fuel iter st = ⟨2, iter, st, 1⟩ := by
  have hs : mod_iter_step lm T c refind rho_w init_a init_b eps_a iter st
      = (⟨2, iter, st, 1⟩, false) := by
    unfold mod_iter_step
    simp only [h, ne_eq, not_false_eq_true, if_true]
  cases fuel with
  | zero => simp [mod_iter_loop, hs]
  | succ k => simp [mod_iter_loop, hs]

/-- A non-degenerate pass after which the loop test fails ends the loop with `fail = 0`. -/
theorem mod_iter_loop_stop (lm : Libm K) (T : Tables K) (c : Config K) (refind : ℤ)
    (rho_w init_a init_b : ℤ → K) (eps_a : K) (fuel : ℕ) (iter : ℤ) (st : PassState K)
    (h : (mod_iter_pass lm T c refind rho_w init_a init_b eps_a st).1 = 0)
    (hc : ¬ (iter + 1 ≤ c.maxit
      ∧ (mod_iter_pass lm T c refind rho_w init_a init_b eps_a st).2.2 ≥ c.tol)) :
    mod_iter_loop lm T c refind rho_w init_a init_b eps_a fuel iter st
      = ⟨0, iter + 1, (mod_iter_pass lm T c refind rho_w init_a init_b eps_a st).2.1, 1⟩ := by
  have hs : mod_iter_step lm T c refind rho_w init_a init_b eps_a iter st
      = (⟨0, iter + 1, (mod_iter_pass lm T c refind rho_w init_a init_b eps_a st).2.1, 1⟩,
        false) := by
    unfold mod_iter_step
    simp only [h, ne_eq, not_true_eq_false, if_false, hc, decide_False]
  cases fuel with
  | zero => simp [mod_iter_loop, hs]
  | succ k => simp [mod_iter_loop, hs]

/-- A non-degenerate pass after which the loop test holds is followed by the rest of the
loop. -/
theorem mod_iter_loop_continue (lm : Libm K) (T : Tables K) (c : Config K) (refind : ℤ)
    (rho_w init_a init_b : ℤ → K) (eps_a : K) (k : ℕ) (iter : ℤ) (st : PassState K)
    (h : (mod_iter_pass lm T c refind rho_w init_a init_b eps_a st).1 = 0)
    (hc : iter + 1 ≤ c.maxit
      ∧ (mod_iter_pass lm T c refind rho_w init_a init_b eps_a st).2.2 ≥ c.tol) :
    mod_iter_loop lm T c refind rho_w init_a init_b eps_a (k + 1) iter st
      = ⟨(mod_iter_loop lm T c refind rho_w init_a init_b eps_a k (iter + 1)
            (mod_iter_pass lm T c refind rho_w init_a init_b eps_a st).2.1).fail,
          (mod_iter_loop lm T c refind rho_w init_a init_b eps_a k (iter + 1)
            (mod_iter_pass lm T c refind rho_w init_a init_b eps_a st).2.1).iter,
          (mod_iter_loop lm T c refind rho_w init_a init_b eps_a k (iter + 1)
            (mod_iter_pass lm T c refind rho_w init_a init_b eps_a st).2.1).st,
          (mod_iter_loop lm T c refind rho_w init_a init_b eps_a k (iter + 1)
            (mod_iter_pass lm T c refind rho_w init_a init_b eps_a st).2.1).passes + 1⟩ := by
  have hs : mod_iter_step lm T c refind rho_w init_a init_b eps_a iter st
      = (⟨0, iter + 1, (mod_iter_pass lm T c refind rho_w init_a init_b eps_a st).2.1, 1⟩,
        true) := by
    unfold mod_iter_step
    simp only [h, ne_eq, not_true_eq_false, if_false, hc, and_self, decide_True]
  simp [mod_iter_loop, hs]

/-- The iteration loop of `mod_iter`, given enough fuel for its cap: it ends with `fail = 0`
and `iter <= maxit` exactly at the first pass, among those numbered up to `maxit`, that is
reached without a degenerate solve and has `df < tol`, with the state left by that pass;
otherwise it ends with `fail = 2` or `iter > maxit`. -/
theorem mod_iter_loop_spec (lm : Libm K) (T : Tables K) (c : Config K) (refind : ℤ)
    (rho_w init_a init_b : ℤ → K) (eps_a : K) (fuel : ℕ) (iter : ℤ) (st : PassState K)
    (hfuel : c.maxit ≤ iter + fuel) :
    ((mod_iter_loop lm T c refind rho_w init_a init_b eps_a fuel iter st).fail = 0
        ∨ (mod_iter_loop lm T c refind rho_w init_a init_b eps_a fuel iter st).fail = 2)
      ∧ ((∀ q : ℕ, iter + q + 1 ≤ c.maxit →
            ¬ converges_at (mod_iter_pass lm T c refind rho_w init_a init_b eps_a) c.tol st q)
          → ((mod_iter_loop lm T c refind rho_w init_a init_b eps_a fuel iter st).iter > c.maxit
            ∨ (mod_iter_loop lm T c refind rho_w init_a init_b eps_a fuel iter st).fail = 2))
      ∧ (∀ q : ℕ, iter + q + 1 ≤ c.maxit →
          converges_at (mod_iter_pass lm T c refind rho_w init_a init_b eps_a) c.tol st q →
          (∀ q' : ℕ, q' < q →
            ¬ converges_at (mod_iter_pass lm T c refind rho_w init_a init_b eps_a) c.tol st q')
          → (mod_iter_loop lm T c refind rho_w init_a init_b eps_a fuel iter st).fail = 0
            ∧ (mod_iter_loop lm T c refind rho_w init_a init_b eps_a fuel iter st).iter
              ≤ c.maxit
            ∧ ∃ s, state_after (mod_iter_pass lm T c refind rho_w init_a init_b eps_a) q st
                = some s
              ∧ (mod_iter_loop lm T c refind rho_w init_a init_b eps_a fuel iter st).st
                = (mod_iter_pass lm T c refind rho_w init_a init_b eps_a s).2.1) := by
  induction fuel generalizing iter st with
  | zero =>
    by_cases h : (mod_iter_pass lm T c refind rho_w init_a init_b eps_a st).1 = 0
    · have hc : ¬ (iter + 1 ≤ c.maxit
          ∧ (mod_iter_pass lm T c refind rho_w init_a init_b eps_a st).2.2 ≥ c.tol) := by
        intro hh
        have := hh.1
        push_cast at hfuel
        omega
      rw [mod_iter_loop_stop lm T c refind rho_w init_a init_b eps_a 0 iter st h hc]
      refine ⟨Or.inl rfl, fun _ => Or.inl ?_, ?_⟩
      · show iter + 1 > c.maxit
        push_cast at hfuel
        omega
      · intro q hq
        push_cast at hfuel
        omega
    · rw [mod_iter_loop_degenerate lm T c refind rho_w init_a init_b eps_a 0 iter st h]
      refine ⟨Or.inr rfl, fun _ => Or.inr rfl, ?_⟩
      intro q _ hconv
      exact absurd hconv (not_converges_at_of_degenerate _ _ _ _ h)
  | succ k ih =>
    by_cases h : (mod_iter_pass lm T c refind rho_w init_a init_b eps_a st).1 = 0
    · by_cases hc : iter + 1 ≤ c.maxit
          ∧ (mod_iter_pass lm T c refind rho_w init_a init_b eps_a st).2.2 ≥ c.tol
      · rw [mod_iter_loop_continue lm T c refind rho_w init_a init_b eps_a k iter st h hc]
        obtain ⟨i1, i2, i3⟩ := ih (iter + 1)
          (mod_iter_pass lm T c refind rho_w init_a init_b eps_a st).2.1
          (by push_cast at hfuel ⊢; omega)
        have h0 : ¬ converges_at (mod_iter_pass lm T c refind rho_w init_a init_b eps_a)
            c.tol st 0 := by
          rw [converges_at_zero]
          intro hh
          exact absurd hh.2 (not_lt.mpr hc.2)
        refine ⟨i1, ?_, ?_⟩
        · intro hall
          apply i2
          intro q hq hconv
          exact hall (q + 1) (by push_cast; omega)
            ((converges_at_succ _ _ _ _ h).mpr hconv)
        · intro q hq hconv hmin
          cases q with
          | zero => exact absurd hconv h0
          | succ q =>
            obtain ⟨j1, j2, s, j3, j4⟩ := i3 q (by push_cast at hq; omega)
              ((converges_at_succ _ _ _ _ h).mp hconv)
              (fun q' hq' hc' => hmin (q' + 1) (by omega)
                ((converges_at_succ _ _ _ _ h).mpr hc'))
            refine ⟨j1, j2, s, ?_, j4⟩
            simp only [state_after, h, ne_eq, not_true_eq_false, if_false]
            exact j3
      · rw [mod_iter_loop_stop lm T c refind rho_w init_a init_b eps_a (k + 1) iter st h hc]
        refine ⟨Or.inl rfl, ?_, ?_⟩
        · intro hall
          left
          show iter + 1 > c.maxit
          by_contra hle
          have hle' : iter + 1 ≤ c.maxit := by omega
          have hdf : (mod_iter_pass lm T c refind rho_w init_a init_b eps_a st).2.2 < c.tol := by
            by_contra hge
            exact hc ⟨hle', not_lt.mp hge⟩
          exact hall 0 (by push_cast; omega) ((converges_at_zero _ _ _).mpr ⟨h, hdf⟩)
        · intro q hq hconv hmin
          have hle' : iter + 1 ≤ c.maxit := by omega
          have hdf : (mod_iter_pass lm T c refind rho_w init_a init_b eps_a st).2.2 < c.tol := by
            by_contra hge
            exact hc ⟨hle', not_lt.mp hge⟩
          have hq0 : q = 0 := by
            by_contra hne
            exact hmin 0 (Nat.pos_of_ne_zero hne) ((converges_at_zero _ _ _).mpr ⟨h, hdf⟩)
          subst hq0
          exact ⟨rfl, hle', st, rfl, rfl⟩
    · rw [mod_iter_loop_degenerate lm T c refind rho_w init_a init_b eps_a (k + 1) iter st h]
      refine ⟨Or.inr rfl, fun _ => Or.inr rfl, ?_⟩
      intro q _ hconv
      exact absurd hconv (not_converges_at_of_degenerate _ _ _ _ h)

/-- The seed body in terms of `seed_rho`, `seed_state` and the loop. -/
theorem mod_iter_seed_eq (lm : Libm K) (T : Tables K) (c : Config K)
    (sun_theta sen_theta dphi eps_a chl : K) (r : ModIterResult K) :
    mod_iter_seed lm T c sun_theta sen_theta dphi eps_a chl r
      = ⟨if (mod_iter_loop lm T c (setgeom T sun_theta sen_theta dphi).2 (seed_rho r)
              (fun i => geo2iop lm T.ch_lev T.ac i chl T.ch_n)
              (fun i => geo2iop lm T.ch_lev T.bc i chl T.ch_n) eps_a c.maxit.toNat 0
              (seed_state lm T c sun_theta sen_theta dphi chl r)).iter > c.maxit then 2
          else (mod_iter_loop lm T c (setgeom T sun_theta sen_theta dphi).2 (seed_rho r)
              (fun i => geo2iop lm T.ch_lev T.ac i chl T.ch_n)
              (fun i => geo2iop lm T.ch_lev T.bc i chl T.ch_n) eps_a c.maxit.toNat 0
              (seed_state lm T c sun_theta sen_theta dphi chl r)).fail,
          (mod_iter_loop lm T c (setgeom T sun_theta sen_theta dphi).2 (seed_rho r)
              (fun i => geo2iop lm T.ch_lev T.ac i chl T.ch_n)
              (fun i => geo2iop lm T.ch_lev T.bc i chl T.ch_n) eps_a c.maxit.toNat 0
              (seed_state lm T c sun_theta sen_theta dphi chl r)).st.a,
          (mod_iter_loop lm T c (setgeom T sun_theta sen_theta dphi).2 (seed_rho r)
              (fun i => geo2iop lm T.ch_lev T.ac i chl T.ch_n)
              (fun i => geo2iop lm T.ch_lev T.bc i chl T.ch_n) eps_a c.maxit.toNat 0
              (seed_state lm T c sun_theta sen_theta dphi chl r)).st.bb,
          seed_rho r, (setgeom T sun_theta sen_theta dphi).2, r.cc + 1,
          r.passes + (mod_iter_loop lm T c (setgeom T sun_theta sen_theta dphi).2 (seed_rho r)
              (fun i => geo2iop lm T.ch_lev T.ac i chl T.ch_n)
              (fun i => geo2iop lm T.ch_lev T.bc i chl T.ch_n) eps_a c.maxit.toNat 0
              (seed_state lm T c sun_theta sen_theta dphi chl r)).passes⟩ := rfl

/-- One seed of `mod_iter`: it ends with `fail = 0` exactly when one of its first `maxit`
passes is reached without a degenerate solve and has `df < tol`, and then leaves the `a` and
`bb` of the first such pass; otherwise it ends with `fail = 2`. -/
theorem mod_iter_seed_spec (lm : Libm K) (T : Tables K) (c : Config K)
    (sun_theta sen_theta dphi eps_a chl : K) (r : ModIterResult K) :
    ((mod_iter_seed lm T c sun_theta sen_theta dphi eps_a chl r).fail = 0
        ∨ (mod_iter_seed lm T c sun_theta sen_theta dphi eps_a chl r).fail = 2)
      ∧ (mod_iter_seed lm T c sun_theta sen_theta dphi eps_a chl r).cc = r.cc + 1
      ∧ ((∀ q : ℕ, (q : ℤ) + 1 ≤ c.maxit →
            ¬ converges_at (seed_pass lm T c sun_theta sen_theta dphi eps_a chl r) c.tol
              (seed_state lm T c sun_theta sen_theta dphi chl r) q)
          → (mod_iter_seed lm T c sun_theta sen_theta dphi eps_a chl r).fail = 2)
      ∧ (∀ q : ℕ, (q : ℤ) + 1 ≤ c.maxit →
          converges_at (seed_pass lm T c sun_theta sen_theta dphi eps_a chl r) c.tol
            (seed_state lm T c sun_theta sen_theta dphi chl r) q →
          (∀ q' : ℕ, q' < q →
            ¬ converges_at (seed_pass lm T c sun_theta sen_theta dphi eps_a chl r) c.tol
              (seed_state lm T c sun_theta sen_theta dphi chl r) q')
          → (mod_iter_seed lm T c sun_theta sen_theta dphi eps_a chl r).fail = 0
            ∧ ∃ s, state_after (seed_pass lm T c sun_theta sen_theta dphi eps_a chl r) q
                (seed_state lm T c sun_theta sen_theta dphi chl r) = some s
              ∧ (mod_iter_seed lm T c sun_theta sen_theta dphi eps_a chl r).a
                = ((seed_pass lm T c sun_theta sen_theta dphi eps_a chl r) s).2.1.a
              ∧ (mod_iter_seed lm T c sun_theta sen_theta dphi eps_a chl r).bb
                = ((seed_pass lm T c sun_theta sen_theta dphi eps_a chl r) s).2.1.bb) := by
  obtain ⟨l1, l2, l3⟩ := mod_iter_loop_spec lm T c (setgeom T sun_theta sen_theta dphi).2
    (seed_rho r) (fun i => geo2iop lm T.ch_lev T.ac i chl T.ch_n)
    (fun i => geo2iop lm T.ch_lev T.bc i chl T.ch_n) eps_a c.maxit.toNat 0
    (seed_state lm T c sun_theta sen_theta dphi chl r)
    (by have := Int.self_le_toNat c.maxit; omega)
  rw [mod_iter_seed_eq]
  simp only
  refine ⟨?_, trivial, ?_, ?_⟩
  · split_ifs
    · exact Or.inr rfl
    · exact l1
  · intro hall
    have := l2 (fun q hq => hall q (by omega))
    split_ifs with hi
    · rfl
    · rcases this with h | h
      · exact absurd h hi
      · exact h
  · intro q hq hconv hmin
    obtain ⟨j1, j2, s, j3, j4⟩ := l3 q (by omega) hconv hmin
    refine ⟨?_, s, j3, ?_, ?_⟩
    · rw [if_neg (by omega)]
      exact j1
    · show _ = ((seed_pass lm T c sun_theta sen_theta dphi eps_a chl r) s).2.1.a
      unfold seed_pass
      rw [j4]
    · show _ = ((seed_pass lm T c sun_theta sen_theta dphi eps_a chl r) s).2.1.bb
      unfold seed_pass
      rw [j4]

/-- A seed ends with `fail = 0` exactly when it converges within the cap. -/
theorem mod_iter_seed_fail_zero_iff (lm : Libm K) (T : Tables K) (c : Config K)
    (sun_theta sen_theta dphi eps_a chl : K) (r : ModIterResult K) :
    (mod_iter_seed lm T c sun_theta sen_theta dphi eps_a chl r).fail = 0
      ↔ ∃ q : ℕ, (q : ℤ) + 1 ≤ c.maxit
        ∧ converges_at (seed_pass lm T c sun_theta sen_theta dphi eps_a chl r) c.tol
          (seed_state lm T c sun_theta sen_theta dphi chl r) q := by
  obtain ⟨_, _, s3, s4⟩ := mod_iter_seed_spec lm T c sun_theta sen_theta dphi eps_a chl r
  constructor
  · intro h
    by_contra hne
    have := s3 (fun q hq hc => hne ⟨q, hq, hc⟩)
    rw [h] at this
    norm_num at this
  · rintro ⟨q, hq, hc⟩
    classical
    have hex : ∃ q : ℕ, converges_at (seed_pass lm T c sun_theta sen_theta dphi eps_a chl r)
        c.tol (seed_state lm T c sun_theta sen_theta dphi chl r) q := ⟨q, hc⟩
    have hle : Nat.find hex ≤ q := Nat.find_min' hex hc
    exact (s4 (Nat.find hex) (by omega) (Nat.find_spec hex)
      (fun q' hq' => Nat.find_min hex hq')).1

/-- The entry state of seed `j + 1` of `chl :: rest` is that of seed `j` of `rest` after the
seed `chl`. -/
theorem seed_chain_cons (lm : Libm K) (T : Tables K) (c : Config K)
    (sun_theta sen_theta dphi eps_a chl : K) (rest : List K) (r : ModIterResult K) (j : ℕ) :
    seed_chain lm T c sun_theta sen_theta dphi eps_a (chl :: rest) r (j + 1)
      = seed_chain lm T c sun_theta sen_theta dphi eps_a rest
          (mod_iter_seed lm T c sun_theta sen_theta dphi eps_a chl r) j := by
  induction j with
  | zero => simp [seed_chain]
  | succ j ih =>
    rw [seed_chain, ih]
    simp [seed_chain]

/-- The seed counter at the entry of seed `j`. -/
theorem seed_chain_cc (lm : Libm K) (T : Tables K) (c : Config K)
    (sun_theta sen_theta dphi eps_a : K) (l : List K) (r : ModIterResult K) (j : ℕ) :
    (seed_chain lm T c sun_theta sen_theta dphi eps_a l r j).cc = r.cc + j := by
  induction j with
  | zero => simp [seed_chain]
  | succ j ih =>
    rw [seed_chain, (mod_iter_seed_spec lm T c sun_theta sen_theta dphi eps_a _ _).2.1, ih]
    push_cast
    ring

/-- The seed loop stops at once when entered with `fail` different from 2. -/
theorem mod_iter_seeds_of_ne (lm : Libm K) (T : Tables K) (c : Config K)
    (sun_theta sen_theta dphi eps_a : K) (l : List K) (r : ModIterResult K)
    (h : r.fail ≠ 2) : mod_iter_seeds lm T c sun_theta sen_theta dphi eps_a l r = r := by
  cases l with
  | nil => rfl
  | cons chl rest => simp [mod_iter_seeds, h]

/-- The seed loop returns the result of the first seed that ends with `fail = 0`, and the
result of the last seed when none does. -/
theorem mod_iter_seeds_spec (lm : Libm K) (T : Tables K) (c : Config K)
    (sun_theta sen_theta dphi eps_a : K) (l : List K) (r : ModIterResult K)
    (hf : r.fail = 2) :
    (∀ j : ℕ, j < l.length →
        (∀ i : ℕ, i < j →
          (seed_chain lm T c sun_theta sen_theta dphi eps_a l r (i + 1)).fail ≠ 0) →
        (seed_chain lm T c sun_theta sen_theta dphi eps_a l r (j + 1)).fail = 0 →
        mod_iter_seeds lm T c sun_theta sen_theta dphi eps_a l r
          = seed_chain lm T c sun_theta sen_theta dphi eps_a l r (j + 1))
      ∧ ((∀ j : ℕ, j < l.length →
          (seed_chain lm T c sun_theta sen_theta dphi eps_a l r (j + 1)).fail ≠ 0) →
        mod_iter_seeds lm T c sun_theta sen_theta dphi eps_a l r
          = seed_chain lm T c sun_theta sen_theta dphi eps_a l r l.length) := by
  induction l generalizing r with
  | nil =>
    refine ⟨fun j hj => ?_, fun _ => rfl⟩
    simp at hj
  | cons chl rest ih =>
    have h2 : (mod_iter_seed lm T c sun_theta sen_theta dphi eps_a chl r).fail ≠ 0 →
        (mod_iter_seed lm T c sun_theta sen_theta dphi eps_a chl r).fail = 2 := by
      intro hne
      rcases (mod_iter_seed_spec lm T c sun_theta sen_theta dphi eps_a chl r).1 with h | h
      · exact absurd h hne
      · exact h
    have hstep : mod_iter_seeds lm T c sun_theta sen_theta dphi eps_a (chl :: rest) r
        = mod_iter_seeds lm T c sun_theta sen_theta dphi eps_a rest
          (mod_iter_seed lm T c sun_theta sen_theta dphi eps_a chl r) := by
      rw [mod_iter_seeds, if_pos hf]
    have h1 : seed_chain lm T c sun_theta sen_theta dphi eps_a (chl :: rest) r 1
        = mod_iter_seed lm T c sun_theta sen_theta dphi eps_a chl r := by
      simp [seed_chain]
    constructor
    · intro j hj hbefore hj0
      cases j with
      | zero =>
        rw [hstep, h1]
        rw [h1] at hj0
        exact mod_iter_seeds_of_ne _ _ _ _ _ _ _ _ _ (by rw [hj0]; norm_num)
      | succ j =>
        have hfirst := hbefore 0 (by omega)
        rw [h1] at hfirst
        rw [hstep, seed_chain_cons]
        apply (ih _ (h2 hfirst)).1 j (by simp at hj; omega)
        · intro i hi
          rw [← seed_chain_cons]
          exact hbefore (i + 1) (by omega)
        · rw [← seed_chain_cons]
          exact hj0
    · intro hall
      have hfirst := hall 0 (by simp)
      rw [h1] at hfirst
      rw [hstep, List.length_cons, seed_chain_cons]
      apply (ih _ (h2 hfirst)).2
      intro j hj
      rw [← seed_chain_cons]
      exact hall (j + 1) (by simp; omega)

/-- Seed number `j` converges within the cap exactly when running it ends with `fail = 0`. -/
theorem seed_converges_iff (lm : Libm K) (T : Tables K) (c : Config K) (refind : ℤ)
    (rho_w : ℤ → K) (sun_theta sen_theta dphi eps_a : K) (a bb : ℤ → K) (j : ℕ) :
    seed_converges lm T c refind rho_w sun_theta sen_theta dphi eps_a a bb j
      ↔ (seed_chain lm T c sun_theta sen_theta dphi eps_a init_chls
          ⟨2, a, bb, rho_w, refind, 0, 0⟩ (j + 1)).fail = 0 := by
  unfold seed_converges
  rw [seed_chain]
  exact (mod_iter_seed_fail_zero_iff lm T c sun_theta sen_theta dphi eps_a _ _).symm

/-- C11 (amended). Function `mod_iter` tries the seeds 20, 10, 1, 0.1, 0.01 in that order
and returns 0 if and only if for some seed one of the first `maxit` passes of its iteration
is reached with no degenerate solve up to it and has a sum of absolute f/Q changes below
`tol`; it then stops at the first such seed (`cc` seeds tried) and returns the `a` and `bb`
left by the first such pass of that seed.  Otherwise it returns 2 after all five seeds. -/
theorem mod_iter_converged_iff (lm : Libm K) (T : Tables K) (c : Config K) (refind : ℤ)
    (rho_w : ℤ → K) (sun_theta sen_theta dphi eps_a : K) (a bb : ℤ → K) :
    ((mod_iter lm T c refind rho_w sun_theta sen_theta dphi eps_a a bb).fail = 0
        ↔ ∃ j : ℕ, j < 5
          ∧ seed_converges lm T c refind rho_w sun_theta sen_theta dphi eps_a a bb j)
      ∧ ((¬ ∃ j : ℕ, j < 5
            ∧ seed_converges lm T c refind rho_w sun_theta sen_theta dphi eps_a a bb j)
          → (mod_iter lm T c refind rho_w sun_theta sen_theta dphi eps_a a bb).fail = 2
            ∧ (mod_iter lm T c refind rho_w sun_theta sen_theta dphi eps_a a bb).cc = 5)
      ∧ (∀ j q : ℕ, j < 5 →
          (∀ i : ℕ, i < j →
            ¬ seed_converges lm T c refind rho_w sun_theta sen_theta dphi eps_a a bb i) →
          (q : ℤ) + 1 ≤ c.maxit →
          converges_at
            (seed_pass lm T c sun_theta sen_theta dphi eps_a (init_chls.getD j 0)
              (seed_chain lm T c sun_theta sen_theta dphi eps_a init_chls
                ⟨2, a, bb, rho_w, refind, 0, 0⟩ j))
            c.tol
            (seed_state lm T c sun_theta sen_theta dphi (init_chls.getD j 0)
              (seed_chain lm T c sun_theta sen_theta dphi eps_a init_chls
                ⟨2, a, bb, rho_w, refind, 0, 0⟩ j)) q →
          (∀ q' : ℕ, q' < q → ¬ converges_at
            (seed_pass lm T c sun_theta sen_theta dphi eps_a (init_chls.getD j 0)
              (seed_chain lm T c sun_theta sen_theta dphi eps_a init_chls
                ⟨2, a, bb, rho_w, refind, 0, 0⟩ j))
            c.tol
            (seed_state lm T c sun_theta sen_theta dphi (init_chls.getD j 0)
              (seed_chain lm T c sun_theta sen_theta dphi eps_a init_chls
                ⟨2, a, bb, rho_w, refind, 0, 0⟩ j)) q') →
          (mod_iter lm T c refind rho_w sun_theta sen_theta dphi eps_a a bb).fail = 0
            ∧ (mod_iter lm T c refind rho_w sun_theta sen_theta dphi eps_a a bb).cc = j + 1
            ∧ ∃ s, state_after
                (seed_pass lm T c sun_theta sen_theta dphi eps_a (init_chls.getD j 0)
                  (seed_chain lm T c sun_theta sen_theta dphi eps_a init_chls
                    ⟨2, a, bb, rho_w, refind, 0, 0⟩ j)) q
                (seed_state lm T c sun_theta sen_theta dphi (init_chls.getD j 0)
                  (seed_chain lm T c sun_theta sen_theta dphi eps_a init_chls
                    ⟨2, a, bb, rho_w, refind, 0, 0⟩ j)) = some s
              ∧ (mod_iter lm T c refind rho_w sun_theta sen_theta dphi eps_a a bb).a
                = ((seed_pass lm T c sun_theta sen_theta dphi eps_a (init_chls.getD j 0)
                  (seed_chain lm T c sun_theta sen_theta dphi eps_a init_chls
                    ⟨2, a, bb, rho_w, refind, 0, 0⟩ j)) s).2.1.a
              ∧ (mod_iter lm T c refind rho_w sun_theta sen_theta dphi eps_a a bb).bb
                = ((seed_pass lm T c sun_theta sen_theta dphi eps_a (init_chls.getD j 0)
                  (seed_chain lm T c sun_theta sen_theta dphi eps_a init_chls
                    ⟨2, a, bb, rho_w, refind, 0, 0⟩ j)) s).2.1.bb) := by
  have hlen : (init_chls : List K).length = 5 := by simp [init_chls]
  obtain ⟨C1, C2⟩ := mod_iter_seeds_spec lm T c sun_theta sen_theta dphi eps_a init_chls
    ⟨2, a, bb, rho_w, refind, 0, 0⟩ rfl
  have key := seed_converges_iff lm T c refind rho_w sun_theta sen_theta dphi eps_a a bb
  have hR : mod_iter lm T c refind rho_w sun_theta sen_theta dphi eps_a a bb
      = mod_iter_seeds lm T c sun_theta sen_theta dphi eps_a init_chls
          ⟨2, a, bb, rho_w, refind, 0, 0⟩ := rfl
  have part2 : (¬ ∃ j : ℕ, j < 5
        ∧ seed_converges lm T c refind rho_w sun_theta sen_theta dphi eps_a a bb j)
      → (mod_iter lm T c refind rho_w sun_theta sen_theta dphi eps_a a bb).fail = 2
        ∧ (mod_iter lm T c refind rho_w sun_theta sen_theta dphi eps_a a bb).cc = 5 := by
    intro hno
    have hall : ∀ j : ℕ, j < (init_chls : List K).length →
        (seed_chain lm T c sun_theta sen_theta dphi eps_a init_chls
          ⟨2, a, bb, rho_w, refind, 0, 0⟩ (j + 1)).fail ≠ 0 := by
      intro j hj h0
      exact hno ⟨j, by omega, (key j).mpr h0⟩
    rw [hR, C2 hall, hlen]
    constructor
    · have h4 := hall 4 (by omega)
      rw [seed_chain] at h4 ⊢
      rcases (mod_iter_seed_spec lm T c sun_theta sen_theta dphi eps_a _ _).1 with h | h
      · exact absurd h h4
      · exact h
    · rw [seed_chain_cc]
      norm_num
  have part3 : ∀ j : ℕ, j < 5 →
      (∀ i : ℕ, i < j →
        ¬ seed_converges lm T c refind rho_w sun_theta sen_theta dphi eps_a a bb i) →
      seed_converges lm T c refind rho_w sun_theta sen_theta dphi eps_a a bb j →
      mod_iter lm T c refind rho_w sun_theta sen_theta dphi eps_a a bb
        = seed_chain lm T c sun_theta sen_theta dphi eps_a init_chls
            ⟨2, a, bb, rho_w, refind, 0, 0⟩ (j + 1) := by
    intro j hj hbefore hconv
    rw [hR]
    exact C1 j (by omega) (fun i hi h0 => hbefore i hi ((key i).mpr h0)) ((key j).mp hconv)
  refine ⟨⟨?_, ?_⟩, part2, ?_⟩
  · intro h0
    by_contra hno
    rw [(part2 hno).1] at h0
    norm_num at h0
  · intro hex
    classical
    have hj := Nat.find_spec hex
    rw [part3 (Nat.find hex) hj.1
      (fun i hi hc => Nat.find_min hex hi ⟨by omega, hc⟩) hj.2]
    exact (key _).mp hj.2
  · intro j q hj hbefore hq hconv hmin
    have hsc : seed_converges lm T c refind rho_w sun_theta sen_theta dphi eps_a a bb j :=
      ⟨q, hq, hconv⟩
    rw [part3 j hj hbefore hsc, seed_chain]
    obtain ⟨f0, s, e1, e2, e3⟩ := (mod_iter_seed_spec lm T c sun_theta sen_theta dphi eps_a
      _ _).2.2.2 q hq hconv hmin
    refine ⟨f0, ?_, s, e1, e2, e3⟩
    rw [(mod_iter_seed_spec lm T c sun_theta sen_theta dphi eps_a _ _).2.1, seed_chain_cc]
    norm_num

end ConvergenceProofs

section FlatProofs

/-- On the constant table every interpolated f/Q value is 0 or 1. -/
theorem flat_fint (refind : ℤ) (a b : ℚ) (band : ℤ) :
    fint flatTables refind a b band = 0 ∨ fint flatTables refind a b band = 1 := by
  unfold fint
  simp only [flatTables]
  split_ifs
  · left; rfl
  · right; push_cast; ring

/-- On the constant table every f/Q value is 0 or 1. -/
theorem flat_f_ab (lm : Libm ℚ) (refind : ℤ) (a b : ℚ) (band : ℤ) :
    f_ab lm flatTables refind a b band = 0 ∨ f_ab lm flatTables refind a b band = 1 := by
  unfold f_ab
  exact flat_fint refind _ _ band

/-- The level index of the value 1 on the 16-entry axis `0 .. 15`. -/
theorem flat_interp_l_one (lm : Libm ℚ) : interp_l lm axis01 1 16 = 1 := by
  have hs : segment axis01 1 16 = 0 :=
    segment_zero_of_le axis01 1 16 (by norm_num) (by norm_num [axis01])
  simp only [interp_l, hs]
  norm_num [axis01]

/-- On the constant table the f/Q value at `a = b = 1` is 1. -/
theorem flat_f_ab_one (lm : Libm ℚ) (refind band : ℤ) :
    f_ab lm flatTables refind 1 1 band = 1 := by
  have h : interp_l lm axis01 1 16 = 1 := flat_interp_l_one lm
  have hlo : fint_lo (1 : ℚ) = 1 := by
    unfold fint_lo
    rw [if_pos (by norm_num)]
    exact Int.floor_one
  unfold f_ab
  show fint flatTables refind (interp_l lm axis01 1 16) (interp_l lm axis01 1 16) band = 1
  rw [h]
  unfold fint
  simp only [hlo, flatTables]
  norm_num

/-- The initial guess of the first seed (chlorophyll 20) on the two-level axis `0, 1` with
unit curves is 1. -/
theorem flat_geo2iop (lm : Libm ℚ) (band : ℤ) (chl : ℚ) (h : 1 < chl) :
    geo2iop lm axis01 (fun _ _ => 1) band chl 2 = 1 := by
  have hi : interp_l lm axis01 chl 2 = 1 := by
    simp only [interp_l]
    rw [if_pos (by norm_num [axis01]; exact h)]
    norm_num
  unfold geo2iop
  rw [hi]
  norm_num


/-- The value stored in `FC[i]` by a pass on the constant table (Case I) is within 1 of 1. -/
theorem flat_FC_range (lm : Libm ℚ) (m refind : ℤ) (a b bb x y : ℚ) (i : ℤ) :
    |(if FC_of lm flatTables (flatConfig m) refind a b bb i < -2
        then f_ab lm flatTables refind x y i
        else FC_of lm flatTables (flatConfig m) refind a b bb i) - 1| ≤ 1 := by
  have hFC : FC_of lm flatTables (flatConfig m) refind a b bb i
      = f_ab lm flatTables refind a b i := by
    simp [FC_of, flatConfig]
  rw [hFC]
  rcases flat_f_ab lm refind a b i with h | h <;> rw [h] <;> norm_num

/-- One pass on the flat tables from a state with `FC = 1` at every band: if the Case I
solve of the reference pair gives `(0, A, B)`, the pass is not degenerate, its `df` is below
`tol = 3`, and it leaves `a = (iter_a ..., iter_a ..., A*eps_a, A, ...)` and `bb = B`. -/
theorem flat_pass (m refind : ℤ) (rho init_a init_b : ℤ → ℚ) (eps_a A B : ℚ)
    (st : PassState ℚ) (hFC : st.FC = fun _ => 1)
    (h : iter_ab (arr2 (rho 2) (rho 3)) (arr2 1 1) (arr2 1 1) (arr2 1 1) 1 eps_a = (0, A, B)) :
    (mod_iter_pass flatLibm flatTables (flatConfig m) refind rho init_a init_b eps_a st).1 = 0
      ∧ (mod_iter_pass flatLibm flatTables (flatConfig m) refind rho init_a init_b eps_a
          st).2.2 < 3
      ∧ (mod_iter_pass flatLibm flatTables (flatConfig m) refind rho init_a init_b eps_a
          st).2.1.a 0 = (if rho 0 > 0 then iter_a (rho 0) 1 1 1 B else 0)
      ∧ (mod_iter_pass flatLibm flatTables (flatConfig m) refind rho init_a init_b eps_a
          st).2.1.a 1 = (if rho 1 > 0 then iter_a (rho 1) 1 1 1 B else 0)
      ∧ (mod_iter_pass flatLibm flatTables (flatConfig m) refind rho init_a init_b eps_a
          st).2.1.a 2 = A * eps_a := by
  have e1 : (flatConfig m).bp 0 = 2 := rfl
  have e2 : (flatConfig m).bp 1 = 3 := rfl
  have e3 : (flatConfig m).CASEII = 0 := rfl
  have ebn : ∀ i, bn_of flatLibm flatTables (flatConfig m) i = 1 := by
    intro i; simp [bn_of, flatLibm]
  have ebw : ∀ i, bbw_of flatTables (flatConfig m) i = 1 := by
    intro i; simp [bbw_of, flatTables, flatConfig]
  have eaw : ∀ i, flatTables.a_w i = 1 := fun _ => rfl
  unfold mod_iter_pass
  simp only [e1, e2, e3, ebn, ebw, eaw, hFC, ne_eq, not_true_eq_false, if_false, h]
  refine ⟨trivial, ?_, ?_, ?_, ?_⟩
  · exact lt_of_le_of_lt (add_le_add (flat_FC_range flatLibm m refind _ _ _ _ _ 2)
      (flat_FC_range flatLibm m refind _ _ _ _ _ 3)) (by norm_num)
  · simp [setNB, NB]
  · simp [setNB, NB]
  · simp [setNB, NB, e2]


/-- The state prepared by the first seed on the flat tables has `FC = 1` at every band. -/
theorem flat_seed_state_FC (m : ℤ) (sun_theta sen_theta dphi : ℚ) (r : ModIterResult ℚ) :
    (seed_state flatLibm flatTables (flatConfig m) sun_theta sen_theta dphi 20 r).FC
      = fun _ => 1 := by
  funext i
  have g : ∀ band : ℤ, geo2iop flatLibm flatTables.ch_lev flatTables.ac band 20 flatTables.ch_n
      = 1 := fun band => flat_geo2iop flatLibm band 20 (by norm_num)
  have g2 : ∀ band : ℤ, geo2iop flatLibm flatTables.ch_lev flatTables.bc band 20
      flatTables.ch_n = 1 := fun band => flat_geo2iop flatLibm band 20 (by norm_num)
  simp only [seed_state, g, g2]
  simp [FC_of, flatConfig, flat_f_ab_one]

/-- The first pass of the first seed of `mod_iter` on the flat tables, for a reflectance
whose Case I solve at the reference pair gives `(0, A, B)`. -/
theorem flat_first_pass (m refind : ℤ) (rho a bb : ℤ → ℚ) (sun_theta sen_theta dphi A B : ℚ)
    (hpos : ∀ i, 0 ≤ rho i)
    (h : iter_ab (arr2 (rho 2) (rho 3)) (arr2 1 1) (arr2 1 1) (arr2 1 1) 1 2 = (0, A, B)) :
    converges_at
        (seed_pass flatLibm flatTables (flatConfig m) sun_theta sen_theta dphi 2 20
          ⟨2, a, bb, rho, refind, 0, 0⟩) 3
        (seed_state flatLibm flatTables (flatConfig m) sun_theta sen_theta dphi 20
          ⟨2, a, bb, rho, refind, 0, 0⟩) 0
      ∧ ((seed_pass flatLibm flatTables (flatConfig m) sun_theta sen_theta dphi 2 20
          ⟨2, a, bb, rho, refind, 0, 0⟩)
          (seed_state flatLibm flatTables (flatConfig m) sun_theta sen_theta dphi 20
            ⟨2, a, bb, rho, refind, 0, 0⟩)).2.1.a 0
        = (if rho 0 > 0 then iter_a (rho 0) 1 1 1 B else 0)
      ∧ ((seed_pass flatLibm flatTables (flatConfig m) sun_theta sen_theta dphi 2 20
          ⟨2, a, bb, rho, refind, 0, 0⟩)
          (seed_state flatLibm flatTables (flatConfig m) sun_theta sen_theta dphi 20
            ⟨2, a, bb, rho, refind, 0, 0⟩)).2.1.a 1
        = (if rho 1 > 0 then iter_a (rho 1) 1 1 1 B else 0)
      ∧ ((seed_pass flatLibm flatTables (flatConfig m) sun_theta sen_theta dphi 2 20
          ⟨2, a, bb, rho, refind, 0, 0⟩)
          (seed_state flatLibm flatTables (flatConfig m) sun_theta sen_theta dphi 20
            ⟨2, a, bb, rho, refind, 0, 0⟩)).2.1.a 2 = A * 2 := by
  have hrho : seed_rho (⟨2, a, bb, rho, refind, 0, 0⟩ : ModIterResult ℚ) = rho := by
    funext i
    simp only [seed_rho, setNB]
    split_ifs with h1 h2
    · exact le_antisymm (hpos i) (le_of_lt h2) |>.symm ▸ rfl
    · rfl
    · rfl
  obtain ⟨p1, p2, p3, p4, p5⟩ := flat_pass m (setgeom flatTables sun_theta sen_theta dphi).2
    rho (fun i => geo2iop flatLibm flatTables.ch_lev flatTables.ac i 20 flatTables.ch_n)
    (fun i => geo2iop flatLibm flatTables.ch_lev flatTables.bc i 20 flatTables.ch_n) 2 A B
    (seed_state flatLibm flatTables (flatConfig m) sun_theta sen_theta dphi 20
      ⟨2, a, bb, rho, refind, 0, 0⟩)
    (flat_seed_state_FC m sun_theta sen_theta dphi _) h
  refine ⟨?_, ?_, ?_, ?_⟩
  · rw [converges_at_zero]
    unfold seed_pass
    rw [hrho]
    exact ⟨p1, p2⟩
  · unfold seed_pass
    rw [hrho]
    exact p3
  · unfold seed_pass
    rw [hrho]
    exact p4
  · unfold seed_pass
    rw [hrho]
    exact p5


/-- With an iteration cap `maxit <= 0` every seed ends with `fail = 2`, so `mod_iter`
returns 2 whatever the input. -/
theorem mod_iter_fail_of_maxit_le_zero {K : Type} [LinearOrderedField K] [FloorRing K]
    (lm : Libm K) (T : Tables K) (c : Config K) (refind : ℤ)
    (rho_w : ℤ → K) (sun_theta sen_theta dphi eps_a : K) (a bb : ℤ → K) (hm : c.maxit ≤ 0) :
    (mod_iter lm T c refind rho_w sun_theta sen_theta dphi eps_a a bb).fail = 2 := by
  have hseed : ∀ (chl : K) (r : ModIterResult K),
      (mod_iter_seed lm T c sun_theta sen_theta dphi eps_a chl r).fail = 2 := by
    intro chl r
    apply (mod_iter_seed_spec lm T c sun_theta sen_theta dphi eps_a chl r).2.2.1
    intro q hq
    have : (0 : ℤ) ≤ (q : ℤ) := Int.natCast_nonneg q
    omega
  have hlen : (init_chls : List K).length = 5 := by simp [init_chls]
  have h := (mod_iter_seeds_spec lm T c sun_theta sen_theta dphi eps_a init_chls
    ⟨2, a, bb, rho_w, refind, 0, 0⟩ rfl).2 (by
      intro j _
      rw [seed_chain, hseed]
      norm_num)
  unfold mod_iter
  rw [h, hlen, seed_chain, hseed]

/-- On the flat tables with a cap `maxit >= 1`, a reflectance whose Case I solve at the
reference pair gives `(0, A, B)` converges on the first pass of the first seed. -/
theorem flat_mod_iter (m refind : ℤ) (rho a bb : ℤ → ℚ) (sun_theta sen_theta dphi A B : ℚ)
    (hm : 1 ≤ m) (hpos : ∀ i, 0 ≤ rho i)
    (h : iter_ab (arr2 (rho 2) (rho 3)) (arr2 1 1) (arr2 1 1) (arr2 1 1) 1 2 = (0, A, B)) :
    (mod_iter flatLibm flatTables (flatConfig m) refind rho sun_theta sen_theta dphi 2
        a bb).fail = 0
      ∧ (mod_iter flatLibm flatTables (flatConfig m) refind rho sun_theta sen_theta dphi 2
        a bb).a 0 = (if rho 0 > 0 then iter_a (rho 0) 1 1 1 B else 0)
      ∧ (mod_iter flatLibm flatTables (flatConfig m) refind rho sun_theta sen_theta dphi 2
        a bb).a 1 = (if rho 1 > 0 then iter_a (rho 1) 1 1 1 B else 0)
      ∧ (mod_iter flatLibm flatTables (flatConfig m) refind rho sun_theta sen_theta dphi 2
        a bb).a 2 = A * 2 := by
  obtain ⟨c0, a0, a1, a2⟩ := flat_first_pass m refind rho a bb sun_theta sen_theta dphi A B
    hpos h
  obtain ⟨f0, s, hs, ea, _⟩ := (mod_iter_seed_spec flatLibm flatTables (flatConfig m)
    sun_theta sen_theta dphi 2 20 ⟨2, a, bb, rho, refind, 0, 0⟩).2.2.2 0
    (by show ((0 : ℕ) : ℤ) + 1 ≤ m; push_cast; omega) c0 (fun q' hq' => absurd hq' (by omega))
  simp only [state_after, Option.some.injEq] at hs
  subst hs
  have hR : mod_iter flatLibm flatTables (flatConfig m) refind rho sun_theta sen_theta dphi 2
      a bb = mod_iter_seed flatLibm flatTables (flatConfig m) sun_theta sen_theta dphi 2 20
        ⟨2, a, bb, rho, refind, 0, 0⟩ := by
    have := (mod_iter_seeds_spec flatLibm flatTables (flatConfig m) sun_theta sen_theta dphi 2
      init_chls ⟨2, a, bb, rho, refind, 0, 0⟩ rfl).1 0 (by simp [init_chls])
      (fun i hi => absurd hi (by omega))
      (by
        show (mod_iter_seed flatLibm flatTables (flatConfig m) sun_theta sen_theta dphi 2
          (init_chls.getD 0 0) ⟨2, a, bb, rho, refind, 0, 0⟩).fail = 0
        simpa [init_chls] using f0)
    unfold mod_iter
    rw [this]
    show mod_iter_seed flatLibm flatTables (flatConfig m) sun_theta sen_theta dphi 2
      (init_chls.getD 0 0) ⟨2, a, bb, rho, refind, 0, 0⟩ = _
    simp [init_chls]
  rw [hR]
  refine ⟨f0, ?_, ?_, ?_⟩
  · rw [ea]; exact a0
  · rw [ea]; exact a1
  · rw [ea]; exact a2

/-- The Case I solve of the reference pair `(2/3, 1)` on the flat tables gives `a = bb = 1`. -/
theorem flat_solve_B : iter_ab (arr2 ((flatPixel 1 (2 / 3) 1) 2) ((flatPixel 1 (2 / 3) 1) 3))
    (arr2 1 1) (arr2 1 1) (arr2 1 1) 1 2 = (0, 1, 1) := by
  norm_num [iter_ab, arr2, flatPixel]

/-- The entries of `flatPixel` are non-negative when its three parameters are. -/
theorem flatPixel_nonneg (r0 r2 r3 : ℚ) (h0 : 0 ≤ r0) (h2 : 0 ≤ r2) (h3 : 0 ≤ r3) (i : ℤ) :
    0 ≤ flatPixel r0 r2 r3 i := by
  unfold flatPixel
  split_ifs <;> first | assumption | norm_num

/-- C11 (counterexample). Flat tables, cap `maxit = 0`, `tol = 3`, reflectance
`(1, 1, 2/3, 1, 1, 1)`: for the first seed (chlorophyll 20) the first pass is executed, its
solve is not degenerate and its sum of absolute f/Q changes is below `tol`, but `mod_iter`
returns 2. -/
theorem mod_iter_converged_counterexample :
    converges_at
        (seed_pass flatLibm flatTables (flatConfig 0) 0 0 0 2 20
          ⟨2, fun _ => 0, fun _ => 0, flatPixel 1 (2 / 3) 1, 0, 0, 0⟩) (flatConfig 0).tol
        (seed_state flatLibm flatTables (flatConfig 0) 0 0 0 20
          ⟨2, fun _ => 0, fun _ => 0, flatPixel 1 (2 / 3) 1, 0, 0, 0⟩) 0
      ∧ (mod_iter flatLibm flatTables (flatConfig 0) 0 (flatPixel 1 (2 / 3) 1) 0 0 0 2
          (fun _ => 0) (fun _ => 0)).fail = 2 :=
  ⟨(flat_first_pass 0 0 (flatPixel 1 (2 / 3) 1) (fun _ => 0) (fun _ => 0) 0 0 0 1 1
      (flatPixel_nonneg 1 (2 / 3) 1 (by norm_num) (by norm_num) (by norm_num)) flat_solve_B).1,
    mod_iter_fail_of_maxit_le_zero flatLibm flatTables (flatConfig 0) 0 _ 0 0 0 2 _ _
      (le_refl _)⟩

end FlatProofs

section BisectProofs

variable {K : Type} [LinearOrderedField K] [FloorRing K]

/-- The bisection loop runs between 1 and `fuel + 1` passes. -/
theorem biogeochem_loop_iter (lm : Libm K) (a412 a443 : K) (k : ℕ) (st : BisectState K) :
    st.iter + 1 ≤ (biogeochem_loop lm a412 a443 k st).iter
      ∧ (biogeochem_loop lm a412 a443 k st).iter ≤ st.iter + k + 1 := by
  induction k generalizing st with
  | zero => simp [biogeochem_loop, biogeochem_step]
  | succ k ih =>
    simp only [biogeochem_loop]
    split_ifs
    · obtain ⟨h1, h2⟩ := ih (biogeochem_step lm a412 a443 st).1
      have e : (biogeochem_step lm a412 a443 st).1.iter = st.iter + 1 := rfl
      rw [e] at h1 h2
      push_cast
      constructor <;> omega
    · have e : (biogeochem_step lm a412 a443 st).1.iter = st.iter + 1 := rfl
      rw [e]
      push_cast
      constructor <;> omega

/-- When the first pass leaves a residual of at least 0.001, the bisection runs at least two
passes. -/
theorem biogeochem_loop_two (lm : Libm K) (a412 a443 : K) (k : ℕ) (st : BisectState K)
    (hi : st.iter + 1 ≤ 20)
    (hdf : |(biogeochem_mod lm a443 (1 / 2 * (st.lower + st.upper))).1 - a412| ≥ 1 / 1000) :
    st.iter + 2 ≤ (biogeochem_loop lm a412 a443 (k + 1) st).iter := by
  have hc : (biogeochem_step lm a412 a443 st).2 = true := by
    simp only [biogeochem_step, decide_eq_true_eq]
    exact ⟨hi, hdf⟩
  simp only [biogeochem_loop, hc, if_true]
  have := (biogeochem_loop_iter lm a412 a443 k (biogeochem_step lm a412 a443 st).1).1
  have e : (biogeochem_step lm a412 a443 st).1.iter = st.iter + 1 := rfl
  rw [e] at this
  omega

/-- The code of `biogeochem_iter` is 0 or 1, and it is 1 exactly when the number of passes
run exceeds the configured `maxit`; between 1 and 21 passes are run. -/
theorem biogeochem_iter_result (lm : Libm K) (c : Config K) (a412 a443 : K) :
    ∃ n : ℤ, 1 ≤ n ∧ n ≤ 21
      ∧ (biogeochem_iter lm c a412 a443).1 = (if n > c.maxit then 1 else 0) := by
  refine ⟨(biogeochem_loop lm a412 a443 20 ⟨1 / 100 * a443, a443 - 1 / 1000, 0,
    (biogeochem_mod lm a443 (a443 - 1 / 1000)).1, (biogeochem_mod lm a443 (a443 - 1 / 1000)).2.1,
    (biogeochem_mod lm a443 (a443 - 1 / 1000)).2.2, 0⟩).iter, ?_, ?_, ?_⟩
  · have := (biogeochem_loop_iter lm a412 a443 20 ⟨1 / 100 * a443, a443 - 1 / 1000, 0,
      (biogeochem_mod lm a443 (a443 - 1 / 1000)).1,
      (biogeochem_mod lm a443 (a443 - 1 / 1000)).2.1,
      (biogeochem_mod lm a443 (a443 - 1 / 1000)).2.2, 0⟩).1
    simpa using this
  · have := (biogeochem_loop_iter lm a412 a443 20 ⟨1 / 100 * a443, a443 - 1 / 1000, 0,
      (biogeochem_mod lm a443 (a443 - 1 / 1000)).1,
      (biogeochem_mod lm a443 (a443 - 1 / 1000)).2.1,
      (biogeochem_mod lm a443 (a443 - 1 / 1000)).2.2, 0⟩).2
    simpa using this
  · unfold biogeochem_iter
    simp only
    split_ifs <;> rfl


/-- With `flatLibm` the forward model is constant: modelled `a412 = 2`, both parts 1. -/
theorem flat_biogeochem_mod (a443 ady443 : ℚ) :
    biogeochem_mod flatLibm a443 ady443 = (2, 1, 1) := by
  simp only [biogeochem_mod, flatLibm]
  norm_num

/-- With `flatLibm` the bisection always reports the parts `ady412 = aph412 = 1`. -/
theorem flat_biogeochem_loop (a412 a443 : ℚ) (k : ℕ) (st : BisectState ℚ) :
    (biogeochem_loop flatLibm a412 a443 k st).ady412_m = 1
      ∧ (biogeochem_loop flatLibm a412 a443 k st).aph412_m = 1 := by
  induction k generalizing st with
  | zero => simp [biogeochem_loop, biogeochem_step, flat_biogeochem_mod]
  | succ k ih =>
    simp only [biogeochem_loop]
    split_ifs
    · exact ih _
    · simp [biogeochem_step, flat_biogeochem_mod]

/-- With `flatLibm` and `maxit = 1` the bisection fails for every `a412` at least 0.001 away
from 2. -/
theorem flat_biogeochem_iter_fail (a412 a443 : ℚ) (h : |2 - a412| ≥ 1 / 1000) :
    (biogeochem_iter flatLibm (flatConfig 1) a412 a443).1 = 1 := by
  have h2 := biogeochem_loop_two flatLibm a412 a443 19
    ⟨1 / 100 * a443, a443 - 1 / 1000, 0, (biogeochem_mod flatLibm a443 (a443 - 1 / 1000)).1,
      (biogeochem_mod flatLibm a443 (a443 - 1 / 1000)).2.1,
      (biogeochem_mod flatLibm a443 (a443 - 1 / 1000)).2.2, 0⟩ (by norm_num)
    (by rw [flat_biogeochem_mod]; exact h)
  unfold biogeochem_iter
  simp only
  rw [if_pos]
  show (1 : ℤ) < _
  simp only [zero_add, Nat.reduceAdd] at h2
  omega

/-- C13 (code evaluated at failing inputs). The code of `biogeochem_iter` follows the
configured `maxit`, not its own cap of 20: with `maxit = 100` it returns 0 for every input,
also when the cap was exhausted with a residual of 1 (here `a412 = 1`, modelled value 2,
reported parts `1 + 1`); with `maxit = 0` it returns 1 for every input, also when the
first midpoint already has residual 0 (here `a412 = 2`). -/
theorem biogeochem_iter_cap_from_config (lm : Libm ℚ) (a412 a443 : ℚ) :
    (biogeochem_iter lm (flatConfig 100) a412 a443).1 = 0
      ∧ (biogeochem_iter lm (flatConfig 0) a412 a443).1 = 1
      ∧ ((biogeochem_iter flatLibm (flatConfig 100) 1 1).1 = 0
        ∧ |(biogeochem_iter flatLibm (flatConfig 100) 1 1).2.2.1
            + (biogeochem_iter flatLibm (flatConfig 100) 1 1).2.2.2 - 1| ≥ 1 / 1000)
      ∧ ((biogeochem_iter flatLibm (flatConfig 0) 2 1).1 = 1
        ∧ |(biogeochem_mod flatLibm 1 (1 / 2 * (1 / 100 * 1 + (1 - 1 / 1000)))).1 - 2|
            < 1 / 1000) := by
  have big : ∀ (l : Libm ℚ) (x y : ℚ), (biogeochem_iter l (flatConfig 100) x y).1 = 0 := by
    intro l x y
    obtain ⟨n, _, hn, e⟩ := biogeochem_iter_result l (flatConfig 100) x y
    rw [e, if_neg]
    show ¬ n > 100
    omega
  have small : ∀ (l : Libm ℚ) (x y : ℚ), (biogeochem_iter l (flatConfig 0) x y).1 = 1 := by
    intro l x y
    obtain ⟨n, hn, _, e⟩ := biogeochem_iter_result l (flatConfig 0) x y
    rw [e, if_pos]
    show n > 0
    omega
  refine ⟨big lm a412 a443, small lm a412 a443, ⟨big _ _ _, ?_⟩, ⟨small _ _ _, ?_⟩⟩
  · have hv : (biogeochem_iter flatLibm (flatConfig 100) 1 1).2.2.1 = 1
        ∧ (biogeochem_iter flatLibm (flatConfig 100) 1 1).2.2.2 = 1 := by
      unfold biogeochem_iter
      simp only
      split_ifs <;> exact flat_biogeochem_loop _ _ _ _
    rw [hv.1, hv.2]
    norm_num
  · rw [flat_biogeochem_mod]
    norm_num

end BisectProofs

section PartitionProofs

variable {K : Type} [LinearOrderedField K] [FloorRing K]

/-- After a successful `mod_iter` with one of `a[0]`, `a[1]`, `a[2]` not positive,
`iop_model` skips the partition. -/
theorem iop_model_skip (lm : Libm K) (T : Tables K) (c : Config K) (g : Globals K)
    (rho_w : ℤ → K) (sun_theta sen_theta dphi : K) (a bbp ady ap : ℤ → K)
    (hm : (mod_iter lm T c g.refind rho_w sun_theta sen_theta dphi c.eps_a_init a bbp).fail = 0)
    (hc : ¬ ((mod_iter lm T c g.refind rho_w sun_theta sen_theta dphi c.eps_a_init a bbp).a 0 > 0
      ∧ (mod_iter lm T c g.refind rho_w sun_theta sen_theta dphi c.eps_a_init a bbp).a 1 > 0
      ∧ (mod_iter lm T c g.refind rho_w sun_theta sen_theta dphi c.eps_a_init a bbp).a 2 > 0)) :
    (iop_model lm T c g rho_w sun_theta sen_theta dphi a bbp ady ap).result = 0
      ∧ (iop_model lm T c g rho_w sun_theta sen_theta dphi a bbp ady ap).ady = ady
      ∧ (iop_model lm T c g rho_w sun_theta sen_theta dphi a bbp ady ap).ap = ap
      ∧ (iop_model lm T c g rho_w sun_theta sen_theta dphi a bbp ady ap).g.ysbpa_0
        = g.ysbpa_0 := by
  unfold iop_model
  simp only
  rw [if_neg (by rw [hm]; simp), if_neg hc]
  exact ⟨hm, rfl, rfl, rfl⟩

/-- The partition branch of `iop_model` written out: with `m` the result of `mod_iter`
(successful, `a[0]`, `a[1]`, `a[2]` positive) and `bi` the outcome of the bisection, the
result is the fallback record when `x1` is outside `[0.15, 0.6]` and the bisection record
otherwise. -/
theorem iop_model_partition_eq (lm : Libm K) (T : Tables K) (c : Config K) (g : Globals K)
    (rho_w : ℤ → K) (sun_theta sen_theta dphi : K) (a bbp ady ap : ℤ → K)
    (m : ModIterResult K) (bi : ℤ × K × K × K)
    (hmd : mod_iter lm T c g.refind rho_w sun_theta sen_theta dphi c.eps_a_init a bbp = m)
    (hbi : biogeochem_iter lm c (m.a 0) (m.a 1) = bi)
    (hm : m.fail = 0) (hc : m.a 0 > 0 ∧ m.a 1 > 0 ∧ m.a 2 > 0) :
    iop_model lm T c g rho_w sun_theta sen_theta dphi a bbp ady ap
    = (if partition_x1 lm T (m.a 1) bi < 15 / 100 ∨ partition_x1 lm T (m.a 1) bi > 6 / 10
      then
        ⟨0, m.a, m.bb,
          setNB (if bi.1 ≠ 0 then ady
              else setNB (Function.update (Function.update ady 0 bi.2.2.1) 1 bi.2.1)
                (fun i => bi.2.1 * lm.exp (lm.log (bi.2.2.1 / bi.2.1)
                  / (T.lambda 0 - T.lambda 1) * (T.lambda i - T.lambda 1))))
            (fun i => (m.a 1 - m.a 1 * empirical_x2 (m.a 0) (m.a 1))
              * lm.exp (c.ysbpa_s * (T.lambda i
                - (if bi.1 ≠ 0 then g.ysbpa_0 else T.lambda 1)))),
          setNB (Function.update (if bi.1 ≠ 0 then ap
              else setNB (Function.update ap 0 bi.2.2.2)
                (fun i => m.a i - setNB (Function.update (Function.update ady 0 bi.2.2.1) 1
                    bi.2.1)
                  (fun i => bi.2.1 * lm.exp (lm.log (bi.2.2.1 / bi.2.1)
                    / (T.lambda 0 - T.lambda 1) * (T.lambda i - T.lambda 1))) i))
              1 (m.a 1 * empirical_x2 (m.a 0) (m.a 1)))
            (fun i => m.a i - setNB (if bi.1 ≠ 0 then ady
                else setNB (Function.update (Function.update ady 0 bi.2.2.1) 1 bi.2.1)
                  (fun i => bi.2.1 * lm.exp (lm.log (bi.2.2.1 / bi.2.1)
                    / (T.lambda 0 - T.lambda 1) * (T.lambda i - T.lambda 1))))
              (fun i => (m.a 1 - m.a 1 * empirical_x2 (m.a 0) (m.a 1))
                * lm.exp (c.ysbpa_s * (T.lambda i
                  - (if bi.1 ≠ 0 then g.ysbpa_0 else T.lambda 1)))) i),
          m.rho_w, ⟨m.refind, if bi.1 ≠ 0 then g.ysbpa_0 else T.lambda 1⟩⟩
      else
        ⟨bi.1, m.a, m.bb,
          setNB (Function.update (Function.update ady 0 bi.2.2.1) 1 bi.2.1)
            (fun i => bi.2.1 * lm.exp (lm.log (bi.2.2.1 / bi.2.1)
              / (T.lambda 0 - T.lambda 1) * (T.lambda i - T.lambda 1))),
          setNB (Function.update ap 0 bi.2.2.2)
            (fun i => m.a i - setNB (Function.update (Function.update ady 0 bi.2.2.1) 1
                bi.2.1)
              (fun i => bi.2.1 * lm.exp (lm.log (bi.2.2.1 / bi.2.1)
                / (T.lambda 0 - T.lambda 1) * (T.lambda i - T.lambda 1))) i),
          m.rho_w, ⟨m.refind, T.lambda 1⟩⟩) := by
  have hm' : ¬ m.fail ≠ 0 := by rw [hm]; simp
  unfold iop_model
  simp only [hmd, hbi]
  rw [if_neg hm', if_pos hc]
  by_cases hb : bi.1 ≠ 0
  · have hx : partition_x1 lm T (m.a 1) bi = 1 / 10 := by
      unfold partition_x1
      rw [if_pos hb]
    have h10 : (1 : K) / 10 < 15 / 100 := by norm_num
    simp only [hx, hb, if_true, h10, true_or, ne_eq, not_false_eq_true,
      Function.update_same]
  · have hb0 : bi.1 = 0 := not_not.mp hb
    have hx : partition_x1 lm T (m.a 1) bi
        = (setNB (Function.update ap 0 bi.2.2.2)
            (fun i => m.a i - setNB (Function.update (Function.update ady 0 bi.2.2.1) 1
                bi.2.1)
              (fun i => bi.2.1 * lm.exp (lm.log (bi.2.2.1 / bi.2.1)
                / (T.lambda 0 - T.lambda 1) * (T.lambda i - T.lambda 1))) i) 1) / m.a 1 := by
      unfold partition_x1
      rw [if_neg hb]
      simp [setNB, NB]
    rw [hx]
    simp only [hb0, ne_eq, not_true_eq_false, if_false, Function.update_same]

/-- After a successful `mod_iter` with `a[0]`, `a[1]`, `a[2]` positive, `iop_model` runs
the partition: it returns 0, every band has `ap[i] = a[i] - ady[i]`, the global `ysbpa_0`
becomes `lambda[1]` when the bisection succeeded, and `ady` is the fallback spectrum when the
fallback runs and the bisection spectrum otherwise. -/
theorem iop_model_partition (lm : Libm K) (T : Tables K) (c : Config K) (g : Globals K)
    (rho_w : ℤ → K) (sun_theta sen_theta dphi : K) (a bbp ady ap : ℤ → K)
    (hm : (mod_iter lm T c g.refind rho_w sun_theta sen_theta dphi c.eps_a_init a bbp).fail = 0)
    (hc : (mod_iter lm T c g.refind rho_w sun_theta sen_theta dphi c.eps_a_init a bbp).a 0 > 0
      ∧ (mod_iter lm T c g.refind rho_w sun_theta sen_theta dphi c.eps_a_init a bbp).a 1 > 0
      ∧ (mod_iter lm T c g.refind rho_w sun_theta sen_theta dphi c.eps_a_init a bbp).a 2 > 0) :
    (iop_model lm T c g rho_w sun_theta sen_theta dphi a bbp ady ap).result = 0
      ∧ (iop_model lm T c g rho_w sun_theta sen_theta dphi a bbp ady ap).a
        = (mod_iter lm T c g.refind rho_w sun_theta sen_theta dphi c.eps_a_init a bbp).a
      ∧ (iop_model lm T c g rho_w sun_theta sen_theta dphi a bbp ady ap).g.ysbpa_0
        = (if (biogeochem_iter lm c
              ((mod_iter lm T c g.refind rho_w sun_theta sen_theta dphi c.eps_a_init a bbp).a 0)
              ((mod_iter lm T c g.refind rho_w sun_theta sen_theta dphi c.eps_a_init a bbp).a 1)).1
            ≠ 0 then g.ysbpa_0 else T.lambda 1)
      ∧ (∀ i : ℤ, 0 ≤ i → i < NB →
          (iop_model lm T c g rho_w sun_theta sen_theta dphi a bbp ady ap).ap i
            = (iop_model lm T c g rho_w sun_theta sen_theta dphi a bbp ady ap).a i
              - (iop_model lm T c g rho_w sun_theta sen_theta dphi a bbp ady ap).ady i)
      ∧ (fallback_runs lm T c
            (mod_iter lm T c g.refind rho_w sun_theta sen_theta dphi c.eps_a_init a bbp).a →
          ∀ i : ℤ, 0 ≤ i → i < NB →
            (iop_model lm T c g rho_w sun_theta sen_theta dphi a bbp ady ap).ady i
              = ((mod_iter lm T c g.refind rho_w sun_theta sen_theta dphi c.eps_a_init a bbp).a 1
                  - (mod_iter lm T c g.refind rho_w sun_theta sen_theta dphi c.eps_a_init
                      a bbp).a 1
                    * empirical_x2
                      ((mod_iter lm T c g.refind rho_w sun_theta sen_theta dphi c.eps_a_init
                        a bbp).a 0)
                      ((mod_iter lm T c g.refind rho_w sun_theta sen_theta dphi c.eps_a_init
                        a bbp).a 1))
                * lm.exp (c.ysbpa_s * (T.lambda i
                  - (if (biogeochem_iter lm c
                      ((mod_iter lm T c g.refind rho_w sun_theta sen_theta dphi c.eps_a_init
                        a bbp).a 0)
                      ((mod_iter lm T c g.refind rho_w sun_theta sen_theta dphi c.eps_a_init
                        a bbp).a 1)).1 ≠ 0 then g.ysbpa_0 else T.lambda 1))))
      ∧ (¬ fallback_runs lm T c
            (mod_iter lm T c g.refind rho_w sun_theta sen_theta dphi c.eps_a_init a bbp).a →
          (biogeochem_iter lm c
              ((mod_iter lm T c g.refind rho_w sun_theta sen_theta dphi c.eps_a_init a bbp).a 0)
              ((mod_iter lm T c g.refind rho_w sun_theta sen_theta dphi c.eps_a_init a bbp).a 1)).1
            = 0
          ∧ ∀ i : ℤ, 0 ≤ i → i < NB →
            (iop_model lm T c g rho_w sun_theta sen_theta dphi a bbp ady ap).ady i
              = (biogeochem_iter lm c
                  ((mod_iter lm T c g.refind rho_w sun_theta sen_theta dphi c.eps_a_init
                    a bbp).a 0)
                  ((mod_iter lm T c g.refind rho_w sun_theta sen_theta dphi c.eps_a_init
                    a bbp).a 1)).2.1
                * lm.exp (lm.log ((biogeochem_iter lm c
                  ((mod_iter lm T c g.refind rho_w sun_theta sen_theta dphi c.eps_a_init
                    a bbp).a 0)
                  ((mod_iter lm T c g.refind rho_w sun_theta sen_theta dphi c.eps_a_init
                    a bbp).a 1)).2.2.1 / (biogeochem_iter lm c
                  ((mod_iter lm T c g.refind rho_w sun_theta sen_theta dphi c.eps_a_init
                    a bbp).a 0)
                  ((mod_iter lm T c g.refind rho_w sun_theta sen_theta dphi c.eps_a_init
                    a bbp).a 1)).2.1) / (T.lambda 0 - T.lambda 1)
                  * (T.lambda i - T.lambda 1))) := by
  generalize hmd : mod_iter lm T c g.refind rho_w sun_theta sen_theta dphi c.eps_a_init a bbp
    = m at hm hc
  generalize hbi : biogeochem_iter lm c (m.a 0) (m.a 1) = bi
  have hR := iop_model_partition_eq lm T c g rho_w sun_theta sen_theta dphi a bbp ady ap m bi
    hmd hbi hm hc
  have hfr : fallback_runs lm T c m.a
      ↔ (partition_x1 lm T (m.a 1) bi < 15 / 100 ∨ partition_x1 lm T (m.a 1) bi > 6 / 10) := by
    unfold fallback_runs
    rw [hbi]
  by_cases hf : partition_x1 lm T (m.a 1) bi < 15 / 100 ∨ partition_x1 lm T (m.a 1) bi > 6 / 10
  · rw [if_pos hf] at hR
    rw [hR]
    refine ⟨rfl, rfl, rfl, ?_, ?_, ?_⟩
    · intro i h0 h1
      simp [setNB, h0, h1]
    · intro _ i h0 h1
      simp [setNB, h0, h1]
    · intro hn
      exact absurd (hfr.mpr hf) hn
  · rw [if_neg hf] at hR
    have hb0 : bi.1 = 0 := by
      by_contra hb
      apply hf
      left
      unfold partition_x1
      rw [if_pos hb]
      norm_num
    rw [hR]
    refine ⟨hb0, rfl, ?_, ?_, ?_, ?_⟩
    · simp [hb0]
    · intro i h0 h1
      simp [setNB, h0, h1]
    · intro hfb
      exact absurd (hfr.mp hfb) hf
    · intro _
      refine ⟨hb0, ?_⟩
      intro i h0 h1
      simp [setNB, h0, h1]

end PartitionProofs

section IopClaims

variable {K : Type} [LinearOrderedField K] [FloorRing K]

/-- The clamped ratio of the empirical fix lies in `[0.15, 0.6]`. -/
theorem empirical_x2_range (a0 a1 : K) :
    15 / 100 ≤ empirical_x2 a0 a1 ∧ empirical_x2 a0 a1 ≤ 6 / 10 := by
  unfold empirical_x2
  simp only
  split_ifs with h1 h2 h3
  · exact absurd h2 (by norm_num)
  · constructor <;> norm_num
  · constructor <;> norm_num
  · exact ⟨not_lt.mp h1, not_lt.mp h3⟩

/-- C15. A biogeochemical failure never surfaces: `iop_model` returns a non-zero code if and
only if `mod_iter` did (and then returns that code); in particular, when the partition
runs and `biogeochem_iter` returns a non-zero code, the empirical fallback runs, `iop_model`
returns 0 and the returned spectra are those of the fallback. -/
theorem iop_model_result_iff (lm : Libm K) (T : Tables K) (c : Config K) (g : Globals K)
    (rho_w : ℤ → K) (sun_theta sen_theta dphi : K) (a bbp ady ap : ℤ → K) :
    ((iop_model lm T c g rho_w sun_theta sen_theta dphi a bbp ady ap).result ≠ 0
        ↔ (mod_iter lm T c g.refind rho_w sun_theta sen_theta dphi c.eps_a_init a bbp).fail
          ≠ 0)
      ∧ ((mod_iter lm T c g.refind rho_w sun_theta sen_theta dphi c.eps_a_init a bbp).fail ≠ 0
        → (iop_model lm T c g rho_w sun_theta sen_theta dphi a bbp ady ap).result
          = (mod_iter lm T c g.refind rho_w sun_theta sen_theta dphi c.eps_a_init a bbp).fail)
      ∧ ((mod_iter lm T c g.refind rho_w sun_theta sen_theta dphi c.eps_a_init a bbp).fail = 0
        → ((mod_iter lm T c g.refind rho_w sun_theta sen_theta dphi c.eps_a_init a bbp).a 0 > 0
          ∧ (mod_iter lm T c g.refind rho_w sun_theta sen_theta dphi c.eps_a_init a bbp).a 1
            > 0
          ∧ (mod_iter lm T c g.refind rho_w sun_theta sen_theta dphi c.eps_a_init a bbp).a 2
            > 0)
        → (biogeochem_iter lm c
            ((mod_iter lm T c g.refind rho_w sun_theta sen_theta dphi c.eps_a_init a bbp).a 0)
            ((mod_iter lm T c g.refind rho_w sun_theta sen_theta dphi c.eps_a_init a bbp).a 1)).1
          ≠ 0
        → fallback_runs lm T c
            (mod_iter lm T c g.refind rho_w sun_theta sen_theta dphi c.eps_a_init a bbp).a
          ∧ (iop_model lm T c g rho_w sun_theta sen_theta dphi a bbp ady ap).result = 0
          ∧ ∀ i : ℤ, 0 ≤ i → i < NB →
            (iop_model lm T c g rho_w sun_theta sen_theta dphi a bbp ady ap).ady i
              = ((mod_iter lm T c g.refind rho_w sun_theta sen_theta dphi c.eps_a_init a bbp).a 1
                  - (mod_iter lm T c g.refind rho_w sun_theta sen_theta dphi c.eps_a_init
                      a bbp).a 1
                    * empirical_x2
                      ((mod_iter lm T c g.refind rho_w sun_theta sen_theta dphi c.eps_a_init
                        a bbp).a 0)
                      ((mod_iter lm T c g.refind rho_w sun_theta sen_theta dphi c.eps_a_init
                        a bbp).a 1))
                * lm.exp (c.ysbpa_s * (T.lambda i - g.ysbpa_0))) := by
  have hzero : (mod_iter lm T c g.refind rho_w sun_theta sen_theta dphi c.eps_a_init a bbp).fail
      = 0 → (iop_model lm T c g rho_w sun_theta sen_theta dphi a bbp ady ap).result = 0 := by
    intro hm
    by_cases hc : (mod_iter lm T c g.refind rho_w sun_theta sen_theta dphi c.eps_a_init
        a bbp).a 0 > 0
      ∧ (mod_iter lm T c g.refind rho_w sun_theta sen_theta dphi c.eps_a_init a bbp).a 1 > 0
      ∧ (mod_iter lm T c g.refind rho_w sun_theta sen_theta dphi c.eps_a_init a bbp).a 2 > 0
    · exact (iop_model_partition lm T c g rho_w sun_theta sen_theta dphi a bbp ady ap hm hc).1
    · exact (iop_model_skip lm T c g rho_w sun_theta sen_theta dphi a bbp ady ap hm hc).1
  refine ⟨⟨?_, ?_⟩, ?_, ?_⟩
  · intro hr hm
    exact hr (hzero hm)
  · intro hf
    rw [(iop_model_of_fail lm T c g rho_w sun_theta sen_theta dphi a bbp ady ap hf).1]
    exact hf
  · intro hf
    exact (iop_model_of_fail lm T c g rho_w sun_theta sen_theta dphi a bbp ady ap hf).1
  · intro hm hc hb
    have hfb : fallback_runs lm T c
        (mod_iter lm T c g.refind rho_w sun_theta sen_theta dphi c.eps_a_init a bbp).a := by
      left
      unfold partition_x1
      rw [if_pos hb]
      norm_num
    obtain ⟨p1, _, _, _, p5, _⟩ :=
      iop_model_partition lm T c g rho_w sun_theta sen_theta dphi a bbp ady ap hm hc
    refine ⟨hfb, p1, ?_⟩
    intro i h0 h1
    rw [p5 hfb i h0 h1, if_pos hb]

/-- The ratio returned by the empirical fallback when the global `ysbpa_0` happens to hold
`lambda[1]`: whenever the fallback of `iop_model` runs (`mod_iter` succeeded, `a[0]`, `a[1]`,
`a[2]` positive and `x1` outside `[0.15, 0.6]`, which includes a failed bisection), and the
gelbstoff reference wavelength in effect is `lambda[1]` (the bisection succeeded in this call,
or the global `ysbpa_0` equals `lambda[1]`), the returned ratio `ap[1]/a[1]` lies in
`[0.15, 0.6]` (with `exp 0 = 1`). -/
theorem iop_model_fallback_ratio (lm : Libm K) (T : Tables K) (c : Config K) (g : Globals K)
    (rho_w : ℤ → K) (sun_theta sen_theta dphi : K) (a bbp ady ap : ℤ → K)
    (hm : (mod_iter lm T c g.refind rho_w sun_theta sen_theta dphi c.eps_a_init a bbp).fail = 0)
    (hc : (mod_iter lm T c g.refind rho_w sun_theta sen_theta dphi c.eps_a_init a bbp).a 0 > 0
      ∧ (mod_iter lm T c g.refind rho_w sun_theta sen_theta dphi c.eps_a_init a bbp).a 1 > 0
      ∧ (mod_iter lm T c g.refind rho_w sun_theta sen_theta dphi c.eps_a_init a bbp).a 2 > 0)
    (hfb : fallback_runs lm T c
      (mod_iter lm T c g.refind rho_w sun_theta sen_theta dphi c.eps_a_init a bbp).a)
    (href : (biogeochem_iter lm c
        ((mod_iter lm T c g.refind rho_w sun_theta sen_theta dphi c.eps_a_init a bbp).a 0)
        ((mod_iter lm T c g.refind rho_w sun_theta sen_theta dphi c.eps_a_init a bbp).a 1)).1
      ≠ 0 → g.ysbpa_0 = T.lambda 1)
    (hexp : lm.exp 0 = 1) :
    15 / 100 ≤ (iop_model lm T c g rho_w sun_theta sen_theta dphi a bbp ady ap).ap 1
        / (iop_model lm T c g rho_w sun_theta sen_theta dphi a bbp ady ap).a 1
      ∧ (iop_model lm T c g rho_w sun_theta sen_theta dphi a bbp ady ap).ap 1
        / (iop_model lm T c g rho_w sun_theta sen_theta dphi a bbp ady ap).a 1 ≤ 6 / 10 := by
  obtain ⟨_, p2, _, p4, p5, _⟩ :=
    iop_model_partition lm T c g rho_w sun_theta sen_theta dphi a bbp ady ap hm hc
  have hy : (if (biogeochem_iter lm c
        ((mod_iter lm T c g.refind rho_w sun_theta sen_theta dphi c.eps_a_init a bbp).a 0)
        ((mod_iter lm T c g.refind rho_w sun_theta sen_theta dphi c.eps_a_init a bbp).a 1)).1
      ≠ 0 then g.ysbpa_0 else T.lambda 1) = T.lambda 1 := by
    split_ifs with hb
    · exact href hb
    · rfl
  have hady := p5 hfb 1 (by norm_num) (by norm_num [NB])
  rw [hy, sub_self, mul_zero, hexp, mul_one] at hady
  have hap := p4 1 (by norm_num) (by norm_num [NB])
  rw [hady, p2] at hap
  have ha1 : (mod_iter lm T c g.refind rho_w sun_theta sen_theta dphi c.eps_a_init a bbp).a 1
      ≠ 0 := ne_of_gt hc.2.1
  have hr : (iop_model lm T c g rho_w sun_theta sen_theta dphi a bbp ady ap).ap 1
      / (iop_model lm T c g rho_w sun_theta sen_theta dphi a bbp ady ap).a 1
      = empirical_x2
        ((mod_iter lm T c g.refind rho_w sun_theta sen_theta dphi c.eps_a_init a bbp).a 0)
        ((mod_iter lm T c g.refind rho_w sun_theta sen_theta dphi c.eps_a_init a bbp).a 1) := by
    rw [hap, p2]
    field_simp
  rw [hr]
  exact empirical_x2_range _ _

end IopClaims

section FlatIop

/-- The retrieval of `mod_iter` on the flat tables (cap 1) for the reflectance
`flatPixel r0 r2 r3` with `r0 > 0`, when the Case I solve at the reference pair gives
`(0, A, 1)`: it succeeds with `a[0] = 2/r0 - 1`, `a[1] = 1` and `a[2] = 2 A`. -/
theorem flat_mod_iter_pixel (refind : ℤ) (a bb : ℤ → ℚ) (sun_theta sen_theta dphi : ℚ)
    (r0 r2 r3 A : ℚ) (h0 : 0 < r0) (h2 : 0 ≤ r2) (h3 : 0 ≤ r3)
    (h : iter_ab (arr2 r2 r3) (arr2 1 1) (arr2 1 1) (arr2 1 1) 1 2 = (0, A, 1)) :
    (mod_iter flatLibm flatTables (flatConfig 1) refind (flatPixel r0 r2 r3) sun_theta
        sen_theta dphi (flatConfig 1).eps_a_init a bb).fail = 0
      ∧ (mod_iter flatLibm flatTables (flatConfig 1) refind (flatPixel r0 r2 r3) sun_theta
        sen_theta dphi (flatConfig 1).eps_a_init a bb).a 0 = 2 / r0 - 1
      ∧ (mod_iter flatLibm flatTables (flatConfig 1) refind (flatPixel r0 r2 r3) sun_theta
        sen_theta dphi (flatConfig 1).eps_a_init a bb).a 1 = 1
      ∧ (mod_iter flatLibm flatTables (flatConfig 1) refind (flatPixel r0 r2 r3) sun_theta
        sen_theta dphi (flatConfig 1).eps_a_init a bb).a 2 = A * 2 := by
  have e2 : flatPixel r0 r2 r3 2 = r2 := by simp [flatPixel]
  have e3 : flatPixel r0 r2 r3 3 = r3 := by simp [flatPixel]
  have e0 : flatPixel r0 r2 r3 0 = r0 := by simp [flatPixel]
  have e1 : flatPixel r0 r2 r3 1 = 1 := by simp [flatPixel]
  obtain ⟨f, a0, a1, a2⟩ := flat_mod_iter 1 refind (flatPixel r0 r2 r3) a bb sun_theta
    sen_theta dphi A 1 (le_refl _) (flatPixel_nonneg r0 r2 r3 (le_of_lt h0) h2 h3)
    (by rw [e2, e3]; exact h)
  have eps : (flatConfig 1).eps_a_init = 2 := rfl
  rw [eps]
  refine ⟨f, ?_, ?_, a2⟩
  · rw [a0, e0, if_pos h0]
    simp only [iter_a]
    ring
  · rw [a1, e1, if_pos (by norm_num)]
    simp only [iter_a]
    norm_num

/-- The Case I solve of the reference pair `(2/3, 1)` on the flat tables gives
`a = bb = 1`. -/
theorem flat_solve_AB :
    iter_ab (arr2 (2 / 3 : ℚ) 1) (arr2 1 1) (arr2 1 1) (arr2 1 1) 1 2 = (0, 1, 1) := by
  norm_num [iter_ab, arr2]

/-- The call of `iop_model` on the flat tables (cap 1) for the reflectance
`(1, 1, 2/3, 1, 1, 1)`: `mod_iter` gives `a = (1, 1, 2, ...)`, the bisection fails, the
fallback runs and `ady[1] = 0.4 * exp(ysbpa_s * (443 - ysbpa_0))` with the value of the
global `ysbpa_0` on entry. -/
theorem flat_iop_B (g : Globals ℚ) (sun_theta sen_theta dphi : ℚ) (a bbp ady ap : ℤ → ℚ) :
    ((mod_iter flatLibm flatTables (flatConfig 1) g.refind (flatPixel 1 (2 / 3) 1) sun_theta
        sen_theta dphi (flatConfig 1).eps_a_init a bbp).fail = 0
      ∧ ((mod_iter flatLibm flatTables (flatConfig 1) g.refind (flatPixel 1 (2 / 3) 1)
          sun_theta sen_theta dphi (flatConfig 1).eps_a_init a bbp).a 0 > 0
        ∧ (mod_iter flatLibm flatTables (flatConfig 1) g.refind (flatPixel 1 (2 / 3) 1)
          sun_theta sen_theta dphi (flatConfig 1).eps_a_init a bbp).a 1 > 0
        ∧ (mod_iter flatLibm flatTables (flatConfig 1) g.refind (flatPixel 1 (2 / 3) 1)
          sun_theta sen_theta dphi (flatConfig 1).eps_a_init a bbp).a 2 > 0)
      ∧ fallback_runs flatLibm flatTables (flatConfig 1)
          (mod_iter flatLibm flatTables (flatConfig 1) g.refind (flatPixel 1 (2 / 3) 1)
            sun_theta sen_theta dphi (flatConfig 1).eps_a_init a bbp).a
      ∧ (biogeochem_iter flatLibm (flatConfig 1)
          ((mod_iter flatLibm flatTables (flatConfig 1) g.refind (flatPixel 1 (2 / 3) 1)
            sun_theta sen_theta dphi (flatConfig 1).eps_a_init a bbp).a 0)
          ((mod_iter flatLibm flatTables (flatConfig 1) g.refind (flatPixel 1 (2 / 3) 1)
            sun_theta sen_theta dphi (flatConfig 1).eps_a_init a bbp).a 1)).1 ≠ 0)
      ∧ (iop_model flatLibm flatTables (flatConfig 1) g (flatPixel 1 (2 / 3) 1) sun_theta
          sen_theta dphi a bbp ady ap).result = 0
      ∧ (iop_model flatLibm flatTables (flatConfig 1) g (flatPixel 1 (2 / 3) 1) sun_theta
          sen_theta dphi a bbp ady ap).a 1 = 1
      ∧ (iop_model flatLibm flatTables (flatConfig 1) g (flatPixel 1 (2 / 3) 1) sun_theta
          sen_theta dphi a bbp ady ap).ady 1
        = 2 / 5 * (1 + -1 / 100 * (443 - g.ysbpa_0))
      ∧ (iop_model flatLibm flatTables (flatConfig 1) g (flatPixel 1 (2 / 3) 1) sun_theta
          sen_theta dphi a bbp ady ap).ap 1
        = 1 - 2 / 5 * (1 + -1 / 100 * (443 - g.ysbpa_0)) := by
  obtain ⟨hm, a0, a1, a2⟩ := flat_mod_iter_pixel g.refind a bbp sun_theta sen_theta dphi
    1 (2 / 3) 1 1 (by norm_num) (by norm_num) (by norm_num) flat_solve_AB
  have hc : (mod_iter flatLibm flatTables (flatConfig 1) g.refind (flatPixel 1 (2 / 3) 1)
        sun_theta sen_theta dphi (flatConfig 1).eps_a_init a bbp).a 0 > 0
      ∧ (mod_iter flatLibm flatTables (flatConfig 1) g.refind (flatPixel 1 (2 / 3) 1)
        sun_theta sen_theta dphi (flatConfig 1).eps_a_init a bbp).a 1 > 0
      ∧ (mod_iter flatLibm flatTables (flatConfig 1) g.refind (flatPixel 1 (2 / 3) 1)
        sun_theta sen_theta dphi (flatConfig 1).eps_a_init a bbp).a 2 > 0 := by
    rw [a0, a1, a2]
    norm_num
  have hb : (biogeochem_iter flatLibm (flatConfig 1)
      ((mod_iter flatLibm flatTables (flatConfig 1) g.refind (flatPixel 1 (2 / 3) 1)
        sun_theta sen_theta dphi (flatConfig 1).eps_a_init a bbp).a 0)
      ((mod_iter flatLibm flatTables (flatConfig 1) g.refind (flatPixel 1 (2 / 3) 1)
        sun_theta sen_theta dphi (flatConfig 1).eps_a_init a bbp).a 1)).1 ≠ 0 := by
    rw [a0, a1, flat_biogeochem_iter_fail _ _ (by norm_num)]
    norm_num
  have hfb : fallback_runs flatLibm flatTables (flatConfig 1)
      (mod_iter flatLibm flatTables (flatConfig 1) g.refind (flatPixel 1 (2 / 3) 1)
        sun_theta sen_theta dphi (flatConfig 1).eps_a_init a bbp).a := by
    left
    unfold partition_x1
    rw [if_pos hb]
    norm_num
  obtain ⟨p1, p2, _, p4, p5, _⟩ := iop_model_partition flatLibm flatTables (flatConfig 1) g
    (flatPixel 1 (2 / 3) 1) sun_theta sen_theta dphi a bbp ady ap hm hc
  have hady := p5 hfb 1 (by norm_num) (by norm_num [NB])
  rw [if_pos hb, a0, a1] at hady
  have hx2 : empirical_x2 (2 / 1 - 1 : ℚ) 1 = 6 / 10 := by
    norm_num [empirical_x2]
  have hady' : (iop_model flatLibm flatTables (flatConfig 1) g (flatPixel 1 (2 / 3) 1)
      sun_theta sen_theta dphi a bbp ady ap).ady 1
      = 2 / 5 * (1 + -1 / 100 * (443 - g.ysbpa_0)) := by
    rw [hady, hx2]
    simp only [flatLibm, flatConfig, flatTables, demoTables]
    norm_num
  have hap := p4 1 (by norm_num) (by norm_num [NB])
  refine ⟨⟨hm, hc, hfb, hb⟩, p1, by rw [p2, a1], hady', ?_⟩
  rw [hap, hady', p2, a1]

end FlatIop

section FlatClaims

/-- The fallback ratio on the flat tables with the reflectance `(1, 1, 2/3, 1, 1, 1)` when
the global `ysbpa_0` is `443 = lambda[1]`: the bisection fails, the fallback runs and the
ratio is within `[0.15, 0.6]`. -/
theorem iop_model_fallback_ratio_flat :
    15 / 100 ≤ (iop_model flatLibm flatTables (flatConfig 1) ⟨0, 443⟩ (flatPixel 1 (2 / 3) 1)
          0 0 0 (fun _ => 0) (fun _ => 0) (fun _ => 0) (fun _ => 0)).ap 1
        / (iop_model flatLibm flatTables (flatConfig 1) ⟨0, 443⟩ (flatPixel 1 (2 / 3) 1)
          0 0 0 (fun _ => 0) (fun _ => 0) (fun _ => 0) (fun _ => 0)).a 1
      ∧ (iop_model flatLibm flatTables (flatConfig 1) ⟨0, 443⟩ (flatPixel 1 (2 / 3) 1)
          0 0 0 (fun _ => 0) (fun _ => 0) (fun _ => 0) (fun _ => 0)).ap 1
        / (iop_model flatLibm flatTables (flatConfig 1) ⟨0, 443⟩ (flatPixel 1 (2 / 3) 1)
          0 0 0 (fun _ => 0) (fun _ => 0) (fun _ => 0) (fun _ => 0)).a 1 ≤ 6 / 10 :=
  iop_model_fallback_ratio flatLibm flatTables (flatConfig 1) ⟨0, 443⟩ (flatPixel 1 (2 / 3) 1)
    0 0 0 (fun _ => 0) (fun _ => 0) (fun _ => 0) (fun _ => 0)
    (flat_iop_B ⟨0, 443⟩ 0 0 0 (fun _ => 0) (fun _ => 0) (fun _ => 0) (fun _ => 0)).1.1
    (flat_iop_B ⟨0, 443⟩ 0 0 0 (fun _ => 0) (fun _ => 0) (fun _ => 0) (fun _ => 0)).1.2.1
    (flat_iop_B ⟨0, 443⟩ 0 0 0 (fun _ => 0) (fun _ => 0) (fun _ => 0) (fun _ => 0)).1.2.2.1
    (fun _ => by simp [flatTables, demoTables])
    (by norm_num [flatLibm])

/-- C14 (code evaluated at the failing input). Flat tables, configured `ysbpa_0 = 440`
while `lambda[1] = 443`, reflectance `(1, 1, 2/3, 1, 1, 1)`: `mod_iter` succeeds with
`a[0], a[1], a[2] > 0`, the bisection fails, the fallback runs with the clamped ratio
`x2 <= 0.6`, and the band loop, which reads the global `ysbpa_0`, returns the ratio
`ap[1]/a[1] = 0.612 > 0.6`. -/
theorem iop_model_fallback_ratio_exceeds :
    (mod_iter flatLibm flatTables (flatConfig 1) 0 (flatPixel 1 (2 / 3) 1) 0 0 0
        (flatConfig 1).eps_a_init (fun _ => 0) (fun _ => 0)).fail = 0
      ∧ ((mod_iter flatLibm flatTables (flatConfig 1) 0 (flatPixel 1 (2 / 3) 1) 0 0 0
          (flatConfig 1).eps_a_init (fun _ => 0) (fun _ => 0)).a 0 > 0
        ∧ (mod_iter flatLibm flatTables (flatConfig 1) 0 (flatPixel 1 (2 / 3) 1) 0 0 0
          (flatConfig 1).eps_a_init (fun _ => 0) (fun _ => 0)).a 1 > 0
        ∧ (mod_iter flatLibm flatTables (flatConfig 1) 0 (flatPixel 1 (2 / 3) 1) 0 0 0
          (flatConfig 1).eps_a_init (fun _ => 0) (fun _ => 0)).a 2 > 0)
      ∧ fallback_runs flatLibm flatTables (flatConfig 1)
          (mod_iter flatLibm flatTables (flatConfig 1) 0 (flatPixel 1 (2 / 3) 1) 0 0 0
            (flatConfig 1).eps_a_init (fun _ => 0) (fun _ => 0)).a
      ∧ (iop_model flatLibm flatTables (flatConfig 1) ⟨0, 440⟩ (flatPixel 1 (2 / 3) 1) 0 0 0
          (fun _ => 0) (fun _ => 0) (fun _ => 0) (fun _ => 0)).ap 1
        / (iop_model flatLibm flatTables (flatConfig 1) ⟨0, 440⟩ (flatPixel 1 (2 / 3) 1) 0 0 0
          (fun _ => 0) (fun _ => 0) (fun _ => 0) (fun _ => 0)).a 1 = 153 / 250
      ∧ ¬ ((iop_model flatLibm flatTables (flatConfig 1) ⟨0, 440⟩ (flatPixel 1 (2 / 3) 1) 0 0 0
          (fun _ => 0) (fun _ => 0) (fun _ => 0) (fun _ => 0)).ap 1
        / (iop_model flatLibm flatTables (flatConfig 1) ⟨0, 440⟩ (flatPixel 1 (2 / 3) 1) 0 0 0
          (fun _ => 0) (fun _ => 0) (fun _ => 0) (fun _ => 0)).a 1 ≤ 6 / 10) := by
  obtain ⟨⟨hm, hc, hfb, _⟩, _, ha, _, hap⟩ :=
    flat_iop_B ⟨0, 440⟩ 0 0 0 (fun _ => 0) (fun _ => 0) (fun _ => 0) (fun _ => 0)
  have hr : (iop_model flatLibm flatTables (flatConfig 1) ⟨0, 440⟩ (flatPixel 1 (2 / 3) 1)
      0 0 0 (fun _ => 0) (fun _ => 0) (fun _ => 0) (fun _ => 0)).ap 1
      / (iop_model flatLibm flatTables (flatConfig 1) ⟨0, 440⟩ (flatPixel 1 (2 / 3) 1) 0 0 0
        (fun _ => 0) (fun _ => 0) (fun _ => 0) (fun _ => 0)).a 1 = 153 / 250 := by
    rw [hap, ha]
    norm_num
  refine ⟨hm, hc, hfb, hr, ?_⟩
  rw [hr]
  norm_num

/-- Witness of C11 (amended): the flat tables with cap `maxit = 1` and the reflectance
`(1, 1, 2/3, 1, 1, 1)`, where `mod_iter` returns 0; hence some seed converges within the
first `maxit` passes. -/
theorem mod_iter_converged_iff_witness :
    ∃ j : ℕ, j < 5
      ∧ seed_converges flatLibm flatTables (flatConfig 1) 0 (flatPixel 1 (2 / 3) 1) 0 0 0
          (flatConfig 1).eps_a_init (fun _ => 0) (fun _ => 0) j :=
  (mod_iter_converged_iff flatLibm flatTables (flatConfig 1) 0 (flatPixel 1 (2 / 3) 1) 0 0 0
    (flatConfig 1).eps_a_init (fun _ => 0) (fun _ => 0)).1.mp
    (flat_iop_B ⟨0, 443⟩ 0 0 0 (fun _ => 0) (fun _ => 0) (fun _ => 0) (fun _ => 0)).1.1

/-- Witness of C15: the flat tables with the reflectance `(1, 1, 2/3, 1, 1, 1)`, where
`mod_iter` succeeds, the partition runs, `biogeochem_iter` returns a non-zero code, the
fallback runs and `iop_model` returns 0. -/
theorem iop_model_result_iff_witness :
    fallback_runs flatLibm flatTables (flatConfig 1)
        (mod_iter flatLibm flatTables (flatConfig 1) 0 (flatPixel 1 (2 / 3) 1) 0 0 0
          (flatConfig 1).eps_a_init (fun _ => 0) (fun _ => 0)).a
      ∧ (iop_model flatLibm flatTables (flatConfig 1) ⟨0, 443⟩ (flatPixel 1 (2 / 3) 1) 0 0 0
          (fun _ => 0) (fun _ => 0) (fun _ => 0) (fun _ => 0)).result = 0 :=
  ⟨((iop_model_result_iff flatLibm flatTables (flatConfig 1) ⟨0, 443⟩ (flatPixel 1 (2 / 3) 1)
      0 0 0 (fun _ => 0) (fun _ => 0) (fun _ => 0) (fun _ => 0)).2.2
      (flat_iop_B ⟨0, 443⟩ 0 0 0 (fun _ => 0) (fun _ => 0) (fun _ => 0) (fun _ => 0)).1.1
      (flat_iop_B ⟨0, 443⟩ 0 0 0 (fun _ => 0) (fun _ => 0) (fun _ => 0) (fun _ => 0)).1.2.1
      (flat_iop_B ⟨0, 443⟩ 0 0 0 (fun _ => 0) (fun _ => 0) (fun _ => 0)
        (fun _ => 0)).1.2.2.2).1,
    ((iop_model_result_iff flatLibm flatTables (flatConfig 1) ⟨0, 443⟩ (flatPixel 1 (2 / 3) 1)
      0 0 0 (fun _ => 0) (fun _ => 0) (fun _ => 0) (fun _ => 0)).2.2
      (flat_iop_B ⟨0, 443⟩ 0 0 0 (fun _ => 0) (fun _ => 0) (fun _ => 0) (fun _ => 0)).1.1
      (flat_iop_B ⟨0, 443⟩ 0 0 0 (fun _ => 0) (fun _ => 0) (fun _ => 0) (fun _ => 0)).1.2.1
      (flat_iop_B ⟨0, 443⟩ 0 0 0 (fun _ => 0) (fun _ => 0) (fun _ => 0)
        (fun _ => 0)).1.2.2.2).2.1⟩

end FlatClaims

section TableProofs

variable {K : Type} [LinearOrderedField K] [FloorRing K]

/-- The conversion `(int)` of an integer-valued nonnegative value is that integer. -/
theorem truncInt_intCast (z : ℤ) (hz : 0 ≤ z) : truncInt ((z : ℤ) : K) = z := by
  unfold truncInt
  rw [if_pos (by exact_mod_cast hz), Int.floor_intCast]

/-- The integer `abs` of the converted difference exceeds 15 exactly when the difference
is at least 16 in absolute value. -/
theorem abs_truncInt_gt (v : K) : (((|truncInt v| : ℤ) : K)) > 15 ↔ 16 ≤ |v| := by
  have hc : (((|truncInt v| : ℤ) : K)) > 15 ↔ 16 ≤ |truncInt v| := by
    constructor
    · intro h
      have h2 : ((15 : ℤ) : K) < ((|truncInt v| : ℤ) : K) := by exact_mod_cast h
      have h3 : (15 : ℤ) < |truncInt v| := by exact_mod_cast h2
      omega
    · intro h
      have h2 : ((16 : ℤ) : K) ≤ ((|truncInt v| : ℤ) : K) := by exact_mod_cast h
      have h3 : ((16 : ℤ) : K) = 16 := by norm_num
      rw [h3] at h2
      linarith
  rw [hc]
  unfold truncInt
  by_cases h : 0 ≤ v
  · rw [if_pos h, abs_of_nonneg (Int.floor_nonneg.mpr h), abs_of_nonneg h, Int.le_floor]
    norm_num
  · rw [if_neg h]
    have hv : v < 0 := not_le.mp h
    have hcl : ⌈v⌉ ≤ 0 := Int.ceil_le.mpr (by exact_mod_cast le_of_lt hv)
    rw [abs_of_nonpos hcl, abs_of_neg hv]
    constructor
    · intro h1
      have h2 : ⌈v⌉ ≤ -16 := by omega
      have h3 := Int.ceil_le.mp h2
      push_cast at h3
      linarith
    · intro h1
      have h2 : ⌈v⌉ ≤ -16 := Int.ceil_le.mpr (by push_cast; linarith)
      omega

/-- The wavelength cross-check loop exits exactly when some remaining band has a
difference of at least 16 in absolute value. -/
theorem lambda_check_loop_iff (t_lambda lambda : ℤ → K) (k : ℕ) (i : ℤ) :
    lambda_check_loop t_lambda lambda k i = true
      ↔ ∃ j : ℤ, i ≤ j ∧ j < i + k ∧ 16 ≤ |t_lambda j - lambda j| := by
  induction k generalizing i with
  | zero =>
    simp only [lambda_check_loop, Nat.cast_zero, add_zero]
    constructor
    · intro h
      exact absurd h (by simp)
    · rintro ⟨j, h1, h2, _⟩
      omega
  | succ k ih =>
    simp only [lambda_check_loop]
    by_cases h : (((|truncInt (t_lambda i - lambda i)| : ℤ) : K)) > 15
    · rw [if_pos h]
      simp only [true_iff]
      exact ⟨i, le_refl _, by push_cast; omega, (abs_truncInt_gt _).mp h⟩
    · rw [if_neg h, ih (i + 1)]
      constructor
      · rintro ⟨j, h1, h2, h3⟩
        exact ⟨j, by omega, by push_cast; omega, h3⟩
      · rintro ⟨j, h1, h2, h3⟩
        rcases eq_or_lt_of_le h1 with e | e
        · subst e
          exact absurd ((abs_truncInt_gt _).mpr h3) h
        · exact ⟨j, by omega, by push_cast at h2; omega, h3⟩

/-- The wavelength cross-check of `load_work_tab` exits exactly when some band has a
difference of at least 16 nm in absolute value. -/
theorem lambda_check_iff (t_lambda lambda : ℤ → K) (nband : ℤ) :
    lambda_check t_lambda lambda nband = true
      ↔ ∃ j : ℤ, 0 ≤ j ∧ j < nband ∧ 16 ≤ |t_lambda j - lambda j| := by
  unfold lambda_check
  rw [lambda_check_loop_iff]
  constructor
  · rintro ⟨j, h1, h2, h3⟩
    exact ⟨j, h1, by have := Int.toNat_lt (n := nband.toNat + 1) (z := nband); omega, h3⟩
  · rintro ⟨j, h1, h2, h3⟩
    exact ⟨j, h1, by have := Int.toNat_of_nonneg (a := nband) (by omega); omega, h3⟩

/-- C18 (code evaluated at the failing input). Six bands, the geophysical table wavelengths
of `demoTables` (412, 443, ...) and an IOP header whose band 0 reads 427.5: the difference
is 15.5 nm, more than 15 nm, and the cross-check of `load_work_tab` does not exit.  It does
exit when the header reads 428 (difference 16). -/
theorem lambda_check_accepts_fifteen_and_a_half :
    |(demoTables.lambda 0 + 31 / 2) - demoTables.lambda 0| > 15
      ∧ lambda_check (fun i => demoTables.lambda i + (if i = 0 then 31 / 2 else 0))
          demoTables.lambda 6 = false
      ∧ lambda_check (fun i => demoTables.lambda i + (if i = 0 then 16 else 0))
          demoTables.lambda 6 = true := by
  refine ⟨by rw [add_sub_cancel_left, abs_of_pos (by norm_num)]; norm_num, ?_, ?_⟩
  · rw [Bool.eq_false_iff]
    intro h
    obtain ⟨j, _, _, h3⟩ := (lambda_check_iff _ _ _).mp h
    simp only [add_sub_cancel_left] at h3
    by_cases e : j = 0
    · rw [if_pos e, abs_of_pos (by norm_num)] at h3
      norm_num at h3
    · rw [if_neg e] at h3
      norm_num at h3
  · rw [lambda_check_iff]
    exact ⟨0, le_refl _, by norm_num, by simp⟩

/-- On a strictly ascending axis whose logarithms are strictly increasing on positive
entries, `interp_l` at the level `x[i]` is exactly `i`. -/
theorem interp_l_knot (lm : Libm K) (x : ℤ → K) (n i : ℤ) (hn : 2 ≤ n)
    (hasc : StrictAsc x n) (hpos : ∀ j : ℤ, 0 ≤ j → j < n → 0 < x j)
    (hlog : ∀ p q : K, 0 < p → p < q → lm.log p < lm.log q) (hi0 : 0 ≤ i) (hi : i < n) :
    interp_l lm x (x i) n = ((i : ℤ) : K) := by
  have hmono : ∀ p q : ℤ, 0 ≤ p → p ≤ q → q < n → x p ≤ x q := by
    intro p q hp hpq hq
    rcases eq_or_lt_of_le hpq with e | e
    · rw [e]
    · exact le_of_lt (hasc p q hp e hq)
  have htop : ¬ x i > x (n - 1) := not_lt.mpr (hmono i (n - 1) hi0 (by omega) (by omega))
  simp only [interp_l]
  rw [if_neg htop]
  obtain ⟨hs0, hs1, hlo, hhi, hstrict⟩ := segment_bracket x (x i) n hn hasc
    (hmono 0 i (le_refl _) hi0 hi) (hmono i (n - 1) hi0 (by omega) (by omega))
  rcases eq_or_lt_of_le hi0 with e | e
  · -- the first level
    subst e
    have hs : segment x (x 0) n = 0 := by
      rcases hstrict with h | h
      · exfalso
        have := hmono 0 (segment x (x 0) n) (le_refl _) hs0 (by omega)
        exact absurd h (not_lt.mpr this)
      · exact h
    rw [hs, if_pos rfl]
    simp
  · have hsi : segment x (x i) n = i - 1 := by
      have h1 : i ≤ segment x (x i) n + 1 := by
        by_contra hc
        have : x (segment x (x i) n + 1) < x i := hasc _ _ (by omega) (by omega) hi
        exact absurd hhi (not_le.mpr this)
      rcases hstrict with h | h
      · have h2 : segment x (x i) n < i := by
          by_contra hc
          have := hmono i (segment x (x i) n) hi0 (by omega) (by omega)
          exact absurd h (not_lt.mpr this)
        omega
      · omega
    rw [hsi]
    have hii : i - 1 + 1 = i := by ring
    rw [hii]
    by_cases h0 : i - 1 = 0
    · rw [if_pos h0]
      have hlt : x (i - 1) < x i := hasc _ _ (by omega) (by omega) hi
      have hd : x i - x (i - 1) ≠ 0 := by
        have : 0 < x i - x (i - 1) := by linarith
        exact ne_of_gt this
      rw [div_self hd]
      push_cast
      ring
    · rw [if_neg h0]
      have hlt : x (i - 1) < x i := hasc _ _ (by omega) (by omega) hi
      have hl := hlog _ _ (hpos (i - 1) (by omega) (by omega)) hlt
      have hd : lm.log (x i) - lm.log (x (i - 1)) ≠ 0 := by
        have : 0 < lm.log (x i) - lm.log (x (i - 1)) := by linarith
        exact ne_of_gt this
      rw [div_self hd]
      push_cast
      ring

/-- C19 (code behaviour at the axis knots). On a strictly ascending positive level axis of
`n >= 2` entries with `log` strictly increasing on positive values, `geo2iop` at
`value = levels[i]` returns `curve[band][i]` and reads the positions `i` and `i + 1` of
`curve[band]`; at the last level `i = n - 1`, which is within
`levels[0] <= value <= levels[n-1]`, the positions read are `n - 1` and `n`, the second
one past the `n` entries `0 .. n-1` of the curve. -/
theorem geo2iop_reads_past_end (lm : Libm K) (levels : ℤ → K) (iopv : ℤ → ℤ → K)
    (band n : ℤ) (hn : 2 ≤ n) (hasc : StrictAsc levels n)
    (hpos : ∀ j : ℤ, 0 ≤ j → j < n → 0 < levels j)
    (hlog : ∀ p q : K, 0 < p → p < q → lm.log p < lm.log q) :
    (∀ i : ℤ, 0 ≤ i → i < n →
        geo2iop lm levels iopv band (levels i) n = iopv band i
          ∧ geo2iop_reads lm levels (levels i) n = [i, i + 1])
      ∧ (levels 0 ≤ levels (n - 1)
        ∧ geo2iop_reads lm levels (levels (n - 1)) n = [n - 1, n]
        ∧ ¬ (n < n)) := by
  have key : ∀ i : ℤ, 0 ≤ i → i < n →
      geo2iop lm levels iopv band (levels i) n = iopv band i
        ∧ geo2iop_reads lm levels (levels i) n = [i, i + 1] := by
    intro i hi0 hi
    have hk := interp_l_knot lm levels n i hn hasc hpos hlog hi0 hi
    constructor
    · simp only [geo2iop]
      rw [hk, truncInt_intCast i hi0, Int.floor_intCast]
      ring
    · simp only [geo2iop_reads]
      rw [hk, truncInt_intCast i hi0]
  refine ⟨key, le_of_lt (hasc 0 (n - 1) (le_refl _) (by omega) (by omega)), ?_, lt_irrefl n⟩
  have := (key (n - 1) (by omega) (by omega)).2
  rw [this]
  simp

/-- Witness of C19: the axis `1, 2, 3` with the identity as `log` and the curve
`curve[band][i] = i`; at `value = levels[2] = 3` the positions read are 2 and 3. -/
theorem geo2iop_reads_past_end_witness :
    geo2iop_reads demoLibm axis1 (axis1 (3 - 1)) 3 = [3 - 1, 3] :=
  (geo2iop_reads_past_end demoLibm axis1 (fun _ i => (i : ℚ)) 0 3 (by norm_num)
    (axis1_asc 3)
    (fun j hj _ => by
      simp only [axis1]
      have : (0 : ℚ) ≤ (j : ℚ) := by exact_mod_cast hj
      linarith)
    (fun _ _ _ h => h)).2.2.1

end TableProofs

section InterpMonoProofs

variable {K : Type} [LinearOrderedField K] [FloorRing K]

/-- A strictly ascending axis is monotone on its positions. -/
theorem StrictAsc_mono (x : ℤ → K) (n : ℤ) (hasc : StrictAsc x n) (p q : ℤ) (hp : 0 ≤ p)
    (hpq : p ≤ q) (hq : q < n) : x p ≤ x q := by
  rcases eq_or_lt_of_le hpq with e | e
  · rw [e]
  · exact le_of_lt (hasc p q hp e hq)

/-- For an argument not above `x[1]` (and not above `x[n-1]`) `interp` is the linear formula
of segment 0, also below `x[0]`. -/
theorem interp_first_segment (x : ℤ → K) (u : K) (n : ℤ) (hn : 2 ≤ n) (hu : u ≤ x 1)
    (hle : u ≤ x (n - 1)) : interp x u n = (u - x 0) / (x 1 - x 0) := by
  simp only [interp]
  rw [if_neg (not_lt.mpr hle), segment_zero_of_le x u n hn hu]
  simp

/-- On a strictly ascending axis `interp` maps the entry `x[i]` to exactly `i`. -/
theorem interp_knot (x : ℤ → K) (n i : ℤ) (hn : 2 ≤ n) (hasc : StrictAsc x n)
    (hi0 : 0 ≤ i) (hi : i < n) : interp x (x i) n = ((i : ℤ) : K) := by
  have h0 : x 0 ≤ x i := StrictAsc_mono x n hasc 0 i (le_refl _) hi0 hi
  have h1 : x i ≤ x (n - 1) := StrictAsc_mono x n hasc i (n - 1) hi0 (by omega) (by omega)
  obtain ⟨hs0, hs1, hlo, hhi, hstrict⟩ := segment_bracket x (x i) n hn hasc h0 h1
  obtain ⟨e, _, _, _⟩ := interp_frac x (x i) n hn hasc h0 h1
  rw [e]
  rcases eq_or_lt_of_le hi0 with e0 | e0
  · subst e0
    have hs : segment x (x 0) n = 0 := by
      rcases hstrict with h | h
      · exfalso
        have := StrictAsc_mono x n hasc 0 (segment x (x 0) n) (le_refl _) hs0 (by omega)
        exact absurd h (not_lt.mpr this)
      · exact h
    rw [hs]
    simp
  · have hsi : segment x (x i) n = i - 1 := by
      have h1 : i ≤ segment x (x i) n + 1 := by
        by_contra hc
        have : x (segment x (x i) n + 1) < x i := hasc _ _ (by omega) (by omega) hi
        exact absurd hhi (not_le.mpr this)
      rcases hstrict with h | h
      · have h2 : segment x (x i) n < i := by
          by_contra hc
          have := StrictAsc_mono x n hasc i (segment x (x i) n) hi0 (by omega) (by omega)
          exact absurd h (not_lt.mpr this)
        omega
      · omega
    rw [hsi]
    have hii : i - 1 + 1 = i := by ring
    rw [hii]
    have hlt : x (i - 1) < x i := hasc _ _ (by omega) (by omega) hi
    have hd : x i - x (i - 1) ≠ 0 := ne_of_gt (by linarith)
    rw [div_self hd]
    push_cast
    ring

/-- On a strictly ascending axis `interp` is monotone non-decreasing over all arguments. -/
theorem interp_mono (x : ℤ → K) (n : ℤ) (hn : 2 ≤ n) (hasc : StrictAsc x n) (u v : K)
    (huv : u ≤ v) : interp x u n ≤ interp x v n := by
  have h01 : x 0 < x 1 := hasc 0 1 (le_refl _) (by norm_num) (by omega)
  have hd01 : 0 < x 1 - x 0 := by linarith
  have hn1 : (0 : K) ≤ ((n - 1 : ℤ) : K) := by exact_mod_cast (by omega : (0 : ℤ) ≤ n - 1)
  have hx1 : x 1 ≤ x (n - 1) := StrictAsc_mono x n hasc 1 (n - 1) (by norm_num) (by omega)
    (by omega)
  by_cases hv : v > x (n - 1)
  · have ev : interp x v n = ((n - 1 : ℤ) : K) := by
      simp only [interp]
      rw [if_pos hv]
    rw [ev]
    by_cases hu : u > x (n - 1)
    · simp only [interp]
      rw [if_pos hu]
    · have hu1 : u ≤ x (n - 1) := not_lt.mp hu
      by_cases hu0 : x 0 ≤ u
      · obtain ⟨e, _, f1, _⟩ := interp_frac x u n hn hasc hu0 hu1
        obtain ⟨_, s1, _⟩ := segment_bracket x u n hn hasc hu0 hu1
        rw [e]
        have : ((segment x u n + 1 : ℤ) : K) ≤ ((n - 1 : ℤ) : K) := by exact_mod_cast s1
        push_cast at this ⊢
        linarith
      · have hu0 : u < x 0 := not_le.mp hu0
        rw [interp_first_segment x u n hn (by linarith) hu1]
        have : (u - x 0) / (x 1 - x 0) ≤ 0 :=
          div_nonpos_of_nonpos_of_nonneg (by linarith) (le_of_lt hd01)
        linarith
  · have hv1 : v ≤ x (n - 1) := not_lt.mp hv
    have hu1 : u ≤ x (n - 1) := le_trans huv hv1
    by_cases hu0 : x 0 ≤ u
    · have hv0 : x 0 ≤ v := le_trans hu0 huv
      obtain ⟨eu, fu0, fu1, _⟩ := interp_frac x u n hn hasc hu0 hu1
      obtain ⟨ev, fv0, fv1, _⟩ := interp_frac x v n hn hasc hv0 hv1
      obtain ⟨su0, su1, sulo, suhi, sustr⟩ := segment_bracket x u n hn hasc hu0 hu1
      obtain ⟨sv0, sv1, svlo, svhi, svstr⟩ := segment_bracket x v n hn hasc hv0 hv1
      rw [eu, ev]
      rcases lt_trichotomy (segment x u n) (segment x v n) with h | h | h
      · have : ((segment x u n + 1 : ℤ) : K) ≤ ((segment x v n : ℤ) : K) := by
          exact_mod_cast h
        push_cast at this
        linarith
      · have hd : 0 < x (segment x v n + 1) - x (segment x v n) :=
          sub_pos.mpr (hasc _ _ sv0 (by omega) (by omega))
        rw [h]
        have : (u - x (segment x v n)) / (x (segment x v n + 1) - x (segment x v n))
            ≤ (v - x (segment x v n)) / (x (segment x v n + 1) - x (segment x v n)) :=
          div_le_div_of_nonneg_right (by linarith) (le_of_lt hd)
        linarith
      · exfalso
        rcases sustr with h1 | h1
        · have : x (segment x v n + 1) ≤ x (segment x u n) :=
            StrictAsc_mono x n hasc _ _ (by omega) (by omega) (by omega)
          linarith
        · omega
    · have hu0 : u < x 0 := not_le.mp hu0
      rw [interp_first_segment x u n hn (by linarith) hu1]
      by_cases hv01 : v ≤ x 1
      · rw [interp_first_segment x v n hn hv01 hv1]
        exact div_le_div_of_nonneg_right (by linarith) (le_of_lt hd01)
      · have hv0 : x 0 ≤ v := by linarith [not_le.mp hv01]
        obtain ⟨ev, fv0, _, _⟩ := interp_frac x v n hn hasc hv0 hv1
        obtain ⟨sv0, _⟩ := segment_bracket x v n hn hasc hv0 hv1
        rw [ev]
        have h1 : (u - x 0) / (x 1 - x 0) ≤ 0 :=
          div_nonpos_of_nonpos_of_nonneg (by linarith) (le_of_lt hd01)
        have h2 : (0 : K) ≤ ((segment x v n : ℤ) : K) := by exact_mod_cast sv0
        linarith

/-- C30. For every strictly ascending axis `x` of length `n >= 2`, `interp(x, ., n)` is
monotone non-decreasing over all arguments (below `x[0]` it is the linear extrapolation of
segment 0, hence not above 0 there; above `x[n-1]` it is `n-1`), and it maps every knot
`x[i]` to exactly `i`. -/
theorem interp_monotone_knots (x : ℤ → K) (n : ℤ) (hn : 2 ≤ n) (hasc : StrictAsc x n) :
    (∀ u v : K, u ≤ v → interp x u n ≤ interp x v n)
      ∧ (∀ u : K, u < x 0 → interp x u n = (u - x 0) / (x 1 - x 0) ∧ interp x u n < 0)
      ∧ (∀ u : K, u > x (n - 1) → interp x u n = ((n - 1 : ℤ) : K))
      ∧ (∀ i : ℤ, 0 ≤ i → i < n → interp x (x i) n = ((i : ℤ) : K)) := by
  refine ⟨interp_mono x n hn hasc, ?_, ?_, fun i => interp_knot x n i hn hasc⟩
  · intro u hu
    have h01 : x 0 < x 1 := hasc 0 1 (le_refl _) (by norm_num) (by omega)
    have hx1 : x 1 ≤ x (n - 1) := StrictAsc_mono x n hasc 1 (n - 1) (by norm_num) (by omega)
      (by omega)
    have e := interp_first_segment x u n hn (by linarith) (by linarith)
    refine ⟨e, ?_⟩
    rw [e]
    exact div_neg_of_neg_of_pos (by linarith) (by linarith)
  · intro u hu
    simp only [interp]
    rw [if_pos hu]

/-- Witness of C30: the axis `1, 2, 3` at the arguments `0 <= 7/2` (one below the axis, one
above it). -/
theorem interp_monotone_knots_witness : interp axis1 0 3 ≤ interp axis1 (7 / 2) 3 :=
  (interp_monotone_knots axis1 3 (by norm_num) (axis1_asc 3)).1 0 (7 / 2) (by norm_num)

end InterpMonoProofs

section GeometryProofs

variable {K : Type} [LinearOrderedField K] [FloorRing K]

/-- The lower corner index chosen by `fint` is never negative. -/
theorem fint_lo_nonneg (a : K) : 0 ≤ fint_lo a := by
  unfold fint_lo
  split_ifs with h
  · exact Int.floor_nonneg.mpr (le_of_lt h)
  · exact le_refl _

/-- The value of `fint` depends on the table only through the positions in `fint_reads`. -/
theorem fint_depends_on_reads (T T2 : Tables K) (refind : ℤ) (a b : K) (band : ℤ)
    (hap : T2.ap_n = T.ap_n) (hbp : T2.bp_n = T.bp_n)
    (h : ∀ k ∈ fint_reads T refind a b band, T2.refen k = T.refen k) :
    fint T2 refind a b band = fint T refind a b band := by
  simp only [fint, fint_reads] at h ⊢
  rw [hap, hbp]
  split_ifs with hc
  · rfl
  · rw [if_neg hc] at h
    simp only [List.mem_cons, List.mem_singleton, List.not_mem_nil, or_false,
      forall_eq_or_imp, forall_eq] at h
    obtain ⟨h1, h2, h3, h4⟩ := h
    rw [h1, h2, h3, h4]

/-- C29. With `ap_n = bp_n = 16`, a band `0 <= band < nband` and a base offset
`0 <= refind <= refind_max`, every position of `refen` read by `fint(a, b, band)`, for
arbitrary `a` and `b`, is a valid flat index of the table and lies inside the block of
`bp_n*ap_n` elements selected by `refind` and `band`. -/
theorem fint_reads_in_block (T : Tables K) (refind : ℤ) (a b : K) (band : ℤ)
    (hap : T.ap_n = 16) (hbp : T.bp_n = 16) (hb0 : 0 ≤ band) (hb1 : band < T.nband)
    (hr0 : 0 ≤ refind) (hr1 : refind ≤ T.refind_max) :
    ∀ k ∈ fint_reads T refind a b band,
      (0 ≤ k ∧ k < T.th_s_n * T.th_v_n * T.dphi_n * T.nband * T.bp_n * T.ap_n)
        ∧ (refind + band * (T.bp_n * T.ap_n) ≤ k
          ∧ k < refind + (band + 1) * (T.bp_n * T.ap_n)) := by
  intro k hk
  have hsz : T.th_s_n * T.th_v_n * T.dphi_n * T.nband * T.bp_n * T.ap_n = T.refen_size := by
    unfold Tables.refen_size
    ring
  have hmax : T.refind_max = T.refen_size - 16 * 16 * T.nband := by
    unfold Tables.refind_max
    rw [hap, hbp]
  rw [hsz]
  rw [hmax] at hr1
  have ha := fint_lo_nonneg a
  have hb := fint_lo_nonneg b
  simp only [fint_reads] at hk
  rw [hap, hbp] at hk ⊢
  split_ifs at hk with hc
  · exact absurd hk (List.not_mem_nil _)
  · have hc1 : fint_lo b + 1 ≤ 15 := by
      by_contra h
      exact hc (Or.inl (by omega))
    have hc2 : fint_lo a + 1 ≤ 15 := by
      by_contra h
      exact hc (Or.inr (by omega))
    simp only [List.mem_cons, List.mem_singleton, List.not_mem_nil, or_false] at hk
    rcases hk with e | e | e | e <;> subst e <;> refine ⟨⟨?_, ?_⟩, ?_, ?_⟩ <;> omega

/-- The positions read by `fint` on `demoTables` at offset 0, band 0 and the fractional
indices `(1/2, 1/2)`. -/
theorem demo_fint_reads : fint_reads demoTables 0 (1 / 2) (1 / 2) 0 = [1, 0, 17, 16] := by
  have hlo : fint_lo (1 / 2 : ℚ) = 0 := by
    unfold fint_lo
    rw [if_pos (by norm_num), Int.floor_eq_iff]
    norm_num
  simp only [fint_reads, hlo, demoTables]
  norm_num

/-- Witness of C29: `demoTables` (8 geometry cells, 6 bands, 16 by 16 levels) at offset 0,
band 0 and the fractional indices `(1/2, 1/2)`, for the position 17 that `fint` reads. -/
theorem fint_reads_in_block_witness :
    ((0 : ℤ) ≤ 17 ∧ 17 < demoTables.th_s_n * demoTables.th_v_n * demoTables.dphi_n
          * demoTables.nband * demoTables.bp_n * demoTables.ap_n)
      ∧ (0 + 0 * (demoTables.bp_n * demoTables.ap_n) ≤ 17
        ∧ 17 < 0 + (0 + 1) * (demoTables.bp_n * demoTables.ap_n)) :=
  fint_reads_in_block demoTables 0 (1 / 2) (1 / 2) 0 rfl rfl (le_refl _)
    (by norm_num [demoTables]) (le_refl _)
    (by norm_num [Tables.refind_max, Tables.refen_size, demoTables]) 17
    (by rw [demo_fint_reads]; simp)

/-- The literal `M_PI` is positive. -/
theorem M_PI_pos : (0 : K) < M_PI := by
  unfold M_PI
  positivity

/-- C22 (amended). For every relative azimuth `dphi` with `-2π <= dphi <= 4π` the value that
`setgeom` looks up on `dphi_lev` lies in the closed interval `[0, 2π]`; it is below `2π`
unless `dphi` is `2π` or `4π`, and `dphi = 2π` is left at `2π`. -/
theorem wrap_dphi_range (dphi : K) (h1 : -(M_PI * 2) ≤ dphi) (h2 : dphi ≤ M_PI * 4) :
    0 ≤ wrap_dphi dphi ∧ wrap_dphi dphi ≤ M_PI * 2
      ∧ (dphi ≠ M_PI * 2 → dphi ≠ M_PI * 4 → wrap_dphi dphi < M_PI * 2)
      ∧ (dphi = M_PI * 2 → wrap_dphi dphi = M_PI * 2)
      ∧ ∀ (T : Tables K) (sun_theta sen_theta : K),
        (setgeom T sun_theta sen_theta dphi).2
          = ⌊interp T.th_s_lev sun_theta T.th_s_n + 1 / 2⌋ * T.th_v_n * T.dphi_n * T.nband
              * T.bp_n * T.ap_n
            + ⌊interp T.th_v_lev sen_theta T.th_v_n + 1 / 2⌋ * T.dphi_n * T.nband * T.bp_n
              * T.ap_n
            + ⌊interp T.dphi_lev (wrap_dphi dphi) T.dphi_n + 1 / 2⌋ * T.nband * T.bp_n
              * T.ap_n := by
  have hpi : (0 : K) < M_PI := M_PI_pos
  refine ⟨?_, ?_, ?_, ?_, ?_⟩
  · simp only [wrap_dphi]
    split_ifs <;> linarith
  · simp only [wrap_dphi]
    split_ifs <;> linarith
  · intro n1 n2
    have h3 : dphi < M_PI * 4 := lt_of_le_of_ne h2 n2
    simp only [wrap_dphi]
    split_ifs with c1 c2 c2
    · linarith
    · linarith
    · linarith
    · exact lt_of_le_of_ne (not_lt.mp c2) n1
  · intro e
    subst e
    have hn : ¬ (M_PI * 2 : K) < 0 := not_lt.mpr (by linarith)
    simp [wrap_dphi, hn]
  · intro T sun_theta sen_theta
    simp only [setgeom]
    split_ifs <;> rfl

/-- Witness of C22 (amended): the relative azimuth `-1`. -/
theorem wrap_dphi_range_witness :
    0 ≤ wrap_dphi (-1 : ℚ) ∧ wrap_dphi (-1 : ℚ) ≤ M_PI * 2 :=
  ⟨(wrap_dphi_range (-1 : ℚ) (by norm_num [M_PI]) (by norm_num [M_PI])).1,
    (wrap_dphi_range (-1 : ℚ) (by norm_num [M_PI]) (by norm_num [M_PI])).2.1⟩

/-- C22 (counterexample). The relative azimuth `2π`, inside `[-2π, 2π]`, is looked up as `2π`,
which is not below `2π`; the relative azimuths `-7` and `13` are looked up as `-7 + 2π < 0`
and `13 - 2π > 2π`. -/
theorem wrap_dphi_counterexample :
    (-(M_PI * 2) ≤ (M_PI * 2 : ℚ) ∧ (M_PI * 2 : ℚ) ≤ M_PI * 2)
      ∧ wrap_dphi (M_PI * 2 : ℚ) = M_PI * 2
      ∧ ¬ (0 ≤ wrap_dphi (M_PI * 2 : ℚ) ∧ wrap_dphi (M_PI * 2 : ℚ) < M_PI * 2)
      ∧ wrap_dphi (-7 : ℚ) < 0
      ∧ wrap_dphi (13 : ℚ) > M_PI * 2 := by
  refine ⟨⟨by norm_num [M_PI], le_refl _⟩, ?_, ?_, ?_, ?_⟩
  · norm_num [wrap_dphi, M_PI]
  · norm_num [wrap_dphi, M_PI]
  · norm_num [wrap_dphi, M_PI]
  · norm_num [wrap_dphi, M_PI]

/-- Whenever `setgeom` returns 0 the offset it stored is at most `refind_max` and is a
multiple of the cell size `nband*bp_n*ap_n`. -/
theorem setgeom_status_zero (T : Tables K) (sun_theta sen_theta dphi : K)
    (h : (setgeom T sun_theta sen_theta dphi).1 = 0) :
    (setgeom T sun_theta sen_theta dphi).2 ≤ T.refind_max
      ∧ (T.nband * T.bp_n * T.ap_n) ∣ (setgeom T sun_theta sen_theta dphi).2 := by
  simp only [setgeom] at h ⊢
  split_ifs at h ⊢ with c
  · simp at h
  · refine ⟨not_lt.mp c, ?_⟩
    refine ⟨⌊interp T.th_s_lev sun_theta T.th_s_n + 1 / 2⌋ * T.th_v_n * T.dphi_n
      + ⌊interp T.th_v_lev sen_theta T.th_v_n + 1 / 2⌋ * T.dphi_n
      + ⌊interp T.dphi_lev (wrap_dphi dphi) T.dphi_n + 1 / 2⌋, ?_⟩
    ring

/-- C28 (code evaluated at the failing input). On `lowTables` the three geometry axes are
strictly ascending with 2 entries each and the solar-zenith axis is `1, 2`; for the solar
zenith `0`, below its first entry, `interp` extrapolates to `-1`, and `setgeom` returns
status 0 with the negative offset `-6144` (one geometry row before the table). -/
theorem setgeom_negative_offset :
    (StrictAsc lowTables.th_s_lev lowTables.th_s_n
        ∧ StrictAsc lowTables.th_v_lev lowTables.th_v_n
        ∧ StrictAsc lowTables.dphi_lev lowTables.dphi_n)
      ∧ (2 ≤ lowTables.th_s_n ∧ 2 ≤ lowTables.th_v_n ∧ 2 ≤ lowTables.dphi_n)
      ∧ interp lowTables.th_s_lev 0 lowTables.th_s_n = -1
      ∧ setgeom lowTables 0 0 0 = (0, -6144)
      ∧ ¬ (0 ≤ (setgeom lowTables 0 0 0).2) := by
  have h1 : interp axis1 0 2 = -1 := by
    norm_num [interp, segment, searchLoop, axis1]
  have h2 : interp axis01 0 2 = 0 := by
    simp [interp, segment, searchLoop, axis01]
  have h3 : wrap_dphi (0 : ℚ) = 0 := by
    simp [wrap_dphi, M_PI]
  have f1 : ⌊(-1 : ℚ) + 1 / 2⌋ = -1 := by
    rw [Int.floor_eq_iff]; norm_num
  have f2 : ⌊(0 : ℚ) + 1 / 2⌋ = 0 := by
    rw [Int.floor_eq_iff]; norm_num
  have hs : setgeom lowTables 0 0 0 = (0, -6144) := by
    simp only [setgeom, lowTables, demoTables, Tables.refind_max, Tables.refen_size, h1, h2,
      h3, f1, f2]
    norm_num
  refine ⟨⟨axis1_asc 2, axis01_asc 2, axis01_asc 2⟩, ⟨le_refl _, le_refl _, le_refl _⟩, h1,
    hs, ?_⟩
  rw [hs]
  norm_num

end GeometryProofs

section NearestProofs

variable {K : Type} [LinearOrderedField K] [FloorRing K]

/-- On a strictly ascending axis, for an argument within the range of the axis,
`floor(interp(x, v, n) + 0.5)` is the index of the entry nearest to `v`, a tie going to the
higher index. -/
theorem round_interp_nearest (x : ℤ → K) (v : K) (n : ℤ) (hn : 2 ≤ n) (hasc : StrictAsc x n)
    (h0 : x 0 ≤ v) (h1 : v ≤ x (n - 1)) :
    nearest_index x n v ⌊interp x v n + 1 / 2⌋ := by
  obtain ⟨hs0, hs1, hlo, hhi, _⟩ := segment_bracket x v n hn hasc h0 h1
  obtain ⟨e, f0, f1, _⟩ := interp_frac x v n hn hasc h0 h1
  generalize segment x v n = s at hs0 hs1 hlo hhi e f0 f1
  have hd : 0 < x (s + 1) - x s := sub_pos.mpr (hasc s (s + 1) hs0 (by omega) (by omega))
  have hfv : v - x s = (v - x s) / (x (s + 1) - x s) * (x (s + 1) - x s) := by
    field_simp
  generalize (v - x s) / (x (s + 1) - x s) = f at e f0 f1 hfv
  by_cases hhalf : f < 1 / 2
  · have hk : ⌊interp x v n + 1 / 2⌋ = s := by
      rw [e, Int.floor_eq_iff]
      constructor <;> linarith
    rw [hk]
    have hclose : v - x s < x (s + 1) - v := by nlinarith
    refine ⟨hs0, by omega, ?_⟩
    intro j hj0 hjn
    rw [abs_of_nonneg (by linarith : 0 ≤ v - x s)]
    rcases le_or_lt j s with hjs | hjs
    · have hxj : x j ≤ x s := StrictAsc_mono x n hasc j s hj0 hjs (by omega)
      rw [abs_of_nonneg (by linarith)]
      exact ⟨by linarith, fun _ => hjs⟩
    · have hxj : x (s + 1) ≤ x j := StrictAsc_mono x n hasc (s + 1) j (by omega) (by omega) hjn
      rw [abs_of_nonpos (by linarith)]
      constructor
      · linarith
      · intro heq
        exfalso
        linarith
  · have hhalf2 : 1 / 2 ≤ f := not_lt.mp hhalf
    have hk : ⌊interp x v n + 1 / 2⌋ = s + 1 := by
      rw [e, Int.floor_eq_iff]
      constructor
      · push_cast
        linarith
      · push_cast
        linarith
    rw [hk]
    have hclose : x (s + 1) - v ≤ v - x s := by nlinarith
    refine ⟨by omega, by omega, ?_⟩
    intro j hj0 hjn
    rw [abs_of_nonpos (by linarith : v - x (s + 1) ≤ 0)]
    rcases le_or_lt j s with hjs | hjs
    · have hxj : x j ≤ x s := StrictAsc_mono x n hasc j s hj0 hjs (by omega)
      rw [abs_of_nonneg (by linarith)]
      exact ⟨by linarith, fun _ => by omega⟩
    · have hxj : x (s + 1) ≤ x j := StrictAsc_mono x n hasc (s + 1) j (by omega) (by omega) hjn
      rw [abs_of_nonpos (by linarith)]
      constructor
      · linarith
      · intro heq
        by_contra hc
        have : x (s + 1) < x j := hasc (s + 1) j (by omega) (by omega) hjn
        linarith

/-- The index of the nearest entry (tie to the higher index) is unique. -/
theorem nearest_index_unique (x : ℤ → K) (n : ℤ) (v : K) (k k2 : ℤ)
    (h : nearest_index x n v k) (h2 : nearest_index x n v k2) : k = k2 := by
  obtain ⟨a0, a1, a2⟩ := h
  obtain ⟨b0, b1, b2⟩ := h2
  obtain ⟨c1, c2⟩ := a2 k2 b0 b1
  obtain ⟨d1, d2⟩ := b2 k a0 a1
  have e : |v - x k| = |v - x k2| := le_antisymm c1 d1
  have := c2 e
  have := d2 e.symm
  omega

/-- C21 (amended). For strictly ascending geometry axes of at least 2 entries, non-negative
table sizes `nband`, `bp_n`, `ap_n`, and angles within the range of their axis (for the
azimuth: the value `wrap_dphi dphi` left by the two wrap-around statements of `setgeom`, which
is `dphi` itself when `0 <= dphi <= 2π`), `setgeom` selects for each angle the index of the
axis entry nearest to it, a tie going to the higher index, sets
`refind = ((i_s*th_v_n + i_v)*dphi_n + i_phi) * nband*bp_n*ap_n` and returns 0. -/
theorem setgeom_nearest (T : Tables K) (sun_theta sen_theta dphi : K)
    (hs : 2 ≤ T.th_s_n) (hv : 2 ≤ T.th_v_n) (hd : 2 ≤ T.dphi_n)
    (hnb : 0 ≤ T.nband) (hbp : 0 ≤ T.bp_n) (hap : 0 ≤ T.ap_n)
    (hasc_s : StrictAsc T.th_s_lev T.th_s_n) (hasc_v : StrictAsc T.th_v_lev T.th_v_n)
    (hasc_d : StrictAsc T.dphi_lev T.dphi_n)
    (hs0 : T.th_s_lev 0 ≤ sun_theta) (hs1 : sun_theta ≤ T.th_s_lev (T.th_s_n - 1))
    (hv0 : T.th_v_lev 0 ≤ sen_theta) (hv1 : sen_theta ≤ T.th_v_lev (T.th_v_n - 1))
    (hd0 : T.dphi_lev 0 ≤ wrap_dphi dphi)
    (hd1 : wrap_dphi dphi ≤ T.dphi_lev (T.dphi_n - 1)) :
    ∃ i_s i_v i_phi : ℤ,
      nearest_index T.th_s_lev T.th_s_n sun_theta i_s
        ∧ nearest_index T.th_v_lev T.th_v_n sen_theta i_v
        ∧ nearest_index T.dphi_lev T.dphi_n (wrap_dphi dphi) i_phi
        ∧ setgeom T sun_theta sen_theta dphi
          = (0, ((i_s * T.th_v_n + i_v) * T.dphi_n + i_phi) * (T.nband * T.bp_n * T.ap_n))
        ∧ (0 ≤ dphi → dphi ≤ M_PI * 2 → wrap_dphi dphi = dphi) := by
  have n1 := round_interp_nearest T.th_s_lev sun_theta T.th_s_n hs hasc_s hs0 hs1
  have n2 := round_interp_nearest T.th_v_lev sen_theta T.th_v_n hv hasc_v hv0 hv1
  have n3 := round_interp_nearest T.dphi_lev (wrap_dphi dphi) T.dphi_n hd hasc_d hd0 hd1
  refine ⟨_, _, _, n1, n2, n3, ?_, ?_⟩
  · obtain ⟨a0, a1, _⟩ := n1
    obtain ⟨b0, b1, _⟩ := n2
    obtain ⟨c0, c1, _⟩ := n3
    simp only [setgeom]
    generalize ⌊interp T.th_s_lev sun_theta T.th_s_n + 1 / 2⌋ = i at a0 a1 ⊢
    generalize ⌊interp T.th_v_lev sen_theta T.th_v_n + 1 / 2⌋ = j at b0 b1 ⊢
    generalize ⌊interp T.dphi_lev (wrap_dphi dphi) T.dphi_n + 1 / 2⌋ = k at c0 c1 ⊢
    have hB : 0 ≤ T.nband * T.bp_n * T.ap_n := mul_nonneg (mul_nonneg hnb hbp) hap
    have hidx : (i * T.th_v_n + j) * T.dphi_n + k ≤ T.th_s_n * T.th_v_n * T.dphi_n - 1 := by
      have e1 : i * T.th_v_n + j ≤ T.th_s_n * T.th_v_n - 1 := by nlinarith
      have e2 : (i * T.th_v_n + j) * T.dphi_n ≤ (T.th_s_n * T.th_v_n - 1) * T.dphi_n :=
        mul_le_mul_of_nonneg_right e1 (by omega)
      nlinarith
    have hle : i * T.th_v_n * T.dphi_n * T.nband * T.bp_n * T.ap_n
        + j * T.dphi_n * T.nband * T.bp_n * T.ap_n + k * T.nband * T.bp_n * T.ap_n
        ≤ T.refind_max := by
      have e3 := mul_le_mul_of_nonneg_right hidx hB
      unfold Tables.refind_max Tables.refen_size
      nlinarith
    rw [if_neg (not_lt.mpr hle)]
    congr 1
    ring
  · intro p0 p1
    simp only [wrap_dphi]
    rw [if_neg (not_lt.mpr p0), if_neg (not_lt.mpr p1)]

/-- Witness of C21 (amended): `demoTables` (axes `0, 1`) at the angles `(1/4, 3/4, 1/2)`;
the offset is that of the cell `(0, 1, 1)`, the azimuth tie going to the higher index. -/
theorem setgeom_nearest_witness :
    ∃ i_s i_v i_phi : ℤ,
      nearest_index demoTables.th_s_lev demoTables.th_s_n (1 / 4) i_s
        ∧ nearest_index demoTables.th_v_lev demoTables.th_v_n (3 / 4) i_v
        ∧ nearest_index demoTables.dphi_lev demoTables.dphi_n (wrap_dphi (1 / 2)) i_phi
        ∧ setgeom demoTables (1 / 4) (3 / 4) (1 / 2)
          = (0, ((i_s * demoTables.th_v_n + i_v) * demoTables.dphi_n + i_phi)
            * (demoTables.nband * demoTables.bp_n * demoTables.ap_n))
        ∧ (0 ≤ (1 / 2 : ℚ) → (1 / 2 : ℚ) ≤ M_PI * 2 → wrap_dphi (1 / 2 : ℚ) = 1 / 2) :=
  setgeom_nearest demoTables (1 / 4) (3 / 4) (1 / 2) (le_refl _) (le_refl _) (le_refl _)
    (by norm_num [demoTables]) (by norm_num [demoTables]) (by norm_num [demoTables])
    (axis01_asc 2) (axis01_asc 2) (axis01_asc 2)
    (by norm_num [demoTables, axis01]) (by norm_num [demoTables, axis01])
    (by norm_num [demoTables, axis01]) (by norm_num [demoTables, axis01])
    (by norm_num [demoTables, axis01, wrap_dphi, M_PI])
    (by norm_num [demoTables, axis01, wrap_dphi, M_PI])

/-- C21 (counterexample). On `azTables` the relative-azimuth axis is `-1, 1`, strictly
ascending; the relative azimuth `-1/2` lies within its range and its nearest entry is the one
of index 0, but `setgeom` looks up `-1/2 + 2π`, selects the index 1 and sets
`refind = 1536 = ((0*2 + 0)*2 + 1) * (6*16*16)`. -/
theorem setgeom_nearest_counterexample :
    (StrictAsc azTables.th_s_lev azTables.th_s_n ∧ StrictAsc azTables.th_v_lev azTables.th_v_n
        ∧ StrictAsc azTables.dphi_lev azTables.dphi_n)
      ∧ (azTables.th_s_lev 0 ≤ 0 ∧ (0 : ℚ) ≤ azTables.th_s_lev (azTables.th_s_n - 1))
      ∧ (azTables.th_v_lev 0 ≤ 0 ∧ (0 : ℚ) ≤ azTables.th_v_lev (azTables.th_v_n - 1))
      ∧ (azTables.dphi_lev 0 ≤ -1 / 2 ∧ (-1 / 2 : ℚ) ≤ azTables.dphi_lev (azTables.dphi_n - 1))
      ∧ nearest_index azTables.th_s_lev azTables.th_s_n 0 0
      ∧ nearest_index azTables.th_v_lev azTables.th_v_n 0 0
      ∧ nearest_index azTables.dphi_lev azTables.dphi_n (-1 / 2) 0
      ∧ setgeom azTables 0 0 (-1 / 2) = (0, 1536)
      ∧ ¬ (setgeom azTables 0 0 (-1 / 2)
          = (0, ((0 * azTables.th_v_n + 0) * azTables.dphi_n + 0)
            * (azTables.nband * azTables.bp_n * azTables.ap_n))) := by
  have hd : StrictAsc azTables.dphi_lev azTables.dphi_n := by
    intro i j _ hij _
    simp only [azTables]
    have : (i : ℚ) < (j : ℚ) := by exact_mod_cast hij
    linarith
  have k0 : interp axis01 0 2 = 0 := by
    simp [interp, segment, searchLoop, axis01]
  have k1 : interp (fun i : ℤ => 2 * (i : ℚ) - 1) (-1 / 2) 2 = 1 / 4 := by
    norm_num [interp, segment, searchLoop]
  have f0 : ⌊(0 : ℚ) + 1 / 2⌋ = 0 := by
    rw [Int.floor_eq_iff]; norm_num
  have f1 : ⌊(1 / 4 : ℚ) + 1 / 2⌋ = 0 := by
    rw [Int.floor_eq_iff]; norm_num
  have ns := round_interp_nearest axis01 (0 : ℚ) 2 (le_refl _) (axis01_asc 2)
    (by norm_num [axis01]) (by norm_num [axis01])
  rw [k0, f0] at ns
  have nd := round_interp_nearest (fun i : ℤ => 2 * (i : ℚ) - 1) (-1 / 2 : ℚ) 2 (le_refl _) hd
    (by norm_num) (by norm_num)
  rw [k1, f1] at nd
  have hw : wrap_dphi (-1 / 2 : ℚ) > 1 := by
    norm_num [wrap_dphi, M_PI]
  have k2 : interp (fun i : ℤ => 2 * (i : ℚ) - 1) (wrap_dphi (-1 / 2)) 2 = 1 := by
    simp only [interp]
    rw [if_pos (by norm_num; linarith)]
    norm_num
  have f2 : ⌊(1 : ℚ) + 1 / 2⌋ = 1 := by
    rw [Int.floor_eq_iff]; norm_num
  have hset : setgeom azTables 0 0 (-1 / 2) = (0, 1536) := by
    simp only [setgeom, azTables, demoTables, Tables.refind_max, Tables.refen_size, k0, k2,
      f0, f2]
    norm_num
  refine ⟨⟨axis01_asc 2, axis01_asc 2, hd⟩, ?_, ?_, ?_, ns, ns, nd, hset, ?_⟩
  · norm_num [azTables, demoTables, axis01]
  · norm_num [azTables, demoTables, axis01]
  · norm_num [azTables, demoTables]
  · rw [hset]
    norm_num [azTables, demoTables]

end NearestProofs

section ShapeProofs

variable {K : Type} [LinearOrderedField K] [FloorRing K]

/-- A non-degenerate pass leaves `bb[i] = bb[bp[1]] * bn[i]` at every band and
`a[bp[0]] = eps_a * a[bp[1]]`. -/
theorem mod_iter_pass_shape (lm : Libm K) (T : Tables K) (c : Config K) (refind : ℤ)
    (rho_w init_a init_b : ℤ → K) (eps_a : K) (st : PassState K)
    (h : (mod_iter_pass lm T c refind rho_w init_a init_b eps_a st).1 = 0)
    (hp : lm.pow (T.lambda (c.bp 1) / c.scat_l) c.scat_n ≠ 0)
    (hb0 : 0 ≤ c.bp 1) (hb1 : c.bp 1 < NB) (hne : c.bp 0 ≠ c.bp 1) :
    (∀ i : ℤ, 0 ≤ i → i < NB →
        (mod_iter_pass lm T c refind rho_w init_a init_b eps_a st).2.1.bb i
          = (mod_iter_pass lm T c refind rho_w init_a init_b eps_a st).2.1.bb (c.bp 1)
            * bn_of lm T c i)
      ∧ (mod_iter_pass lm T c refind rho_w init_a init_b eps_a st).2.1.a (c.bp 0)
        = eps_a * (mod_iter_pass lm T c refind rho_w init_a init_b eps_a st).2.1.a (c.bp 1) := by
  have hbn : bn_of lm T c (c.bp 1) = 1 := by
    simp only [bn_of]
    exact div_self hp
  simp only [mod_iter_pass] at h ⊢
  generalize (if c.CASEII ≠ 0 then
      iter_ab2 (arr2 (rho_w (c.bp 0)) (rho_w (c.bp 1))) (arr2 (T.a_w (c.bp 0)) (T.a_w (c.bp 1)))
        (arr2 (bbw_of T c (c.bp 0)) (bbw_of T c (c.bp 1)))
        (arr2 (st.FC (c.bp 0)) (st.FC (c.bp 1))) (bn_of lm T c (c.bp 0)) eps_a
    else
      iter_ab (arr2 (rho_w (c.bp 0)) (rho_w (c.bp 1))) (arr2 (T.a_w (c.bp 0)) (T.a_w (c.bp 1)))
        (arr2 (bbw_of T c (c.bp 0)) (bbw_of T c (c.bp 1)))
        (arr2 (st.FC (c.bp 0)) (st.FC (c.bp 1))) (bn_of lm T c (c.bp 0)) eps_a) = r at h ⊢
  by_cases hr : r.1 ≠ 0
  · rw [if_pos hr] at h
    exact absurd h hr
  · rw [if_neg hr]
    constructor
    · intro i hi0 hi1
      simp only [setNB, hi0, hi1, hb0, hb1, and_self, if_true, hbn, mul_one]
    · simp only [setNB, ne_eq, not_true_eq_false, and_false, false_and, if_false,
        ite_self, Function.update_same, Function.update_noteq hne]
      ring

/-- When the iteration loop ends with `fail = 0`, the state it leaves is the output of a
non-degenerate pass. -/
theorem mod_iter_loop_fail_zero (lm : Libm K) (T : Tables K) (c : Config K) (refind : ℤ)
    (rho_w init_a init_b : ℤ → K) (eps_a : K) (fuel : ℕ) (iter : ℤ) (st : PassState K)
    (h : (mod_iter_loop lm T c refind rho_w init_a init_b eps_a fuel iter st).fail = 0) :
    ∃ s, (mod_iter_pass lm T c refind rho_w init_a init_b eps_a s).1 = 0
      ∧ (mod_iter_loop lm T c refind rho_w init_a init_b eps_a fuel iter st).st
        = (mod_iter_pass lm T c refind rho_w init_a init_b eps_a s).2.1 := by
  induction fuel generalizing iter st with
  | zero =>
    simp only [mod_iter_loop, mod_iter_step] at h ⊢
    by_cases hp : (mod_iter_pass lm T c refind rho_w init_a init_b eps_a st).1 ≠ 0
    · rw [if_pos hp] at h
      simp at h
    · rw [if_neg hp]
      exact ⟨st, not_not.mp hp, rfl⟩
  | succ k ih =>
    simp only [mod_iter_loop, mod_iter_step] at h ⊢
    by_cases hp : (mod_iter_pass lm T c refind rho_w init_a init_b eps_a st).1 ≠ 0
    · rw [if_pos hp] at h
      simp at h
    · rw [if_neg hp] at h ⊢
      simp only at h ⊢
      split_ifs at h ⊢ with ht
      · exact ih _ _ h
      · exact ⟨st, not_not.mp hp, rfl⟩

/-- When a seed of `mod_iter` ends with `fail = 0`, the arrays it leaves have the spectral
shape of a non-degenerate pass. -/
theorem mod_iter_seed_shape (lm : Libm K) (T : Tables K) (c : Config K)
    (sun_theta sen_theta dphi eps_a chl : K) (r : ModIterResult K)
    (h : (mod_iter_seed lm T c sun_theta sen_theta dphi eps_a chl r).fail = 0)
    (hp : lm.pow (T.lambda (c.bp 1) / c.scat_l) c.scat_n ≠ 0)
    (hb0 : 0 ≤ c.bp 1) (hb1 : c.bp 1 < NB) (hne : c.bp 0 ≠ c.bp 1) :
    (∀ i : ℤ, 0 ≤ i → i < NB →
        (mod_iter_seed lm T c sun_theta sen_theta dphi eps_a chl r).bb i
          = (mod_iter_seed lm T c sun_theta sen_theta dphi eps_a chl r).bb (c.bp 1)
            * bn_of lm T c i)
      ∧ (mod_iter_seed lm T c sun_theta sen_theta dphi eps_a chl r).a (c.bp 0)
        = eps_a * (mod_iter_seed lm T c sun_theta sen_theta dphi eps_a chl r).a (c.bp 1) := by
  rw [mod_iter_seed_eq] at h ⊢
  simp only at h ⊢
  split_ifs at h with hi
  · norm_num at h
  · obtain ⟨s, hs1, hs2⟩ := mod_iter_loop_fail_zero lm T c _ _ _ _ eps_a _ _ _ h
    rw [hs2]
    exact mod_iter_pass_shape lm T c _ _ _ _ eps_a s hs1 hp hb0 hb1 hne

/-- The seed loop keeps the spectral shape: when it ends with `fail = 0`, the arrays
it leaves have the shape of a non-degenerate pass, provided this holds on entry. -/
theorem mod_iter_seeds_shape (lm : Libm K) (T : Tables K) (c : Config K)
    (sun_theta sen_theta dphi eps_a : K) (l : List K) (r : ModIterResult K)
    (hp : lm.pow (T.lambda (c.bp 1) / c.scat_l) c.scat_n ≠ 0)
    (hb0 : 0 ≤ c.bp 1) (hb1 : c.bp 1 < NB) (hne : c.bp 0 ≠ c.bp 1)
    (hr : r.fail = 0 →
      (∀ i : ℤ, 0 ≤ i → i < NB → r.bb i = r.bb (c.bp 1) * bn_of lm T c i)
        ∧ r.a (c.bp 0) = eps_a * r.a (c.bp 1))
    (h : (mod_iter_seeds lm T c sun_theta sen_theta dphi eps_a l r).fail = 0) :
    (∀ i : ℤ, 0 ≤ i → i < NB →
        (mod_iter_seeds lm T c sun_theta sen_theta dphi eps_a l r).bb i
          = (mod_iter_seeds lm T c sun_theta sen_theta dphi eps_a l r).bb (c.bp 1)
            * bn_of lm T c i)
      ∧ (mod_iter_seeds lm T c sun_theta sen_theta dphi eps_a l r).a (c.bp 0)
        = eps_a * (mod_iter_seeds lm T c sun_theta sen_theta dphi eps_a l r).a (c.bp 1) := by
  induction l generalizing r with
  | nil =>
    simp only [mod_iter_seeds] at h ⊢
    exact hr h
  | cons chl rest ih =>
    simp only [mod_iter_seeds] at h ⊢
    split_ifs at h ⊢ with hf
    · exact ih _ (fun h2 => mod_iter_seed_shape lm T c sun_theta sen_theta dphi eps_a chl r h2
        hp hb0 hb1 hne) h
    · exact hr h

/-- C23. When the iterative `mod_iter` returns 0 (reference band `bp[1]` a band index,
`bp[0]` different from it, and a non-zero power `(lambda[bp[1]]/scat_l)^scat_n`), the
backscatter at every band `i` is `bb[bp[1]] * bn[i]` with
`bn[i] = (lambda[i]/scat_l)^scat_n / (lambda[bp[1]]/scat_l)^scat_n`, `bn[bp[1]] = 1`, and
`a[bp[0]] = eps_a * a[bp[1]]`. -/
theorem mod_iter_spectral_shape (lm : Libm K) (T : Tables K) (c : Config K) (refind : ℤ)
    (rho_w : ℤ → K) (sun_theta sen_theta dphi eps_a : K) (a bb : ℤ → K)
    (h : (mod_iter lm T c refind rho_w sun_theta sen_theta dphi eps_a a bb).fail = 0)
    (hp : lm.pow (T.lambda (c.bp 1) / c.scat_l) c.scat_n ≠ 0)
    (hb0 : 0 ≤ c.bp 1) (hb1 : c.bp 1 < NB) (hne : c.bp 0 ≠ c.bp 1) :
    (∀ i : ℤ, 0 ≤ i → i < NB →
        (mod_iter lm T c refind rho_w sun_theta sen_theta dphi eps_a a bb).bb i
          = (mod_iter lm T c refind rho_w sun_theta sen_theta dphi eps_a a bb).bb (c.bp 1)
            * (lm.pow (T.lambda i / c.scat_l) c.scat_n
              / lm.pow (T.lambda (c.bp 1) / c.scat_l) c.scat_n))
      ∧ lm.pow (T.lambda (c.bp 1) / c.scat_l) c.scat_n
          / lm.pow (T.lambda (c.bp 1) / c.scat_l) c.scat_n = 1
      ∧ (mod_iter lm T c refind rho_w sun_theta sen_theta dphi eps_a a bb).a (c.bp 0)
        = eps_a * (mod_iter lm T c refind rho_w sun_theta sen_theta dphi eps_a a bb).a
          (c.bp 1) := by
  obtain ⟨h1, h2⟩ := mod_iter_seeds_shape lm T c sun_theta sen_theta dphi eps_a init_chls
    ⟨2, a, bb, rho_w, refind, 0, 0⟩ hp hb0 hb1 hne
    (fun h0 => absurd h0 (by norm_num)) h
  exact ⟨h1, div_self hp, h2⟩

end ShapeProofs

section ShapeWitness

/-- Witness of C23: the flat tables with cap `maxit = 1` and the reflectance
`(1, 1, 2/3, 1, 1, 1)`, where `mod_iter` returns 0. -/
theorem mod_iter_spectral_shape_witness :
    (mod_iter flatLibm flatTables (flatConfig 1) 0 (flatPixel 1 (2 / 3) 1) 0 0 0
        (flatConfig 1).eps_a_init (fun _ => 0) (fun _ => 0)).a ((flatConfig 1).bp 0)
      = (flatConfig 1).eps_a_init
        * (mod_iter flatLibm flatTables (flatConfig 1) 0 (flatPixel 1 (2 / 3) 1) 0 0 0
          (flatConfig 1).eps_a_init (fun _ => 0) (fun _ => 0)).a ((flatConfig 1).bp 1) :=
  (mod_iter_spectral_shape flatLibm flatTables (flatConfig 1) 0 (flatPixel 1 (2 / 3) 1) 0 0 0
    (flatConfig 1).eps_a_init (fun _ => 0) (fun _ => 0)
    (flat_iop_B ⟨0, 443⟩ 0 0 0 (fun _ => 0) (fun _ => 0) (fun _ => 0) (fun _ => 0)).1.1
    (by norm_num [flatLibm]) (by norm_num [flatConfig]) (by norm_num [flatConfig, NB])
    (by norm_num [flatConfig])).2.2

end ShapeWitness

section CapProofs

variable {K : Type} [LinearOrderedField K] [FloorRing K]

/-- The iteration loop of `mod_iter` executes its body at least once and at most
`fuel + 1` times. -/
theorem mod_iter_loop_passes (lm : Libm K) (T : Tables K) (c : Config K) (refind : ℤ)
    (rho_w init_a init_b : ℤ → K) (eps_a : K) (fuel : ℕ) (iter : ℤ) (st : PassState K) :
    1 ≤ (mod_iter_loop lm T c refind rho_w init_a init_b eps_a fuel iter st).passes
      ∧ (mod_iter_loop lm T c refind rho_w init_a init_b eps_a fuel iter st).passes
        ≤ fuel + 1 := by
  induction fuel generalizing iter st with
  | zero =>
    simp only [mod_iter_loop, mod_iter_step]
    split_ifs <;> simp
  | succ k ih =>
    simp only [mod_iter_loop]
    split_ifs with ht
    · obtain ⟨h1, h2⟩ := ih (mod_iter_step lm T c refind rho_w init_a init_b eps_a iter st).1.iter
        (mod_iter_step lm T c refind rho_w init_a init_b eps_a iter st).1.st
      simp only
      omega
    · simp only [mod_iter_step]
      split_ifs <;> simp

/-- The iteration loop of `mod_iter` does not depend on the passes allowed beyond its cap:
once `maxit <= iter + fuel`, more fuel gives the same outcome. -/
theorem mod_iter_loop_fuel (lm : Libm K) (T : Tables K) (c : Config K) (refind : ℤ)
    (rho_w init_a init_b : ℤ → K) (eps_a : K) (fuel : ℕ) (iter : ℤ) (st : PassState K)
    (hfuel : c.maxit ≤ iter + fuel) (more : ℕ) :
    mod_iter_loop lm T c refind rho_w init_a init_b eps_a (fuel + more) iter st
      = mod_iter_loop lm T c refind rho_w init_a init_b eps_a fuel iter st := by
  induction fuel generalizing iter st with
  | zero =>
    have hno : (mod_iter_step lm T c refind rho_w init_a init_b eps_a iter st).2 = false := by
      simp only [mod_iter_step]
      split_ifs
      · rfl
      · simp only [decide_eq_false_iff_not, not_and]
        intro h
        simp only [Nat.cast_zero, add_zero] at hfuel
        omega
    cases more with
    | zero => rfl
    | succ m =>
      simp only [zero_add, mod_iter_loop, hno]
      simp
  | succ k ih =>
    have e : k + 1 + more = (k + more) + 1 := by omega
    rw [e]
    simp only [mod_iter_loop]
    split_ifs with ht
    · have hiter : (mod_iter_step lm T c refind rho_w init_a init_b eps_a iter st).1.iter
          = iter + 1 := by
        simp only [mod_iter_step] at ht ⊢
        by_cases hp : (mod_iter_pass lm T c refind rho_w init_a init_b eps_a st).1 ≠ 0
        · rw [if_pos hp] at ht
          simp at ht
        · rw [if_neg hp]
      rw [ih _ _ (by rw [hiter]; push_cast at hfuel; omega)]
    · rfl

/-- A seed of `mod_iter` executes the body of its iteration at least once and at most
`maxit + 1` times (once when `maxit` is negative). -/
theorem mod_iter_seed_passes (lm : Libm K) (T : Tables K) (c : Config K)
    (sun_theta sen_theta dphi eps_a chl : K) (r : ModIterResult K) :
    r.passes + 1 ≤ (mod_iter_seed lm T c sun_theta sen_theta dphi eps_a chl r).passes
      ∧ (mod_iter_seed lm T c sun_theta sen_theta dphi eps_a chl r).passes
        ≤ r.passes + (c.maxit.toNat + 1)
      ∧ (mod_iter_seed lm T c sun_theta sen_theta dphi eps_a chl r).cc = r.cc + 1 := by
  rw [mod_iter_seed_eq]
  simp only
  obtain ⟨h1, h2⟩ := mod_iter_loop_passes lm T c (setgeom T sun_theta sen_theta dphi).2
    (seed_rho r) (fun i => geo2iop lm T.ch_lev T.ac i chl T.ch_n)
    (fun i => geo2iop lm T.ch_lev T.bc i chl T.ch_n) eps_a c.maxit.toNat 0
    (seed_state lm T c sun_theta sen_theta dphi chl r)
  refine ⟨by omega, by omega, trivial⟩

/-- The seed loop of `mod_iter` over the seeds `l` runs at most `l.length` seeds and at most
`l.length * (maxit + 1)` passes. -/
theorem mod_iter_seeds_passes (lm : Libm K) (T : Tables K) (c : Config K)
    (sun_theta sen_theta dphi eps_a : K) (l : List K) (r : ModIterResult K) :
    (mod_iter_seeds lm T c sun_theta sen_theta dphi eps_a l r).passes
        ≤ r.passes + l.length * (c.maxit.toNat + 1)
      ∧ (mod_iter_seeds lm T c sun_theta sen_theta dphi eps_a l r).cc ≤ r.cc + l.length := by
  induction l generalizing r with
  | nil => simp [mod_iter_seeds]
  | cons chl rest ih =>
    simp only [mod_iter_seeds]
    split_ifs with hf
    · obtain ⟨h1, h2⟩ := ih (mod_iter_seed lm T c sun_theta sen_theta dphi eps_a chl r)
      obtain ⟨_, s2, s3⟩ := mod_iter_seed_passes lm T c sun_theta sen_theta dphi eps_a chl r
      rw [s3] at h2
      constructor
      · calc _ ≤ _ := h1
          _ ≤ r.passes + (c.maxit.toNat + 1) + rest.length * (c.maxit.toNat + 1) := by omega
          _ = r.passes + (chl :: rest).length * (c.maxit.toNat + 1) := by
            simp only [List.length_cons]
            ring
      · simp only [List.length_cons]
        push_cast
        omega
    · constructor
      · exact Nat.le_add_right _ _
      · have : (0 : ℤ) ≤ ((chl :: rest).length : ℤ) := Int.natCast_nonneg _
        omega

/-- The bisection loop evaluates one midpoint per pass: the number of midpoints is the
number of passes. -/
theorem biogeochem_loop_args_length (lm : Libm K) (a412 a443 : K) (k : ℕ)
    (st : BisectState K) :
    ((biogeochem_loop_args lm a412 a443 k st).length : ℤ)
      = (biogeochem_loop lm a412 a443 k st).iter - st.iter := by
  induction k generalizing st with
  | zero =>
    simp [biogeochem_loop_args, biogeochem_loop, biogeochem_step]
  | succ k ih =>
    simp only [biogeochem_loop_args, biogeochem_loop]
    split_ifs with ht
    · rw [List.length_cons]
      push_cast
      rw [ih]
      have e : (biogeochem_step lm a412 a443 st).1.iter = st.iter + 1 := rfl
      rw [e]
      ring
    · simp [biogeochem_step]

/-- The bisection loop does not depend on the passes allowed beyond its cap: once
`20 <= iter + fuel`, more fuel gives the same outcome. -/
theorem biogeochem_loop_fuel (lm : Libm K) (a412 a443 : K) (fuel : ℕ) (st : BisectState K)
    (hfuel : 20 ≤ st.iter + fuel) (more : ℕ) :
    biogeochem_loop lm a412 a443 (fuel + more) st = biogeochem_loop lm a412 a443 fuel st := by
  induction fuel generalizing st with
  | zero =>
    have hno : (biogeochem_step lm a412 a443 st).2 = false := by
      simp only [biogeochem_step, decide_eq_false_iff_not, not_and]
      intro h
      simp only [Nat.cast_zero, add_zero] at hfuel
      omega
    cases more with
    | zero => rfl
    | succ m =>
      simp only [zero_add, biogeochem_loop, hno]
      simp
  | succ k ih =>
    have e : k + 1 + more = (k + more) + 1 := by omega
    rw [e]
    simp only [biogeochem_loop]
    split_ifs with ht
    · have hiter : (biogeochem_step lm a412 a443 st).1.iter = st.iter + 1 := rfl
      rw [ih _ (by rw [hiter]; push_cast at hfuel; omega)]
    · rfl

/-- C25 (amended). Per-pixel work is bounded by the fixed caps, with one more pass than the
caps: for every input the iterative `mod_iter` runs at most 5 seeds and executes the body of
its f/Q iteration at most `maxit + 1` times for each seed (between 1 and `maxit + 1` times;
once when `maxit < 0`), hence at most `5 * (maxit + 1)` times; `biogeochem_iter` evaluates the
two bracket ends and at most 21 bisection midpoints.  Both loops terminate: allowing more
passes than the cap never changes their outcome. -/
theorem iteration_caps (lm : Libm K) (T : Tables K) (c : Config K) (refind : ℤ)
    (rho_w : ℤ → K) (sun_theta sen_theta dphi eps_a : K) (a bb : ℤ → K) (a412 a443 : K) :
    (mod_iter lm T c refind rho_w sun_theta sen_theta dphi eps_a a bb).cc ≤ 5
      ∧ (mod_iter lm T c refind rho_w sun_theta sen_theta dphi eps_a a bb).passes
        ≤ 5 * (c.maxit.toNat + 1)
      ∧ (∀ (chl : K) (r : ModIterResult K),
          r.passes + 1 ≤ (mod_iter_seed lm T c sun_theta sen_theta dphi eps_a chl r).passes
            ∧ (mod_iter_seed lm T c sun_theta sen_theta dphi eps_a chl r).passes
              ≤ r.passes + (c.maxit.toNat + 1))
      ∧ (biogeochem_iter_args lm a412 a443).length ≤ 2 + 21
      ∧ (∀ (more : ℕ) (init_a init_b rho : ℤ → K) (st : PassState K),
          mod_iter_loop lm T c refind rho init_a init_b eps_a (c.maxit.toNat + more) 0 st
            = mod_iter_loop lm T c refind rho init_a init_b eps_a c.maxit.toNat 0 st)
      ∧ (∀ (more : ℕ) (st : BisectState K), st.iter = 0 →
          biogeochem_loop lm a412 a443 (20 + more) st = biogeochem_loop lm a412 a443 20 st) := by
  refine ⟨?_, ?_, ?_, ?_, ?_, ?_⟩
  · have := (mod_iter_seeds_passes lm T c sun_theta sen_theta dphi eps_a init_chls
      ⟨2, a, bb, rho_w, refind, 0, 0⟩).2
    simp only [init_chls, List.length_cons, List.length_nil] at this
    unfold mod_iter init_chls
    norm_num at this ⊢
    exact this
  · have := (mod_iter_seeds_passes lm T c sun_theta sen_theta dphi eps_a init_chls
      ⟨2, a, bb, rho_w, refind, 0, 0⟩).1
    simp only [init_chls, List.length_cons, List.length_nil] at this
    unfold mod_iter init_chls
    norm_num at this ⊢
    exact this
  · intro chl r
    obtain ⟨h1, h2, _⟩ := mod_iter_seed_passes lm T c sun_theta sen_theta dphi eps_a chl r
    exact ⟨h1, h2⟩
  · simp only [biogeochem_iter_args, List.length_cons]
    have h := biogeochem_loop_args_length lm a412 a443 20
      ⟨1 / 100 * a443, a443 - 1 / 1000, 0, (biogeochem_mod lm a443 (a443 - 1 / 1000)).1,
        (biogeochem_mod lm a443 (a443 - 1 / 1000)).2.1,
        (biogeochem_mod lm a443 (a443 - 1 / 1000)).2.2, 0⟩
    have h2 := (biogeochem_loop_iter lm a412 a443 20
      ⟨1 / 100 * a443, a443 - 1 / 1000, 0, (biogeochem_mod lm a443 (a443 - 1 / 1000)).1,
        (biogeochem_mod lm a443 (a443 - 1 / 1000)).2.1,
        (biogeochem_mod lm a443 (a443 - 1 / 1000)).2.2, 0⟩).2
    simp only at h h2
    omega
  · intro more init_a init_b rho st
    exact mod_iter_loop_fuel lm T c refind rho init_a init_b eps_a c.maxit.toNat 0 st
      (by have := Int.self_le_toNat c.maxit; omega) more
  · intro more st hst
    exact biogeochem_loop_fuel lm a412 a443 20 st (by rw [hst]; norm_num) more

end CapProofs

section BracketProofs

variable {K : Type} [LinearOrderedField K] [FloorRing K]

/-- The first value passed by the bisection loop is the midpoint of the bracket on entry. -/
theorem biogeochem_loop_args_head (lm : Libm K) (a412 a443 : K) (k : ℕ) (st : BisectState K) :
    ∃ rest, biogeochem_loop_args lm a412 a443 k st = (1 / 2 * (st.lower + st.upper)) :: rest := by
  cases k with
  | zero => exact ⟨[], rfl⟩
  | succ k =>
    simp only [biogeochem_loop_args]
    split_ifs
    · exact ⟨_, rfl⟩
    · exact ⟨[], rfl⟩

/-- Every midpoint passed by the bisection loop lies in the bracket on entry, when this
bracket is ordered. -/
theorem biogeochem_loop_args_bracket (lm : Libm K) (a412 a443 lo hi : K) (k : ℕ)
    (st : BisectState K) (h1 : lo ≤ st.lower) (h2 : st.lower ≤ st.upper) (h3 : st.upper ≤ hi) :
    ∀ x ∈ biogeochem_loop_args lm a412 a443 k st, lo ≤ x ∧ x ≤ hi := by
  have hm : lo ≤ 1 / 2 * (st.lower + st.upper) ∧ 1 / 2 * (st.lower + st.upper) ≤ hi :=
    ⟨by linarith, by linarith⟩
  induction k generalizing st with
  | zero =>
    intro x hx
    simp only [biogeochem_loop_args, biogeochem_step, List.mem_singleton] at hx
    rw [hx]
    exact hm
  | succ k ih =>
    intro x hx
    simp only [biogeochem_loop_args] at hx
    split_ifs at hx with ht
    · rcases List.mem_cons.mp hx with e | e
      · rw [e]
        exact hm
      · have g1 : lo ≤ (biogeochem_step lm a412 a443 st).1.lower := by
          simp only [biogeochem_step]
          split_ifs <;> linarith
        have g2 : (biogeochem_step lm a412 a443 st).1.lower
            ≤ (biogeochem_step lm a412 a443 st).1.upper := by
          simp only [biogeochem_step]
          split_ifs <;> linarith
        have g3 : (biogeochem_step lm a412 a443 st).1.upper ≤ hi := by
          simp only [biogeochem_step]
          split_ifs <;> linarith
        exact ih _ g1 g2 g3 ⟨by linarith, by linarith⟩ x e
    · rw [List.mem_singleton] at hx
      rw [hx]
      exact hm

/-- For `a443 > 0.001/0.99` the initial bracket of `biogeochem_iter` is ordered and every value
passed to `biogeochem_mod` lies in it, strictly between 0 and `a443`. -/
theorem biogeochem_iter_args_bracket (lm : Libm K) (a412 a443 : K)
    (h : 1 / 1000 < 99 / 100 * a443) :
    ∀ x ∈ biogeochem_iter_args lm a412 a443,
      (1 / 100 * a443 ≤ x ∧ x ≤ a443 - 1 / 1000) ∧ 0 < x ∧ x < a443 ∧ 0 < a443 - x := by
  have key : ∀ x ∈ biogeochem_iter_args lm a412 a443,
      1 / 100 * a443 ≤ x ∧ x ≤ a443 - 1 / 1000 := by
    intro x hx
    simp only [biogeochem_iter_args] at hx
    rcases List.mem_cons.mp hx with e | hx
    · rw [e]
      exact ⟨le_refl _, by linarith⟩
    · rcases List.mem_cons.mp hx with e | hx
      · rw [e]
        exact ⟨by linarith, le_refl _⟩
      · exact biogeochem_loop_args_bracket lm a412 a443 _ _ 20 _ (le_refl _) (by simp only; linarith)
          (le_refl _) x hx
  intro x hx
  obtain ⟨k1, k2⟩ := key x hx
  exact ⟨⟨k1, k2⟩, by linarith, by linarith, by linarith⟩

end BracketProofs

section BracketClaims

/-- C27 (code evaluated at the failing input). For `a443 = 0.0005 > 0` (and any `a412`, any
library functions) the values passed as `ady443` to `biogeochem_mod` by `biogeochem_iter`
start with the lower bracket end `0.000005`, the upper bracket end `-0.0005` and the first
midpoint `-0.0002475`: the bracket is inverted and the last two values are negative, so
`log10(ady443)` is taken of a negative number. -/
theorem biogeochem_iter_args_small_a443 (lm : Libm ℚ) (a412 : ℚ) :
    (0 : ℚ) < 1 / 2000
      ∧ ∃ rest, biogeochem_iter_args lm a412 (1 / 2000)
          = 1 / 200000 :: -1 / 2000 :: -99 / 400000 :: rest := by
  refine ⟨by norm_num, ?_⟩
  simp only [biogeochem_iter_args]
  obtain ⟨rest, hr⟩ := biogeochem_loop_args_head lm a412 (1 / 2000) 20
    ⟨1 / 100 * (1 / 2000), 1 / 2000 - 1 / 1000, 0,
      (biogeochem_mod lm (1 / 2000) (1 / 2000 - 1 / 1000)).1,
      (biogeochem_mod lm (1 / 2000) (1 / 2000 - 1 / 1000)).2.1,
      (biogeochem_mod lm (1 / 2000) (1 / 2000 - 1 / 1000)).2.2, 0⟩
  refine ⟨rest, ?_⟩
  rw [hr]
  norm_num

/-- With `flatLibm` and `a412 = 1` the residual of every midpoint is 1, and the bisection
loop entered with `iter + fuel = 20` evaluates `fuel + 1` midpoints. -/
theorem flat_biogeochem_loop_args_length (a443 : ℚ) (k : ℕ) (st : BisectState ℚ)
    (h : st.iter + k = 20) :
    (biogeochem_loop_args flatLibm 1 a443 k st).length = k + 1 := by
  induction k generalizing st with
  | zero => rfl
  | succ k ih =>
    have ht : (biogeochem_step flatLibm 1 a443 st).2 = true := by
      simp only [biogeochem_step, flat_biogeochem_mod, decide_eq_true_eq]
      push_cast at h
      refine ⟨by omega, ?_⟩
      norm_num
    simp only [biogeochem_loop_args, ht, if_true, List.length_cons]
    rw [ih]
    have e : (biogeochem_step flatLibm 1 a443 st).1.iter = st.iter + 1 := rfl
    rw [e]
    push_cast at h ⊢
    omega

end BracketClaims

section CapCounter

/-- The pass of `mod_iter` does not read the tolerance: with `flatConfig0` it is the pass of
`flatConfig 1`. -/
theorem flatConfig0_pass (refind : ℤ) (rho init_a init_b : ℤ → ℚ) (eps_a : ℚ)
    (st : PassState ℚ) :
    mod_iter_pass flatLibm flatTables flatConfig0 refind rho init_a init_b eps_a st
      = mod_iter_pass flatLibm flatTables (flatConfig 1) refind rho init_a init_b eps_a st :=
  rfl

/-- The state prepared by a seed does not read the tolerance. -/
theorem flatConfig0_seed_state (sun_theta sen_theta dphi chl : ℚ) (r : ModIterResult ℚ) :
    seed_state flatLibm flatTables flatConfig0 sun_theta sen_theta dphi chl r
      = seed_state flatLibm flatTables (flatConfig 1) sun_theta sen_theta dphi chl r :=
  rfl

/-- The sum of absolute f/Q changes returned by a pass is never negative. -/
theorem mod_iter_pass_df_nonneg {K : Type} [LinearOrderedField K] [FloorRing K]
    (lm : Libm K) (T : Tables K) (c : Config K) (refind : ℤ)
    (rho_w init_a init_b : ℤ → K) (eps_a : K) (st : PassState K) :
    0 ≤ (mod_iter_pass lm T c refind rho_w init_a init_b eps_a st).2.2 := by
  simp only [mod_iter_pass]
  generalize (if c.CASEII ≠ 0 then
      iter_ab2 (arr2 (rho_w (c.bp 0)) (rho_w (c.bp 1))) (arr2 (T.a_w (c.bp 0)) (T.a_w (c.bp 1)))
        (arr2 (bbw_of T c (c.bp 0)) (bbw_of T c (c.bp 1)))
        (arr2 (st.FC (c.bp 0)) (st.FC (c.bp 1))) (bn_of lm T c (c.bp 0)) eps_a
    else
      iter_ab (arr2 (rho_w (c.bp 0)) (rho_w (c.bp 1))) (arr2 (T.a_w (c.bp 0)) (T.a_w (c.bp 1)))
        (arr2 (bbw_of T c (c.bp 0)) (bbw_of T c (c.bp 1)))
        (arr2 (st.FC (c.bp 0)) (st.FC (c.bp 1))) (bn_of lm T c (c.bp 0)) eps_a) = r
  by_cases hr : r.1 ≠ 0
  · rw [if_pos hr]
  · rw [if_neg hr]
    exact add_nonneg (abs_nonneg _) (abs_nonneg _)

/-- On the flat tables with the cap `maxit = 1` and the tolerance 0, the first seed of
`mod_iter` executes the body of its iteration twice for the reflectance
`(1, 1, 2/3, 1, 1, 1)`. -/
theorem flatConfig0_seed_passes :
    (mod_iter_seed flatLibm flatTables flatConfig0 0 0 0 2 20
      ⟨2, fun _ => 0, fun _ => 0, flatPixel 1 (2 / 3) 1, 0, 0, 0⟩).passes = 2 := by
  have hp := ((converges_at_zero _ _ _).mp (flat_first_pass 1 0 (flatPixel 1 (2 / 3) 1)
    (fun _ => 0) (fun _ => 0) 0 0 0 1 1
    (flatPixel_nonneg 1 (2 / 3) 1 (by norm_num) (by norm_num) (by norm_num)) flat_solve_B).1).1
  rw [mod_iter_seed_eq]
  simp only [zero_add]
  have hm : flatConfig0.maxit.toNat = 1 := rfl
  rw [hm]
  have hstep : (mod_iter_step flatLibm flatTables flatConfig0 (setgeom flatTables 0 0 0).2
      (seed_rho ⟨2, fun _ => 0, fun _ => 0, flatPixel 1 (2 / 3) 1, 0, 0, 0⟩)
      (fun i => geo2iop flatLibm flatTables.ch_lev flatTables.ac i 20 flatTables.ch_n)
      (fun i => geo2iop flatLibm flatTables.ch_lev flatTables.bc i 20 flatTables.ch_n) 2 0
      (seed_state flatLibm flatTables flatConfig0 0 0 0 20
        ⟨2, fun _ => 0, fun _ => 0, flatPixel 1 (2 / 3) 1, 0, 0, 0⟩)).2 = true := by
    simp only [mod_iter_step]
    rw [flatConfig0_pass, flatConfig0_seed_state]
    unfold seed_pass at hp
    rw [if_neg (not_not.mpr hp)]
    simp only [decide_eq_true_eq]
    exact ⟨by norm_num [flatConfig0, flatConfig], mod_iter_pass_df_nonneg _ _ _ _ _ _ _ _ _⟩
  simp only [mod_iter_loop, hstep, if_true]
  have := mod_iter_loop_passes flatLibm flatTables flatConfig0 (setgeom flatTables 0 0 0).2
    (seed_rho ⟨2, fun _ => 0, fun _ => 0, flatPixel 1 (2 / 3) 1, 0, 0, 0⟩)
    (fun i => geo2iop flatLibm flatTables.ch_lev flatTables.ac i 20 flatTables.ch_n)
    (fun i => geo2iop flatLibm flatTables.ch_lev flatTables.bc i 20 flatTables.ch_n) 2 0
  simp only [mod_iter_loop, zero_add] at this
  have h2 := this
    (mod_iter_step flatLibm flatTables flatConfig0 (setgeom flatTables 0 0 0).2
      (seed_rho ⟨2, fun _ => 0, fun _ => 0, flatPixel 1 (2 / 3) 1, 0, 0, 0⟩)
      (fun i => geo2iop flatLibm flatTables.ch_lev flatTables.ac i 20 flatTables.ch_n)
      (fun i => geo2iop flatLibm flatTables.ch_lev flatTables.bc i 20 flatTables.ch_n) 2 0
      (seed_state flatLibm flatTables flatConfig0 0 0 0 20
        ⟨2, fun _ => 0, fun _ => 0, flatPixel 1 (2 / 3) 1, 0, 0, 0⟩)).1.iter
    (mod_iter_step flatLibm flatTables flatConfig0 (setgeom flatTables 0 0 0).2
      (seed_rho ⟨2, fun _ => 0, fun _ => 0, flatPixel 1 (2 / 3) 1, 0, 0, 0⟩)
      (fun i => geo2iop flatLibm flatTables.ch_lev flatTables.ac i 20 flatTables.ch_n)
      (fun i => geo2iop flatLibm flatTables.ch_lev flatTables.bc i 20 flatTables.ch_n) 2 0
      (seed_state flatLibm flatTables flatConfig0 0 0 0 20
        ⟨2, fun _ => 0, fun _ => 0, flatPixel 1 (2 / 3) 1, 0, 0, 0⟩)).1.st
  omega

/-- C25 (counterexample). With the cap `maxit = 1` (flat tables, tolerance 0, reflectance
`(1, 1, 2/3, 1, 1, 1)`) the first seed of `mod_iter` executes the body of its iteration twice;
and `biogeochem_iter` (library functions `flatLibm`, `a412 = a443 = 1`, residual 1 at every
midpoint) evaluates the two bracket ends and 21 bisection midpoints. -/
theorem iteration_caps_counterexample :
    flatConfig0.maxit = 1
      ∧ (mod_iter_seed flatLibm flatTables flatConfig0 0 0 0 2 20
          ⟨2, fun _ => 0, fun _ => 0, flatPixel 1 (2 / 3) 1, 0, 0, 0⟩).passes = 2
      ∧ (biogeochem_iter_args flatLibm 1 1).length = 2 + 21 := by
  refine ⟨rfl, flatConfig0_seed_passes, ?_⟩
  simp only [biogeochem_iter_args, List.length_cons]
  rw [flat_biogeochem_loop_args_length 1 20 _ (by norm_num)]

end CapCounter

section GuardProofs

variable {K : Type} [LinearOrderedField K] [FloorRing K]

/-- The value left in `FC[i]` by a non-degenerate pass: the recomputed value, or
`f_ab(init_a[i], init_b[i], i)` when the recomputed value is below `-2`. -/
theorem mod_iter_pass_FC (lm : Libm K) (T : Tables K) (c : Config K) (refind : ℤ)
    (rho_w init_a init_b : ℤ → K) (eps_a : K) (st : PassState K) (i : ℤ)
    (h : (mod_iter_pass lm T c refind rho_w init_a init_b eps_a st).1 = 0) :
    (mod_iter_pass lm T c refind rho_w init_a init_b eps_a st).2.1.FC i
      = (if FC_of lm T c refind
            ((mod_iter_pass lm T c refind rho_w init_a init_b eps_a st).2.1.a i)
            ((mod_iter_pass lm T c refind rho_w init_a init_b eps_a st).2.1.bb i / c.b_tilde_p)
            ((mod_iter_pass lm T c refind rho_w init_a init_b eps_a st).2.1.bb i) i < -2
          then f_ab lm T refind (init_a i) (init_b i) i
          else FC_of lm T c refind
            ((mod_iter_pass lm T c refind rho_w init_a init_b eps_a st).2.1.a i)
            ((mod_iter_pass lm T c refind rho_w init_a init_b eps_a st).2.1.bb i / c.b_tilde_p)
            ((mod_iter_pass lm T c refind rho_w init_a init_b eps_a st).2.1.bb i) i) := by
  simp only [mod_iter_pass] at h ⊢
  generalize (if c.CASEII ≠ 0 then
      iter_ab2 (arr2 (rho_w (c.bp 0)) (rho_w (c.bp 1))) (arr2 (T.a_w (c.bp 0)) (T.a_w (c.bp 1)))
        (arr2 (bbw_of T c (c.bp 0)) (bbw_of T c (c.bp 1)))
        (arr2 (st.FC (c.bp 0)) (st.FC (c.bp 1))) (bn_of lm T c (c.bp 0)) eps_a
    else
      iter_ab (arr2 (rho_w (c.bp 0)) (rho_w (c.bp 1))) (arr2 (T.a_w (c.bp 0)) (T.a_w (c.bp 1)))
        (arr2 (bbw_of T c (c.bp 0)) (bbw_of T c (c.bp 1)))
        (arr2 (st.FC (c.bp 0)) (st.FC (c.bp 1))) (bn_of lm T c (c.bp 0)) eps_a) = r at h ⊢
  by_cases hr : r.1 ≠ 0
  · rw [if_pos hr] at h
    exact absurd h hr
  · rw [if_neg hr]

/-- In the Case I formulation the value stored by the instability guard is the value `FC[i]`
had at the initial guess of the seed. -/
theorem mod_iter_guard_case1 (lm : Libm K) (T : Tables K) (c : Config K)
    (sun_theta sen_theta dphi eps_a chl : K) (r : ModIterResult K) (st : PassState K) (i : ℤ)
    (hc : c.CASEII = 0)
    (h : (seed_pass lm T c sun_theta sen_theta dphi eps_a chl r st).1 = 0)
    (hlow : FC_of lm T c (setgeom T sun_theta sen_theta dphi).2
      ((seed_pass lm T c sun_theta sen_theta dphi eps_a chl r st).2.1.a i)
      ((seed_pass lm T c sun_theta sen_theta dphi eps_a chl r st).2.1.bb i / c.b_tilde_p)
      ((seed_pass lm T c sun_theta sen_theta dphi eps_a chl r st).2.1.bb i) i < -2) :
    (seed_pass lm T c sun_theta sen_theta dphi eps_a chl r st).2.1.FC i
      = (seed_state lm T c sun_theta sen_theta dphi chl r).FC i := by
  unfold seed_pass at h hlow ⊢
  rw [mod_iter_pass_FC lm T c _ _ _ _ eps_a st i h, if_pos hlow]
  simp only [seed_state, FC_of, hc, ne_eq, not_true_eq_false, if_false]

end GuardProofs

section GuardCase2

/-- On the constant table the f/Q value at `a = -7/5`, `b = 1` is 1. -/
theorem flat_f_ab_neg (refind band : ℤ) :
    f_ab flatLibm flatTables refind (-7 / 5) 1 band = 1 := by
  have h1 : interp_l flatLibm axis01 1 16 = 1 := flat_interp_l_one flatLibm
  have hs : segment axis01 (-7 / 5) 16 = 0 :=
    segment_zero_of_le axis01 (-7 / 5) 16 (by norm_num) (by norm_num [axis01])
  have h2 : interp_l flatLibm axis01 (-7 / 5) 16 = -7 / 5 := by
    simp only [interp_l, hs]
    norm_num [axis01]
  have hlo : fint_lo (1 : ℚ) = 1 := by
    unfold fint_lo
    rw [if_pos (by norm_num)]
    exact Int.floor_one
  have hlo2 : fint_lo (-7 / 5 : ℚ) = 0 := by
    unfold fint_lo
    rw [if_neg (by norm_num)]
  unfold f_ab
  show fint flatTables refind (interp_l flatLibm axis01 (-7 / 5) 16)
    (interp_l flatLibm axis01 1 16) band = 1
  rw [h1, h2]
  unfold fint
  simp only [hlo, hlo2, flatTables]
  norm_num

/-- The Case II solve of the reference pair `(4/5, 1)` with `F = (2, 2)` on the flat tables
gives `a = bb = 1`. -/
theorem flat_solve_case2 :
    iter_ab2 (arr2 (4 / 5 : ℚ) 1) (arr2 1 1) (arr2 1 1) (arr2 2 2) 1 2 = (0, 1, 1) := by
  norm_num [iter_ab2, arr2]

/-- C26 (code evaluated at the failing input). Case II formulation on the flat tables,
first seed (chlorophyll 20), reflectance `(5/2, 1, 4/5, 1, 1, 1)`: the value assigned to
`FC[0]` before the first iteration is 2; the first pass is not degenerate and recomputes
`FC[0] = -4 < -2`; the guard replaces it by `f_ab(init_a[0], init_b[0], 0) = 1`, which is not
the initial value 2. -/
theorem mod_iter_guard_case2 :
    flatConfig2.CASEII ≠ 0
      ∧ (seed_state flatLibm flatTables flatConfig2 0 0 0 20
          ⟨2, fun _ => 0, fun _ => 0, flatPixel (5 / 2) (4 / 5) 1, 0, 0, 0⟩).FC 0 = 2
      ∧ (seed_pass flatLibm flatTables flatConfig2 0 0 0 2 20
          ⟨2, fun _ => 0, fun _ => 0, flatPixel (5 / 2) (4 / 5) 1, 0, 0, 0⟩
          (seed_state flatLibm flatTables flatConfig2 0 0 0 20
            ⟨2, fun _ => 0, fun _ => 0, flatPixel (5 / 2) (4 / 5) 1, 0, 0, 0⟩)).1 = 0
      ∧ FC_of flatLibm flatTables flatConfig2 (setgeom flatTables 0 0 0).2
          ((seed_pass flatLibm flatTables flatConfig2 0 0 0 2 20
            ⟨2, fun _ => 0, fun _ => 0, flatPixel (5 / 2) (4 / 5) 1, 0, 0, 0⟩
            (seed_state flatLibm flatTables flatConfig2 0 0 0 20
              ⟨2, fun _ => 0, fun _ => 0, flatPixel (5 / 2) (4 / 5) 1, 0, 0, 0⟩)).2.1.a 0)
          ((seed_pass flatLibm flatTables flatConfig2 0 0 0 2 20
            ⟨2, fun _ => 0, fun _ => 0, flatPixel (5 / 2) (4 / 5) 1, 0, 0, 0⟩
            (seed_state flatLibm flatTables flatConfig2 0 0 0 20
              ⟨2, fun _ => 0, fun _ => 0, flatPixel (5 / 2) (4 / 5) 1, 0, 0, 0⟩)).2.1.bb 0
            / flatConfig2.b_tilde_p)
          ((seed_pass flatLibm flatTables flatConfig2 0 0 0 2 20
            ⟨2, fun _ => 0, fun _ => 0, flatPixel (5 / 2) (4 / 5) 1, 0, 0, 0⟩
            (seed_state flatLibm flatTables flatConfig2 0 0 0 20
              ⟨2, fun _ => 0, fun _ => 0, flatPixel (5 / 2) (4 / 5) 1, 0, 0, 0⟩)).2.1.bb 0) 0
        = -4
      ∧ (seed_pass flatLibm flatTables flatConfig2 0 0 0 2 20
          ⟨2, fun _ => 0, fun _ => 0, flatPixel (5 / 2) (4 / 5) 1, 0, 0, 0⟩
          (seed_state flatLibm flatTables flatConfig2 0 0 0 20
            ⟨2, fun _ => 0, fun _ => 0, flatPixel (5 / 2) (4 / 5) 1, 0, 0, 0⟩)).2.1.FC 0 = 1 := by
  have g : ∀ band : ℤ, geo2iop flatLibm flatTables.ch_lev flatTables.ac band 20 flatTables.ch_n
      = 1 := fun band => flat_geo2iop flatLibm band 20 (by norm_num)
  have g2 : ∀ band : ℤ, geo2iop flatLibm flatTables.ch_lev flatTables.bc band 20
      flatTables.ch_n = 1 := fun band => flat_geo2iop flatLibm band 20 (by norm_num)
  have e1 : flatConfig2.bp 0 = 2 := rfl
  have e2 : flatConfig2.bp 1 = 3 := rfl
  have e3 : flatConfig2.CASEII = 1 := rfl
  have e4 : flatConfig2.b_tilde_p = 1 := rfl
  have ebn : ∀ i, bn_of flatLibm flatTables flatConfig2 i = 1 := by
    intro i; simp [bn_of, flatLibm]
  have ebw : ∀ i, bbw_of flatTables flatConfig2 i = 1 := by
    intro i; simp [bbw_of, flatTables, flatConfig2, flatConfig]
  have eaw : ∀ i, flatTables.a_w i = 1 := fun _ => rfl
  have hFC : (seed_state flatLibm flatTables flatConfig2 0 0 0 20
      ⟨2, fun _ => 0, fun _ => 0, flatPixel (5 / 2) (4 / 5) 1, 0, 0, 0⟩).FC = fun _ => 2 := by
    funext i
    simp only [seed_state, g, g2, FC_of, e3, e4, ebw, eaw, flat_f_ab_one]
    norm_num
  have hrho : seed_rho (⟨2, fun _ => 0, fun _ => 0, flatPixel (5 / 2) (4 / 5) 1, 0, 0, 0⟩ :
      ModIterResult ℚ) = flatPixel (5 / 2) (4 / 5) 1 := by
    funext i
    have hpos := flatPixel_nonneg (5 / 2) (4 / 5) 1 (by norm_num) (by norm_num) (by norm_num) i
    simp only [seed_rho, setNB]
    split_ifs with h1 h2
    · exact absurd h2 (not_lt.mpr hpos)
    · rfl
    · rfl
  have r2 : flatPixel (5 / 2) (4 / 5) 1 2 = 4 / 5 := by norm_num [flatPixel]
  have r3 : flatPixel (5 / 2) (4 / 5) 1 3 = 1 := by norm_num [flatPixel]
  have r0 : flatPixel (5 / 2) (4 / 5) 1 0 = 5 / 2 := by norm_num [flatPixel]
  have hnd : (seed_pass flatLibm flatTables flatConfig2 0 0 0 2 20
      ⟨2, fun _ => 0, fun _ => 0, flatPixel (5 / 2) (4 / 5) 1, 0, 0, 0⟩
      (seed_state flatLibm flatTables flatConfig2 0 0 0 20
        ⟨2, fun _ => 0, fun _ => 0, flatPixel (5 / 2) (4 / 5) 1, 0, 0, 0⟩)).1 = 0 := by
    unfold seed_pass
    rw [hrho]
    unfold mod_iter_pass
    simp only [e1, e2, e3, ebn, ebw, eaw, hFC, r2, r3, flat_solve_case2]
    norm_num
  have ha0 : (seed_pass flatLibm flatTables flatConfig2 0 0 0 2 20
      ⟨2, fun _ => 0, fun _ => 0, flatPixel (5 / 2) (4 / 5) 1, 0, 0, 0⟩
      (seed_state flatLibm flatTables flatConfig2 0 0 0 20
        ⟨2, fun _ => 0, fun _ => 0, flatPixel (5 / 2) (4 / 5) 1, 0, 0, 0⟩)).2.1.a 0 = -7 / 5 := by
    unfold seed_pass
    rw [hrho]
    unfold mod_iter_pass
    simp only [e1, e2, e3, ebn, ebw, eaw, hFC, r2, r3, r0, flat_solve_case2]
    norm_num [setNB, NB, iter_a2, r0]
  have hb0 : (seed_pass flatLibm flatTables flatConfig2 0 0 0 2 20
      ⟨2, fun _ => 0, fun _ => 0, flatPixel (5 / 2) (4 / 5) 1, 0, 0, 0⟩
      (seed_state flatLibm flatTables flatConfig2 0 0 0 20
        ⟨2, fun _ => 0, fun _ => 0, flatPixel (5 / 2) (4 / 5) 1, 0, 0, 0⟩)).2.1.bb 0 = 1 := by
    unfold seed_pass
    rw [hrho]
    unfold mod_iter_pass
    simp only [e1, e2, e3, ebn, ebw, eaw, hFC, r2, r3, r0, flat_solve_case2]
    norm_num [setNB, NB]
  have hfc : FC_of flatLibm flatTables flatConfig2 (setgeom flatTables 0 0 0).2
      (-7 / 5) (1 / flatConfig2.b_tilde_p) 1 0 = -4 := by
    simp only [FC_of, e3, e4, ebw, eaw, div_one, flat_f_ab_neg]
    norm_num
  refine ⟨by rw [e3]; norm_num, by rw [hFC], hnd, by rw [ha0, hb0]; exact hfc, ?_⟩
  have hpass := mod_iter_pass_FC flatLibm flatTables flatConfig2 (setgeom flatTables 0 0 0).2
    (seed_rho ⟨2, fun _ => 0, fun _ => 0, flatPixel (5 / 2) (4 / 5) 1, 0, 0, 0⟩)
    (fun i => geo2iop flatLibm flatTables.ch_lev flatTables.ac i 20 flatTables.ch_n)
    (fun i => geo2iop flatLibm flatTables.ch_lev flatTables.bc i 20 flatTables.ch_n) 2
    (seed_state flatLibm flatTables flatConfig2 0 0 0 20
      ⟨2, fun _ => 0, fun _ => 0, flatPixel (5 / 2) (4 / 5) 1, 0, 0, 0⟩) 0 hnd
  unfold seed_pass at ha0 hb0 ⊢
  rw [hpass, ha0, hb0, hfc, if_pos (by norm_num)]
  simp only [g, g2, flat_f_ab_one]

end GuardCase2

section GridProofs

variable {K : Type} [LinearOrderedField K] [FloorRing K]

end GridProofs

section PartitionScope

variable {K : Type} [LinearOrderedField K] [FloorRing K]

/-- The partition where the bisection only takes logarithms of positive numbers: when
`iop_model` runs the biogeochemical partition (`mod_iter` succeeded and `a[0]`, `a[1]`,
`a[2]` are positive) with `a[1] > 0.001/0.99`, every value `ady443` passed to `biogeochem_mod`
has `ady443 > 0` and `a[1] - ady443 > 0`, the function returns 0 and the outputs satisfy
`ap[i] = a[i] - ady[i]` at every band `i` in `0..5`; in particular `ady[0] + ap[0] = a[0]`
and `ady[1] + ap[1] = a[1]`, hence within 0.001. -/
theorem iop_model_partition_sum (lm : Libm K) (T : Tables K) (c : Config K) (g : Globals K)
    (rho_w : ℤ → K) (sun_theta sen_theta dphi : K) (a bbp ady ap : ℤ → K)
    (hm : (mod_iter lm T c g.refind rho_w sun_theta sen_theta dphi c.eps_a_init a bbp).fail = 0)
    (hc : (mod_iter lm T c g.refind rho_w sun_theta sen_theta dphi c.eps_a_init a bbp).a 0 > 0
      ∧ (mod_iter lm T c g.refind rho_w sun_theta sen_theta dphi c.eps_a_init a bbp).a 1 > 0
      ∧ (mod_iter lm T c g.refind rho_w sun_theta sen_theta dphi c.eps_a_init a bbp).a 2 > 0)
    (hsafe : 1 / 1000 < 99 / 100
      * (mod_iter lm T c g.refind rho_w sun_theta sen_theta dphi c.eps_a_init a bbp).a 1) :
    (∀ x ∈ biogeochem_iter_args lm
          ((mod_iter lm T c g.refind rho_w sun_theta sen_theta dphi c.eps_a_init a bbp).a 0)
          ((mod_iter lm T c g.refind rho_w sun_theta sen_theta dphi c.eps_a_init a bbp).a 1),
        0 < x
          ∧ 0 < (mod_iter lm T c g.refind rho_w sun_theta sen_theta dphi c.eps_a_init a bbp).a 1
            - x)
      ∧ (iop_model lm T c g rho_w sun_theta sen_theta dphi a bbp ady ap).result = 0
      ∧ (∀ i : ℤ, 0 ≤ i → i < NB →
          (iop_model lm T c g rho_w sun_theta sen_theta dphi a bbp ady ap).ap i
            = (iop_model lm T c g rho_w sun_theta sen_theta dphi a bbp ady ap).a i
              - (iop_model lm T c g rho_w sun_theta sen_theta dphi a bbp ady ap).ady i)
      ∧ (iop_model lm T c g rho_w sun_theta sen_theta dphi a bbp ady ap).ady 0
          + (iop_model lm T c g rho_w sun_theta sen_theta dphi a bbp ady ap).ap 0
        = (iop_model lm T c g rho_w sun_theta sen_theta dphi a bbp ady ap).a 0
      ∧ (iop_model lm T c g rho_w sun_theta sen_theta dphi a bbp ady ap).ady 1
          + (iop_model lm T c g rho_w sun_theta sen_theta dphi a bbp ady ap).ap 1
        = (iop_model lm T c g rho_w sun_theta sen_theta dphi a bbp ady ap).a 1
      ∧ |(iop_model lm T c g rho_w sun_theta sen_theta dphi a bbp ady ap).ady 0
          + (iop_model lm T c g rho_w sun_theta sen_theta dphi a bbp ady ap).ap 0
          - (iop_model lm T c g rho_w sun_theta sen_theta dphi a bbp ady ap).a 0| < 1 / 1000
      ∧ |(iop_model lm T c g rho_w sun_theta sen_theta dphi a bbp ady ap).ady 1
          + (iop_model lm T c g rho_w sun_theta sen_theta dphi a bbp ady ap).ap 1
          - (iop_model lm T c g rho_w sun_theta sen_theta dphi a bbp ady ap).a 1| < 1 / 1000 := by
  obtain ⟨p1, _, _, p4, _, _⟩ :=
    iop_model_partition lm T c g rho_w sun_theta sen_theta dphi a bbp ady ap hm hc
  have h0 := p4 0 (by norm_num) (by norm_num [NB])
  have h1 := p4 1 (by norm_num) (by norm_num [NB])
  refine ⟨?_, p1, p4, by rw [h0]; ring, by rw [h1]; ring, ?_, ?_⟩
  · intro x hx
    obtain ⟨_, k1, _, k3⟩ := biogeochem_iter_args_bracket lm _ _ hsafe x hx
    exact ⟨k1, k3⟩
  · rw [h0]
    have : ∀ x y : K, y + (x - y) - x = 0 := fun x y => by ring
    rw [this, abs_zero]
    norm_num
  · rw [h1]
    have : ∀ x y : K, y + (x - y) - x = 0 := fun x y => by ring
    rw [this, abs_zero]
    norm_num

/-- The values passed by `biogeochem_iter` when `1.01 * a443 < 0.001` (any library
functions): the upper bracket end `a443 - 0.001` and the first midpoint
`0.5*(0.01*a443 + a443 - 0.001)` are negative, so `biogeochem_mod` takes `log10` of a negative
number in both calls. -/
theorem biogeochem_iter_args_negative (lm : Libm K) (a412 a443 : K)
    (h : 101 / 100 * a443 < 1 / 1000) :
    (∃ rest, biogeochem_iter_args lm a412 a443
        = 1 / 100 * a443 :: (a443 - 1 / 1000)
          :: 1 / 2 * (1 / 100 * a443 + (a443 - 1 / 1000)) :: rest)
      ∧ a443 - 1 / 1000 < 0
      ∧ 1 / 2 * (1 / 100 * a443 + (a443 - 1 / 1000)) < 0 := by
  refine ⟨?_, ?_, ?_⟩
  · simp only [biogeochem_iter_args]
    obtain ⟨rest, hr⟩ := biogeochem_loop_args_head lm a412 a443 20
      ⟨1 / 100 * a443, a443 - 1 / 1000, 0,
        (biogeochem_mod lm a443 (a443 - 1 / 1000)).1,
        (biogeochem_mod lm a443 (a443 - 1 / 1000)).2.1,
        (biogeochem_mod lm a443 (a443 - 1 / 1000)).2.2, 0⟩
    exact ⟨rest, by rw [hr]⟩
  · rcases le_or_lt 0 a443 with h0 | h0
    · linarith
    · linarith
  · linarith

/-- An instance of `biogeochem_iter_args_negative`: `a443 = 0.0005` over `ℚ`. -/
theorem biogeochem_iter_args_negative_witness :
    (101 : ℚ) / 100 * (1 / 2000) < 1 / 1000
      ∧ ((1 : ℚ) / 2000 - 1 / 1000 < 0
        ∧ (1 : ℚ) / 2 * (1 / 100 * (1 / 2000) + (1 / 2000 - 1 / 1000)) < 0) :=
  ⟨by norm_num, (biogeochem_iter_args_negative flatLibm 1 (1 / 2000) (by norm_num)).2⟩

end PartitionScope

section PartitionSmall

/-- The partition on the flat tables with the reflectance `(1, 1, 2/3, 1, 1, 1)`, where
`a[1] = 1 > 0.001/0.99`: the band-0 parts sum to `a[0]`. -/
theorem iop_model_partition_sum_flat :
    (iop_model flatLibm flatTables (flatConfig 1) ⟨0, 443⟩ (flatPixel 1 (2 / 3) 1) 0 0 0
        (fun _ => 0) (fun _ => 0) (fun _ => 0) (fun _ => 0)).ady 0
      + (iop_model flatLibm flatTables (flatConfig 1) ⟨0, 443⟩ (flatPixel 1 (2 / 3) 1) 0 0 0
        (fun _ => 0) (fun _ => 0) (fun _ => 0) (fun _ => 0)).ap 0
      = (iop_model flatLibm flatTables (flatConfig 1) ⟨0, 443⟩ (flatPixel 1 (2 / 3) 1) 0 0 0
        (fun _ => 0) (fun _ => 0) (fun _ => 0) (fun _ => 0)).a 0 :=
  (iop_model_partition_sum flatLibm flatTables (flatConfig 1) ⟨0, 443⟩ (flatPixel 1 (2 / 3) 1)
    0 0 0 (fun _ => 0) (fun _ => 0) (fun _ => 0) (fun _ => 0)
    (flat_iop_B ⟨0, 443⟩ 0 0 0 (fun _ => 0) (fun _ => 0) (fun _ => 0) (fun _ => 0)).1.1
    (flat_iop_B ⟨0, 443⟩ 0 0 0 (fun _ => 0) (fun _ => 0) (fun _ => 0) (fun _ => 0)).1.2.1
    (by
      have h := (flat_mod_iter_pixel 0 (fun _ => 0) (fun _ => 0) 0 0 0 1 (2 / 3) 1 1
        (by norm_num) (by norm_num) (by norm_num) flat_solve_AB).2.2.1
      show (1 : ℚ) / 1000 < 99 / 100
        * (mod_iter flatLibm flatTables (flatConfig 1) 0 (flatPixel 1 (2 / 3) 1) 0 0 0
          (flatConfig 1).eps_a_init (fun _ => 0) (fun _ => 0)).a 1
      rw [h]
      norm_num)).2.2.2.1

end PartitionSmall

end PmlIop
